import Mathlib

/-!
# media-demo: the codec pumps and their drivers

A shallow embedding of the control flow of the example programs
`decode_audio.c`, `decode_video.c`, `encode_audio.c`, `encode_video.c` and
`demuxing_decoding.c`, and of the read callback `read_packet` of
`avio_reading.c`.

## What is modelled, and how

* The programs drive libavcodec / libavformat.  The library is not part of
  the repository, so it enters the model as a parameter: an arbitrary state
  type with arbitrary transition functions for the calls the programs make
  (`Engine`, and the `Lib` structure of each program).  The values of
  `AVERROR(EAGAIN)` and `AVERROR_EOF` are parameters as well (`ErrCodes`).
* The model of each library call appends a record of the call to a history
  (`World.calls`, `DemuxingDecoding.State.calls`), so that statements such as
  "no retrieval is attempted" can be made.
* A pointer is the memory it points to (`Ptr`), and `fwrite(p, 1, n, f)`
  appends the `n` bytes at `p` to the list of writes made on `f`.  `fwrite` is
  taken to succeed: the programs ignore its return value.
* Every `while` loop takes a bound on the number of times its condition is
  evaluated.  A loop function returns `(some r, s)` when the C code leaves the
  loop or the function with value `r` in state `s`, and `(none, s)` when the
  bound is reached first, `s` being the state reached so far.  The loops of
  the `main` functions return an `Outcome` in the same way.
* Conversions to `size_t` are explicit (`to_size_t`), and so are the
  conversions to `int` and `uint64_t` in `read_packet` and in the helper
  functions of encode_audio.c (`to_int`, `to_uint64`); the other C integers
  are unbounded integers.  Output to `stdout` and `stderr` is not modelled.
  Failures of `fopen` and of memory allocation are modelled for `main` of
  decode_audio.c only (`DecodeAudio.main_resources`), where the order of the
  acquisitions and releases of its resources is followed.

The definitions come first, then the vocabulary of the statements and the
example library objects on which the statements are evaluated, then the
lemmas and the theorems.
-/

namespace MediaDemo

/-! ## Memory, files, library values -/

/-- One byte of memory or of a file. -/
abbrev Byte := Nat

/-- A non-null C pointer to bytes: `p i` is the byte stored at `p + i`. -/
abbrev Ptr := Nat → Byte

/-- The `n` bytes stored at `p`, `p + 1`, ..., `p + n - 1`. -/
def bytesAt (p : Ptr) (n : Nat) : List Byte := (List.range n).map p

/-- Pointer arithmetic `p + k`. -/
def Ptr.add (p : Ptr) (k : Nat) : Ptr := fun i => p (k + i)

/-- Conversion of a C `int` to `size_t` (64 bits). -/
def to_size_t (x : Int) : Nat := (x % 2 ^ 64).toNat

/-- An output `FILE *`: the data of the `fwrite` calls made on it, oldest first. -/
abbrev Sink := List (List Byte)

/-- All bytes of an output file, in order. -/
def Sink.bytes (f : Sink) : List Byte := f.flatten

/-- The call `fwrite(p, 1, n, f)`. -/
def fwrite (p : Ptr) (n : Nat) (f : Sink) : Sink := f ++ [bytesAt p n]

/-- The values of the libavutil macros `AVERROR(EAGAIN)` and `AVERROR_EOF`,
which the repository uses but does not define. -/
structure ErrCodes where
  EAGAIN : Int
  EOF : Int

/-- An `AVPacket`, with the fields the programs touch.  `data = none` is the
null pointer. -/
structure AVPacket where
  data : Option Ptr
  size : Int
  stream_index : Int
  pts : Int

/-- Memory read through a possibly null pointer.  Reading through `NULL` is
undefined in C; the model then reads zeros. -/
def deref (p : Option Ptr) : Ptr := p.getD (fun _ => 0)

/-- An `AVFrame`, with the fields the programs touch. -/
structure AVFrame where
  width : Int
  height : Int
  format : Int
  nb_samples : Int
  data : Nat → Ptr
  linesize : Nat → Int
  extended_data : Nat → Ptr
  pts : Int
  coded_picture_number : Int

/-- A record of one library call on a codec context. -/
inductive Call (O : Type) where
  /-- A call of `avcodec_send_packet` or `avcodec_send_frame`, with the value
  it returned. -/
  | send (ret : Int)
  /-- A call of `avcodec_receive_frame` or `avcodec_receive_packet`, with the
  value it returned and the content of the output unit after the call. -/
  | receive (ret : Int) (unit : O)
  /-- A call of `av_parser_parse2`, with the bytes of the window it was
  offered and the value it returned. -/
  | parse (window : List Byte) (ret : Int)

/-- The push/pull interface of a codec context.  `σ` is the state of the
library objects (codec context, parser context), `I` the type of what is
submitted, `O` the type of what is retrieved. -/
structure Engine (σ I O : Type) where
  /-- The call `avcodec_send_packet(ctx, pkt)` or `avcodec_send_frame(ctx, frame)`. -/
  send : σ → I → Int × σ
  /-- The call `avcodec_receive_frame(ctx, frame)` or
  `avcodec_receive_packet(ctx, pkt)`: the return value, the content of the output unit after the call, the new
  state. -/
  receive : σ → Int × O × σ

/-- What a single-codec program acts on: the library state, the output, and
the history of the library calls made so far. -/
structure World (σ O S : Type) where
  ctx : σ
  out : S
  calls : List (Call O)

section Library
variable {σ I O S : Type}

/-- The library call that submits `x`, recorded in the history. -/
def World.send (E : Engine σ I O) (w : World σ O S) (x : I) : Int × World σ O S :=
  let r := E.send w.ctx x
  (r.1, { w with ctx := r.2, calls := w.calls ++ [Call.send r.1] })

/-- The library call that retrieves a unit, recorded in the history. -/
def World.receive (E : Engine σ I O) (w : World σ O S) : Int × O × World σ O S :=
  let r := E.receive w.ctx
  (r.1, r.2.1, { w with ctx := r.2.2, calls := w.calls ++ [Call.receive r.1 r.2.1] })

end Library

/-! ## encode_audio.c -/

namespace EncodeAudio
variable {σ : Type}

/-- The `while (ret >= 0)` loop of `encode` (encode_audio.c lines 243-260). -/
def encode_loop (E : Engine σ (Option AVFrame) AVPacket) (c : ErrCodes) :
    Nat → Int → World σ AVPacket Sink → Option Int × World σ AVPacket Sink
  | 0, _, w => (none, w)
  | fuel + 1, ret, w =>
    if 0 ≤ ret then
      let r := w.receive E
      if r.1 = c.EAGAIN ∨ r.1 = c.EOF then (some 0, r.2.2)
      else if r.1 < 0 then (some r.1, r.2.2)
      else
        encode_loop E c fuel r.1
          { r.2.2 with out := fwrite (deref r.2.1.data) (to_size_t r.2.1.size) r.2.2.out }
    else (some 0, w)

/-- The function `encode` of encode_audio.c; `frame = none` is the null frame
that flushes the encoder. -/
def encode (E : Engine σ (Option AVFrame) AVPacket) (c : ErrCodes) (fuel : Nat)
    (w : World σ AVPacket Sink) (frame : Option AVFrame) :
    Option Int × World σ AVPacket Sink :=
  let r := w.send E frame
  if r.1 < 0 then (some r.1, r.2) else encode_loop E c fuel r.1 r.2

end EncodeAudio

/-! ## encode_video.c -/

namespace EncodeVideo
variable {σ : Type}

/-- The `while (ret >= 0)` loop of `encode` (encode_video.c lines 184-204). -/
def encode_loop (E : Engine σ (Option AVFrame) AVPacket) (c : ErrCodes) :
    Nat → Int → World σ AVPacket Sink → Option Int × World σ AVPacket Sink
  | 0, _, w => (none, w)
  | fuel + 1, ret, w =>
    if 0 ≤ ret then
      let r := w.receive E
      if r.1 = c.EAGAIN ∨ r.1 = c.EOF then (some 0, r.2.2)
      else if r.1 < 0 then (some r.1, r.2.2)
      else
        encode_loop E c fuel r.1
          { r.2.2 with out := fwrite (deref r.2.1.data) (to_size_t r.2.1.size) r.2.2.out }
    else (some 0, w)

/-- The function `encode` of encode_video.c; `frame = none` is the null frame
that flushes the encoder. -/
def encode (E : Engine σ (Option AVFrame) AVPacket) (c : ErrCodes) (fuel : Nat)
    (w : World σ AVPacket Sink) (frame : Option AVFrame) :
    Option Int × World σ AVPacket Sink :=
  let r := w.send E frame
  if r.1 < 0 then (some r.1, r.2) else encode_loop E c fuel r.1 r.2

end EncodeVideo

/-! ## decode_audio.c -/

namespace DecodeAudio
variable {σ : Type}

/-- The library objects of decode_audio.c: the decoder, the parser, and the
two fields of the codec context that `decode` reads. -/
structure Lib (σ : Type) where
  /-- The decoder: `avcodec_send_packet`, `avcodec_receive_frame`. -/
  dec : Engine σ AVPacket AVFrame
  /-- The call `av_parser_parse2(parser_ctx, codec_ctx, &pkt->data, &pkt->size,
  data, data_size, ...)`: from the state, the pointer `data` and `data_size`
  to the return value, the new `pkt->data`, the new `pkt->size`, the new
  state. -/
  av_parser_parse2 : σ → Ptr → Nat → Int × Option Ptr × Int × σ
  /-- The value of `av_get_bytes_per_sample(dec_ctx->sample_fmt)`. -/
  bytes_per_sample : σ → Int
  /-- The value of `dec_ctx->channels`. -/
  channels : σ → Int
  /-- The two codes that end a drain loop. -/
  c : ErrCodes

/-- The nested `for` loops of `decode` (decode_audio.c lines 278-280): one
`fwrite` of `data_size` bytes per sample and channel. -/
def write_samples (frame : AVFrame) (channels data_size : Int) (outfile : Sink) : Sink :=
  (List.range frame.nb_samples.toNat).foldl
    (fun f i => (List.range channels.toNat).foldl
      (fun g ch => fwrite ((frame.data ch).add (data_size * i).toNat) (to_size_t data_size) g) f)
    outfile

/-- The `while (ret >= 0)` loop of `decode` (decode_audio.c lines 236-281). -/
def decode_loop (L : Lib σ) :
    Nat → Int → World σ AVFrame Sink → Option Int × World σ AVFrame Sink
  | 0, _, w => (none, w)
  | fuel + 1, ret, w =>
    if 0 ≤ ret then
      let r := w.receive L.dec
      if r.1 = L.c.EAGAIN ∨ r.1 = L.c.EOF then (some 0, r.2.2)
      else if r.1 < 0 then (some (-1), r.2.2)
      else
        let data_size := L.bytes_per_sample r.2.2.ctx
        if data_size < 0 then (some (-1), r.2.2)
        else
          decode_loop L fuel r.1
            { r.2.2 with
              out := write_samples r.2.1 (L.channels r.2.2.ctx) data_size r.2.2.out }
    else (some 0, w)

/-- The function `decode` of decode_audio.c. -/
def decode (L : Lib σ) (fuel : Nat) (w : World σ AVFrame Sink) (pkt : AVPacket) :
    Option Int × World σ AVFrame Sink :=
  let r := w.send L.dec pkt
  if r.1 < 0 then (some (-1), r.2) else decode_loop L fuel r.1 r.2

end DecodeAudio

/-! ## decode_video.c -/

namespace DecodeVideo
variable {σ : Type}

/-- The files written by decode_video.c: one entry per `pgm_save` call, with
the file name and the writes made on the file. -/
abbrev Files := List (String × Sink)

/-- The library objects of decode_video.c. -/
structure Lib (σ : Type) where
  /-- The decoder; the packet is `none` for the null packet that flushes. -/
  dec : Engine σ (Option AVPacket) AVFrame
  /-- The call `av_parser_parse2`, as in decode_audio.c. -/
  av_parser_parse2 : σ → Ptr → Nat → Int × Option Ptr × Int × σ
  /-- The value of `dec_ctx->frame_number`. -/
  frame_number : σ → Int
  /-- The two codes that end a drain loop. -/
  c : ErrCodes

/-- The bytes of a string. -/
def str_bytes (s : String) : List Byte := s.toUTF8.toList.map UInt8.toNat

/-- The function `pgm_save` (decode_video.c lines 154-164): the writes made on
the file it creates.  A negative stride is not modelled. -/
def pgm_save (buf : Ptr) (wrap xsize ysize : Int) : Sink :=
  (List.range ysize.toNat).foldl
    (fun fd i => fwrite (buf.add (i * wrap).toNat) (to_size_t xsize) fd)
    [str_bytes ("P5\n" ++ toString xsize ++ " " ++ toString ysize ++ "\n" ++ toString 255 ++ "\n")]

/-- The file name built by `snprintf(buf, sizeof(buf), "%s-%d", ...)` with a
buffer of 1024 characters. -/
def frame_filename (filename : String) (frame_number : Int) : String :=
  String.mk ((filename ++ "-" ++ toString frame_number).toList.take 1023)

/-- The `while (ret >= 0)` loop of `decode` (decode_video.c lines 179-198). -/
def decode_loop (L : Lib σ) (filename : String) :
    Nat → Int → World σ AVFrame Files → Option Int × World σ AVFrame Files
  | 0, _, w => (none, w)
  | fuel + 1, ret, w =>
    if 0 ≤ ret then
      let r := w.receive L.dec
      if r.1 = L.c.EAGAIN ∨ r.1 = L.c.EOF then (some 0, r.2.2)
      else if r.1 < 0 then (some (-1), r.2.2)
      else
        decode_loop L filename fuel r.1
          { r.2.2 with
            out := r.2.2.out ++
              [(frame_filename filename (L.frame_number r.2.2.ctx),
                pgm_save (r.2.1.data 0) (r.2.1.linesize 0) r.2.1.width r.2.1.height)] }
    else (some 0, w)

/-- The function `decode` of decode_video.c. -/
def decode (L : Lib σ) (filename : String) (fuel : Nat) (w : World σ AVFrame Files)
    (pkt : Option AVPacket) : Option Int × World σ AVFrame Files :=
  let r := w.send L.dec pkt
  if r.1 < 0 then (some (-1), r.2) else decode_loop L filename fuel r.1 r.2

end DecodeVideo

/-! ## demuxing_decoding.c -/

namespace DemuxingDecoding
variable {σ φ : Type}

/-- A record of one library call of demuxing_decoding.c. -/
inductive DCall where
  /-- A call of `av_read_frame`: the value it returned, and the stream index
  and size of the packet after the call. -/
  | read (ret stream_index size : Int)
  /-- A call of `avcodec_send_packet(video_dec_ctx, &pkt)`: the size of the
  packet and the value returned. -/
  | send_video (size ret : Int)
  /-- A call of `avcodec_receive_frame(video_dec_ctx, frame)`. -/
  | receive_video (ret : Int)
  /-- A call of `avcodec_send_packet(audio_dec_ctx, &pkt)`. -/
  | send_audio (size ret : Int)
  /-- A call of `avcodec_receive_frame(audio_dec_ctx, frame)`. -/
  | receive_audio (ret : Int)
  deriving DecidableEq, Repr

/-- The library objects of demuxing_decoding.c. -/
structure Lib (σ φ : Type) where
  /-- The call `av_read_frame(fmt_ctx, &pkt)`: the return value, the packet
  after the call, the new demuxer state. -/
  av_read_frame : φ → AVPacket → Int × AVPacket × φ
  /-- The video decoder. -/
  video : Engine σ AVPacket AVFrame
  /-- The audio decoder. -/
  audio : Engine σ AVPacket AVFrame
  /-- The call `av_image_copy(video_dst_data, video_dst_linesize, frame->data,
  frame->linesize, pix_fmt, width, height)`: the content of the destination
  buffer after the call, from its content before, the frame, `pix_fmt`,
  `width` and `height`. -/
  av_image_copy : Ptr → AVFrame → Int → Int → Int → Ptr
  /-- The function `av_get_bytes_per_sample`. -/
  av_get_bytes_per_sample : Int → Int
  /-- The two codes that end a drain loop. -/
  c : ErrCodes

/-- The file-scope variables of demuxing_decoding.c that are set before the
read loop and not changed by it. -/
structure Config where
  video_stream_idx : Int
  audio_stream_idx : Int
  width : Int
  height : Int
  pix_fmt : Int
  video_dst_bufsize : Int

/-- The file-scope variables that the read loop changes, the two output
files, the state of the library objects, and the history of library calls. -/
structure State (σ φ : Type) where
  fmt_ctx : φ
  video_dec_ctx : σ
  audio_dec_ctx : σ
  pkt : AVPacket
  video_dst_data : Ptr
  video_frame_count : Int
  audio_frame_count : Int
  video_dst_file : Sink
  audio_dst_file : Sink
  calls : List DCall

/-- The `while (ret >= 0)` loop of the video branch of `decode_packet`
(demuxing_decoding.c lines 388-431); `decoded` is the value of the local
variable of that name. -/
def video_loop (L : Lib σ φ) (k : Config) (decoded : Int) :
    Nat → Int → State σ φ → Option Int × State σ φ
  | 0, _, st => (none, st)
  | fuel + 1, ret, st =>
    if 0 ≤ ret then
      let r := L.video.receive st.video_dec_ctx
      let st1 := { st with video_dec_ctx := r.2.2,
                           calls := st.calls ++ [DCall.receive_video r.1] }
      if r.1 = L.c.EAGAIN ∨ r.1 = L.c.EOF then (some 0, st1)
      else if r.1 < 0 then (some r.1, st1)
      else if r.2.1.width ≠ k.width ∨ r.2.1.height ≠ k.height ∨ r.2.1.format ≠ k.pix_fmt then
        (some (-1), st1)
      else
        let dst := L.av_image_copy st1.video_dst_data r.2.1 k.pix_fmt k.width k.height
        video_loop L k decoded fuel r.1
          { st1 with video_frame_count := st1.video_frame_count + 1,
                     video_dst_data := dst,
                     video_dst_file := fwrite dst (to_size_t k.video_dst_bufsize)
                       st1.video_dst_file }
    else (some decoded, st)

/-- The `while (ret >= 0)` loop of the audio branch of `decode_packet`
(demuxing_decoding.c lines 455-487). -/
def audio_loop (L : Lib σ φ) (decoded : Int) :
    Nat → Int → State σ φ → Option Int × State σ φ
  | 0, _, st => (none, st)
  | fuel + 1, ret, st =>
    if 0 ≤ ret then
      let r := L.audio.receive st.audio_dec_ctx
      let st1 := { st with audio_dec_ctx := r.2.2,
                           calls := st.calls ++ [DCall.receive_audio r.1] }
      if r.1 = L.c.EAGAIN ∨ r.1 = L.c.EOF then (some 0, st1)
      else if r.1 < 0 then (some r.1, st1)
      else
        let unpadded_linesize :=
          to_size_t (L.av_get_bytes_per_sample r.2.1.format * r.2.1.nb_samples)
        audio_loop L decoded fuel r.1
          { st1 with audio_frame_count := st1.audio_frame_count + 1,
                     audio_dst_file := fwrite (r.2.1.extended_data 0) unpadded_linesize
                       st1.audio_dst_file }
    else (some decoded, st)

/-- The function `decode_packet` of demuxing_decoding.c.  The argument
`cached` only changes what is printed. -/
def decode_packet (L : Lib σ φ) (k : Config) (fuel : Nat) (_cached : Int) (st : State σ φ) :
    Option Int × State σ φ :=
  let decoded := st.pkt.size
  if st.pkt.stream_index = k.video_stream_idx then
    let r := L.video.send st.video_dec_ctx st.pkt
    let st1 := { st with video_dec_ctx := r.2,
                         calls := st.calls ++ [DCall.send_video st.pkt.size r.1] }
    if r.1 < 0 then (some r.1, st1) else video_loop L k decoded fuel r.1 st1
  else if st.pkt.stream_index = k.audio_stream_idx then
    let r := L.audio.send st.audio_dec_ctx st.pkt
    let st1 := { st with audio_dec_ctx := r.2,
                         calls := st.calls ++ [DCall.send_audio st.pkt.size r.1] }
    if r.1 < 0 then (some r.1, st1)
    else
      let decoded := min r.1 st.pkt.size
      audio_loop L decoded fuel r.1 st1
  else (some decoded, st)

/-- The `do ... while (pkt.size > 0)` loop of `main` (demuxing_decoding.c
lines 296-302). -/
def packet_loop (L : Lib σ φ) (k : Config) (fuel : Nat) :
    Nat → State σ φ → Option Int × State σ φ
  | 0, st => (none, st)
  | n + 1, st =>
    match decode_packet L k fuel 0 st with
    | (none, st1) => (none, st1)
    | (some ret, st1) =>
      if ret < 0 then (some ret, st1)
      else
        let st2 := { st1 with pkt := { st1.pkt with
                                         data := st1.pkt.data.map (fun p => p.add ret.toNat),
                                         size := st1.pkt.size - ret } }
        if 0 < st2.pkt.size then packet_loop L k fuel n st2 else (some ret, st2)

/-- The `while (av_read_frame(fmt_ctx, &pkt) >= 0)` loop of `main`
(demuxing_decoding.c lines 294-307); `ret` is the variable of `main`. -/
def read_loop (L : Lib σ φ) (k : Config) (fuel : Nat) :
    Nat → Int → State σ φ → Option Int × State σ φ
  | 0, _, st => (none, st)
  | n + 1, ret, st =>
    let r := L.av_read_frame st.fmt_ctx st.pkt
    let st1 := { st with fmt_ctx := r.2.2, pkt := r.2.1,
                         calls := st.calls ++ [DCall.read r.1 r.2.1.stream_index r.2.1.size] }
    if 0 ≤ r.1 then
      match packet_loop L k fuel fuel st1 with
      | (none, st2) => (none, st2)
      | (some ret1, st2) => read_loop L k fuel n ret1 st2
    else (some ret, st1)

/-- The part of `main` that drives the decoders (demuxing_decoding.c lines
294-316): the read loop, then the flush call.  The result is the value of
`ret` after the flush call. -/
def main (L : Lib σ φ) (k : Config) (fuel : Nat) (st : State σ φ) : Option Int × State σ φ :=
  match read_loop L k fuel fuel 0 st with
  | (none, st1) => (none, st1)
  | (some _, st1) =>
    decode_packet L k fuel 1 { st1 with pkt := { st1.pkt with data := none, size := 0 } }

end DemuxingDecoding

/-! ## The `main` functions of the single-codec programs -/

/-- How the modelled part of a `main` function ended. -/
inductive Outcome where
  /-- The bound on the loop iterations was reached. -/
  | timeout
  /-- The program called `exit(code)`. -/
  | exited (code : Int)
  /-- The program took a `goto end`. -/
  | jumped
  /-- The program ran to the label `end` without a jump. -/
  | finished
  deriving DecidableEq, Repr

/-- An input `FILE *`: the bytes not read yet, the sizes to which the next
`fread` calls are cut short (a call beyond the list is not cut short), and the
end-of-file indicator. -/
structure InFile where
  rest : List Byte
  sizes : List Nat
  eof : Bool

/-- The call `fread(ptr, 1, n, f)`: the bytes delivered and the file after the
call.  The end-of-file indicator is set when the call runs into the end of the
file. -/
def fread (f : InFile) (n : Nat) : List Byte × InFile :=
  let k := min n (f.sizes.headD n)
  (f.rest.take k,
   { rest := f.rest.drop k, sizes := f.sizes.tail, eof := f.eof || decide (f.rest.length < k) })

/-- The call `memmove(buf + dst, buf + src, n)`. -/
def memmove (buf : Ptr) (dst src n : Nat) : Ptr :=
  fun i => if dst ≤ i ∧ i < dst + n then buf (src + (i - dst)) else buf i

/-- The memory `buf` after the bytes `chunk` were stored at `buf + off`. -/
def store (buf : Ptr) (off : Nat) (chunk : List Byte) : Ptr :=
  fun i => if off ≤ i ∧ i < off + chunk.length then chunk.getD (i - off) 0 else buf i

namespace DecodeAudio
variable {σ : Type}

/-- The value of the preprocessor constant of that name (decode_audio.c line 20). -/
def AUDIO_INBUF_SIZE : Nat := 20480

/-- The value of the preprocessor constant of that name (decode_audio.c line 21). -/
def AUDIO_REFILL_THRESH : Nat := 4096

/-- The variables of `main` of decode_audio.c.  `data` is the offset of the
pointer `data` from `inbuf`; `decoded_frame` tells whether the pointer of that
name is non-null. -/
structure State (σ : Type) where
  w : World σ AVFrame Sink
  infile : InFile
  inbuf : Ptr
  data : Nat
  data_size : Nat
  pkt : AVPacket
  decoded_frame : Bool

/-- The refill step of the feeding loop (decode_audio.c lines 142-149). -/
def refill (st : State σ) : State σ :=
  if st.data_size < AUDIO_REFILL_THRESH then
    let inbuf1 := memmove st.inbuf 0 st.data st.data_size
    let r := fread st.infile (to_size_t ((AUDIO_INBUF_SIZE : Int) - st.data_size))
    let len : Int := r.1.length
    { st with inbuf := store inbuf1 st.data_size r.1,
              data := 0,
              infile := r.2,
              data_size := if 0 < len then to_size_t (st.data_size + len) else st.data_size }
  else st

/-- The call of `av_parser_parse2` in the feeding loop (decode_audio.c lines
116-128), preceded by the allocation of `decoded_frame` when it is null: the
value returned and the state after the call.  A failure of `av_frame_alloc` is
not modelled. -/
def parse_call (L : Lib σ) (st : State σ) : Int × State σ :=
  let p := L.av_parser_parse2 st.w.ctx (st.inbuf.add st.data) st.data_size
  (p.1,
   { st with decoded_frame := true,
             w := { st.w with ctx := p.2.2.2,
                              calls := st.w.calls ++
                                [Call.parse (bytesAt (st.inbuf.add st.data) st.data_size) p.1] },
             pkt := { st.pkt with data := p.2.1, size := p.2.2.1 } })

/-- The statements `data += ret; data_size -= ret;` (decode_audio.c lines
133-134). -/
def advance (st : State σ) (ret : Int) : State σ :=
  { st with data := st.data + ret.toNat,
            data_size := to_size_t ((st.data_size : Int) - ret) }

/-- The state after the parser call and the advance of the cursor. -/
def parsed (L : Lib σ) (st : State σ) : State σ :=
  advance (parse_call L st).2 (parse_call L st).1

/-- The loop `while (data_size > 0)` of `main` (decode_audio.c lines 115-150). -/
def feed_loop (L : Lib σ) (fuel : Nat) : Nat → State σ → Outcome × State σ
  | 0, st => (Outcome.timeout, st)
  | n + 1, st =>
    if 0 < st.data_size then
      if (parse_call L st).1 < 0 then (Outcome.exited 1, (parse_call L st).2)
      else
        if (parsed L st).pkt.size ≠ 0 then
          match decode L fuel (parsed L st).w (parsed L st).pkt with
          | (none, w1) => (Outcome.timeout, { parsed L st with w := w1 })
          | (some r, w1) =>
            if r < 0 then (Outcome.jumped, { parsed L st with w := w1 })
            else feed_loop L fuel n (refill { parsed L st with w := w1 })
        else feed_loop L fuel n (refill (parsed L st))
    else (Outcome.finished, st)

/-- The first read of `main` (decode_audio.c lines 112-113). -/
def first_read (st : State σ) : State σ :=
  let r := fread st.infile AUDIO_INBUF_SIZE
  { st with inbuf := store st.inbuf 0 r.1, data := 0, infile := r.2, data_size := r.1.length }

/-- The part of `main` from the first read to the flush call (decode_audio.c
lines 111-156). -/
def main (L : Lib σ) (fuel : Nat) (st : State σ) : Outcome × State σ :=
  match feed_loop L fuel fuel (first_read st) with
  | (Outcome.finished, st1) =>
    let pkt := { st1.pkt with data := none, size := 0 }
    match decode L fuel st1.w pkt with
    | (none, w1) => (Outcome.timeout, { st1 with w := w1, pkt := pkt })
    | (some r, w1) =>
      (if r < 0 then Outcome.jumped else Outcome.finished, { st1 with w := w1, pkt := pkt })
  | other => other

end DecodeAudio

namespace DecodeVideo
variable {σ : Type}

/-- The value of the preprocessor constant of that name (decode_video.c line 15). -/
def INBUF_SIZE : Nat := 4096

/-- The variables of `main` of decode_video.c.  `data` is the offset of the
pointer `data` from `inbuf`. -/
structure State (σ : Type) where
  w : World σ AVFrame Files
  fd : InFile
  inbuf : Ptr
  data : Nat
  data_size : Nat
  pkt : AVPacket

/-- The call of `av_parser_parse2` in the feeding loop (decode_video.c lines
124-126): the value returned and the state after the call. -/
def parse_call (L : Lib σ) (st : State σ) : Int × State σ :=
  let p := L.av_parser_parse2 st.w.ctx (st.inbuf.add st.data) st.data_size
  (p.1,
   { st with w := { st.w with ctx := p.2.2.2,
                              calls := st.w.calls ++
                                [Call.parse (bytesAt (st.inbuf.add st.data) st.data_size) p.1] },
             pkt := { st.pkt with data := p.2.1, size := p.2.2.1 } })

/-- The statements `data += ret; data_size -= ret;` (decode_video.c lines
131-132). -/
def advance (st : State σ) (ret : Int) : State σ :=
  { st with data := st.data + ret.toNat,
            data_size := to_size_t ((st.data_size : Int) - ret) }

/-- The state after the parser call and the advance of the cursor. -/
def parsed (L : Lib σ) (st : State σ) : State σ :=
  advance (parse_call L st).2 (parse_call L st).1

/-- The loop `while (data_size > 0)` of `main` (decode_video.c lines 123-137). -/
def parse_loop (L : Lib σ) (filename : String) (fuel : Nat) :
    Nat → State σ → Outcome × State σ
  | 0, st => (Outcome.timeout, st)
  | n + 1, st =>
    if 0 < st.data_size then
      if (parse_call L st).1 < 0 then (Outcome.exited 1, (parse_call L st).2)
      else
        if (parsed L st).pkt.size ≠ 0 then
          match decode L filename fuel (parsed L st).w (some (parsed L st).pkt) with
          | (none, w1) => (Outcome.timeout, { parsed L st with w := w1 })
          | (some r, w1) =>
            if r < 0 then (Outcome.jumped, { parsed L st with w := w1 })
            else parse_loop L filename fuel n { parsed L st with w := w1 }
        else parse_loop L filename fuel n (parsed L st)
    else (Outcome.finished, st)

/-- The statement `data_size = fread(inbuf, 1, INBUF_SIZE, fd);`
(decode_video.c line 116). -/
def read_chunk (st : State σ) : State σ :=
  { st with fd := (fread st.fd INBUF_SIZE).2,
            inbuf := store st.inbuf 0 (fread st.fd INBUF_SIZE).1,
            data_size := (fread st.fd INBUF_SIZE).1.length }

/-- The loop `while (!feof(fd))` of `main` (decode_video.c lines 114-138). -/
def feed_loop (L : Lib σ) (filename : String) (fuel : Nat) :
    Nat → State σ → Outcome × State σ
  | 0, st => (Outcome.timeout, st)
  | n + 1, st =>
    if st.fd.eof = false then
      if (read_chunk st).data_size = 0 then (Outcome.finished, read_chunk st)
      else
        match parse_loop L filename fuel fuel { read_chunk st with data := 0 } with
        | (Outcome.finished, st2) => feed_loop L filename fuel n st2
        | other => other
    else (Outcome.finished, st)

/-- The part of `main` from the feeding loop to the flush call (decode_video.c
lines 114-142). -/
def main (L : Lib σ) (filename : String) (fuel : Nat) (st : State σ) : Outcome × State σ :=
  match feed_loop L filename fuel fuel st with
  | (Outcome.finished, st1) =>
    match decode L filename fuel st1.w none with
    | (none, w1) => (Outcome.timeout, { st1 with w := w1 })
    | (some r, w1) => (if r < 0 then Outcome.jumped else Outcome.finished, { st1 with w := w1 })
  | other => other

end DecodeVideo

namespace EncodeAudio
variable {σ : Type}

/-- The library objects of encode_audio.c. -/
structure Lib (σ : Type) where
  /-- The encoder: `avcodec_send_frame`, `avcodec_receive_packet`. -/
  enc : Engine σ (Option AVFrame) AVPacket
  /-- The call `av_frame_make_writable(frame)`: the return value and the frame
  after the call. -/
  av_frame_make_writable : σ → AVFrame → Int × AVFrame
  /-- The frame after the sample-fill loop of iteration `i` (encode_audio.c
  lines 139-147), whose values come from floating-point arithmetic. -/
  fill : σ → Nat → AVFrame → AVFrame
  /-- The two codes that end a drain loop. -/
  c : ErrCodes

/-- The variables of `main` of encode_audio.c. -/
structure State (σ : Type) where
  w : World σ AVPacket Sink
  frame : AVFrame
  ret : Int

/-- The loop `for (int i = 0; i < 200; i++)` of `main` (encode_audio.c lines
129-151); the first argument is the number of iterations left, the second is
`i`. -/
def frame_loop (L : Lib σ) (fuel : Nat) : Nat → Nat → State σ → Outcome × State σ
  | 0, _, st => (Outcome.finished, st)
  | n + 1, i, st =>
    let m := L.av_frame_make_writable st.w.ctx st.frame
    if m.1 < 0 then (Outcome.jumped, { st with ret := m.1, frame := m.2 })
    else
      let frame := L.fill st.w.ctx i m.2
      match encode L.enc L.c fuel st.w (some frame) with
      | (none, w1) => (Outcome.timeout, { w := w1, frame := frame, ret := m.1 })
      | (some r, w1) =>
        if r < 0 then (Outcome.jumped, { w := w1, frame := frame, ret := r })
        else frame_loop L fuel n (i + 1) { w := w1, frame := frame, ret := r }

/-- The part of `main` that drives the encoder (encode_audio.c lines 126-155). -/
def main (L : Lib σ) (fuel : Nat) (st : State σ) : Outcome × State σ :=
  match frame_loop L fuel 200 0 st with
  | (Outcome.finished, st1) =>
    match encode L.enc L.c fuel st1.w none with
    | (none, w1) => (Outcome.timeout, { st1 with w := w1 })
    | (some r, w1) =>
      (if r < 0 then Outcome.jumped else Outcome.finished, { st1 with w := w1, ret := r })
  | other => other

end EncodeAudio

namespace EncodeVideo
variable {σ : Type}

/-- The library objects of encode_video.c. -/
structure Lib (σ : Type) where
  /-- The encoder: `avcodec_send_frame`, `avcodec_receive_packet`. -/
  enc : Engine σ (Option AVFrame) AVPacket
  /-- The call `av_frame_make_writable(frame)`: the return value and the frame
  after the call. -/
  av_frame_make_writable : σ → AVFrame → Int × AVFrame
  /-- The frame after the loops that draw the dummy image of iteration `i`
  (encode_video.c lines 130-142). -/
  fill : σ → Nat → AVFrame → AVFrame
  /-- Whether `codec->id` is `AV_CODEC_ID_MPEG1VIDEO` or `AV_CODEC_ID_MPEG2VIDEO`. -/
  is_mpeg12 : Bool
  /-- The two codes that end a drain loop. -/
  c : ErrCodes

/-- The variables of `main` of encode_video.c. -/
structure State (σ : Type) where
  w : World σ AVPacket Sink
  frame : AVFrame
  ret : Int

/-- The array `endcode` of `main` (encode_video.c line 32). -/
def endcode : Ptr := fun i => [0, 0, 1, 0xb7].getD i 0

/-- The loop `for (int i = 0; i < 25; i++)` of `main` (encode_video.c lines
117-149); the first argument is the number of iterations left, the second is
`i`.  The result of `av_frame_make_writable` is only printed. -/
def frame_loop (L : Lib σ) (fuel : Nat) : Nat → Nat → State σ → Outcome × State σ
  | 0, _, st => (Outcome.finished, st)
  | n + 1, i, st =>
    let m := L.av_frame_make_writable st.w.ctx st.frame
    let frame := { L.fill st.w.ctx i m.2 with pts := i }
    match encode L.enc L.c fuel st.w (some frame) with
    | (none, w1) => (Outcome.timeout, { w := w1, frame := frame, ret := m.1 })
    | (some r, w1) =>
      if r < 0 then (Outcome.jumped, { w := w1, frame := frame, ret := r })
      else frame_loop L fuel n (i + 1) { w := w1, frame := frame, ret := r }

/-- The part of `main` that drives the encoder (encode_video.c lines 116-158). -/
def main (L : Lib σ) (fuel : Nat) (st : State σ) : Outcome × State σ :=
  match frame_loop L fuel 25 0 st with
  | (Outcome.finished, st1) =>
    match encode L.enc L.c fuel st1.w none with
    | (none, w1) => (Outcome.timeout, { st1 with w := w1 })
    | (some r, w1) =>
      if r < 0 then (Outcome.jumped, { st1 with w := w1, ret := r })
      else
        (Outcome.finished,
         { st1 with ret := r,
                    w := if L.is_mpeg12 then { w1 with out := fwrite endcode 4 w1.out } else w1 })
  | other => other

end EncodeVideo

/-! ## Vocabulary of the statements -/

section Vocabulary
variable {σ O : Type}

/-- The statement `Emits recv c s xs s1`: starting in state `s`, the next
`xs.length` calls of `recv` each deliver a unit, that is, return a
non-negative value other than the two codes of `c`; `xs` lists what these
calls return (value, unit, new state), and `s1` is the state after them. -/
def Emits (recv : σ → Int × O × σ) (c : ErrCodes) : σ → List (Int × O × σ) → σ → Prop
  | s, [], s1 => s1 = s
  | s, x :: xs, s1 =>
    recv s = x ∧ 0 ≤ x.1 ∧ x.1 ≠ c.EAGAIN ∧ x.1 ≠ c.EOF ∧ Emits recv c x.2.2 xs s1

/-- The history entries of the retrievals listed in `xs`. -/
def receipts (xs : List (Int × O × σ)) : List (Call O) :=
  xs.map (fun x => Call.receive x.1 x.2.1)

/-- The payload of a packet: the `size` bytes at `data`. -/
def AVPacket.payload (p : AVPacket) : List Byte := bytesAt (deref p.data) (to_size_t p.size)

/-- The units that the history records as delivered: the units of the
retrievals that returned a non-negative value other than the two codes of `c`. -/
def delivered (c : ErrCodes) : List (Call O) → List O
  | [] => []
  | Call.receive ret u :: cs =>
    if 0 ≤ ret ∧ ret ≠ c.EAGAIN ∧ ret ≠ c.EOF then u :: delivered c cs else delivered c cs
  | _ :: cs => delivered c cs

/-- The bytes that the parser has consumed according to the history: for each
parser call, in order, the first `ret` bytes of the window it was offered. -/
def consumed : List (Call O) → List Byte
  | [] => []
  | Call.parse window ret :: cs => window.take ret.toNat ++ consumed cs
  | _ :: cs => consumed cs

/-- The contract of the parser: the number of bytes consumed lies between 0
and the number of bytes available. -/
def ParserContract (parse : σ → Ptr → Nat → Int × Option Ptr × Int × σ) : Prop :=
  ∀ s p n, 0 ≤ (parse s p n).1 ∧ (parse s p n).1 ≤ n

/-- The unconsumed window of decode_audio.c: the `data_size` bytes at `data`. -/
def DecodeAudio.window (st : DecodeAudio.State σ) : List Byte :=
  bytesAt (st.inbuf.add st.data) st.data_size

/-- The unconsumed window of decode_video.c: the `data_size` bytes at `data`. -/
def DecodeVideo.window (st : DecodeVideo.State σ) : List Byte :=
  bytesAt (st.inbuf.add st.data) st.data_size

/-- The statement that, in state `st` of decode_audio.c, the bytes consumed by
the parser, followed by the unconsumed window, followed by the rest of the
input file, are the byte stream `input`. -/
def DecodeAudio.Fed (input : List Byte) (st : DecodeAudio.State σ) : Prop :=
  consumed st.w.calls ++ DecodeAudio.window st ++ st.infile.rest = input

/-- The statement that, in state `st` of decode_video.c, the bytes consumed by
the parser, followed by the unconsumed window, followed by the rest of the
input file, are the byte stream `input`. -/
def DecodeVideo.Fed (input : List Byte) (st : DecodeVideo.State σ) : Prop :=
  consumed st.w.calls ++ DecodeVideo.window st ++ st.fd.rest = input

/-- The statement that the answer of `recv` is repeatable while nothing new
is submitted: when a call returns one of the two codes of `c`, the next call
returns the same code. -/
def Repeatable (recv : σ → Int × O × σ) (c : ErrCodes) : Prop :=
  ∀ s, ((recv s).1 = c.EAGAIN ∨ (recv s).1 = c.EOF) → (recv (recv s).2.2).1 = (recv s).1

/-- The statement that the last entry of a history is a retrieval that
returned one of the two codes of `c`. -/
def EndsDrained (c : ErrCodes) (calls : List (Call O)) : Prop :=
  ∃ u, calls.getLast? = some (Call.receive c.EAGAIN u) ∨
       calls.getLast? = some (Call.receive c.EOF u)

/-- The writes that `decode` of decode_audio.c makes for one retrieval `x`
(value, frame, state after the call). -/
def DecodeAudio.frame_writes (L : DecodeAudio.Lib σ) (x : Int × AVFrame × σ) : Sink :=
  DecodeAudio.write_samples x.2.1 (L.channels x.2.2) (L.bytes_per_sample x.2.2) []

/-- The file that `decode` of decode_video.c saves for one retrieval `x`
(value, frame, state after the call). -/
def DecodeVideo.saved (L : DecodeVideo.Lib σ) (filename : String) (x : Int × AVFrame × σ) :
    String × Sink :=
  (DecodeVideo.frame_filename filename (L.frame_number x.2.2),
   DecodeVideo.pgm_save (x.2.1.data 0) (x.2.1.linesize 0) x.2.1.width x.2.1.height)

end Vocabulary

namespace DemuxingDecoding
variable {σ φ : Type}

/-- The state after the video branch of `decode_packet` has retrieved and
written one frame; `x` is what the retrieval returned (value, frame, decoder
state after the call). -/
def video_step (L : Lib σ φ) (k : Config) (st : State σ φ) (x : Int × AVFrame × σ) :
    State σ φ :=
  { st with video_dec_ctx := x.2.2,
            calls := st.calls ++ [DCall.receive_video x.1],
            video_frame_count := st.video_frame_count + 1,
            video_dst_data := L.av_image_copy st.video_dst_data x.2.1 k.pix_fmt k.width k.height,
            video_dst_file :=
              fwrite (L.av_image_copy st.video_dst_data x.2.1 k.pix_fmt k.width k.height)
                (to_size_t k.video_dst_bufsize) st.video_dst_file }

/-- The writes on the video file for the frames of the retrievals `xs`, the
image buffer holding `dst` before the first of them. -/
def video_writes (L : Lib σ φ) (k : Config) : Ptr → List (Int × AVFrame × σ) → Sink
  | _, [] => []
  | dst, x :: xs =>
    bytesAt (L.av_image_copy dst x.2.1 k.pix_fmt k.width k.height) (to_size_t k.video_dst_bufsize)
      :: video_writes L k (L.av_image_copy dst x.2.1 k.pix_fmt k.width k.height) xs

/-- The state after the audio branch of `decode_packet` has retrieved and
written one frame. -/
def audio_step (L : Lib σ φ) (st : State σ φ) (x : Int × AVFrame × σ) : State σ φ :=
  { st with audio_dec_ctx := x.2.2,
            calls := st.calls ++ [DCall.receive_audio x.1],
            audio_frame_count := st.audio_frame_count + 1,
            audio_dst_file :=
              fwrite (x.2.1.extended_data 0)
                (to_size_t (L.av_get_bytes_per_sample x.2.1.format * x.2.1.nb_samples))
                st.audio_dst_file }

/-- The write on the audio file for the frame `f`. -/
def audio_write (L : Lib σ φ) (f : AVFrame) : List Byte :=
  bytesAt (f.extended_data 0) (to_size_t (L.av_get_bytes_per_sample f.format * f.nb_samples))

/-- The state after `decode_packet` has submitted the packet to the video
decoder. -/
def video_sent (L : Lib σ φ) (st : State σ φ) : State σ φ :=
  { st with video_dec_ctx := (L.video.send st.video_dec_ctx st.pkt).2,
            calls := st.calls ++
              [DCall.send_video st.pkt.size (L.video.send st.video_dec_ctx st.pkt).1] }

/-- The state after `decode_packet` has submitted the packet to the audio
decoder. -/
def audio_sent (L : Lib σ φ) (st : State σ φ) : State σ φ :=
  { st with audio_dec_ctx := (L.audio.send st.audio_dec_ctx st.pkt).2,
            calls := st.calls ++
              [DCall.send_audio st.pkt.size (L.audio.send st.audio_dec_ctx st.pkt).1] }

/-- The statement that the frame `f` has the width, height and pixel format
that were fixed before the read loop. -/
def SameShape (k : Config) (f : AVFrame) : Prop :=
  f.width = k.width ∧ f.height = k.height ∧ f.format = k.pix_fmt

instance (k : Config) (f : AVFrame) : Decidable (SameShape k f) :=
  inferInstanceAs (Decidable (f.width = k.width ∧ f.height = k.height ∧ f.format = k.pix_fmt))

/-- Whether a history entry is a submission to a decoder. -/
def DCall.isSend : DCall → Bool
  | DCall.send_video _ _ => true
  | DCall.send_audio _ _ => true
  | _ => false

/-- Whether a history entry is a submission that the decoder rejected. -/
def DCall.isRejectedSend : DCall → Bool
  | DCall.send_video _ r => decide (r < 0)
  | DCall.send_audio _ r => decide (r < 0)
  | _ => false

/-- The statement that no submission follows a rejected submission in a
history. -/
def NoSendAfterRejectedSend (calls : List DCall) : Prop :=
  ∀ (before after : List DCall) (x : DCall),
    calls = before ++ x :: after → x.isRejectedSend = true → ∀ y ∈ after, y.isSend = false

/-- The statement that the last entry of a history is a retrieval that
returned one of the two codes of `c`. -/
def EndsDrained (c : ErrCodes) (calls : List DCall) : Prop :=
  calls.getLast? = some (DCall.receive_video c.EAGAIN) ∨
  calls.getLast? = some (DCall.receive_video c.EOF) ∨
  calls.getLast? = some (DCall.receive_audio c.EAGAIN) ∨
  calls.getLast? = some (DCall.receive_audio c.EOF)

end DemuxingDecoding

/-! ## Example engines

Concrete library objects on which the statements are evaluated. -/

/-- The values of `AVERROR(EAGAIN)` and `AVERROR_EOF` on Linux. -/
def linux : ErrCodes := { EAGAIN := -11, EOF := -541478725 }

/-- The state of the example codec: the answers queued for the next
retrievals (return value and payload), the payloads held back until the flush,
whether the flush signal was received, whether the codec holds its input back
until the flush, and the value that submissions return. -/
structure Toy where
  ready : List (Int × List Byte)
  held : List (List Byte)
  flushed : Bool
  buffering : Bool
  send_ret : Int
  deriving DecidableEq, Repr

/-- Submission to the example codec: `x` is the payload, `none` the flush
signal.  A negative `send_ret` rejects the submission. -/
def Toy.send (s : Toy) (x : Option (List Byte)) : Int × Toy :=
  if s.send_ret < 0 then (s.send_ret, s)
  else
    match x with
    | some b =>
      if s.buffering then (s.send_ret, { s with held := s.held ++ [b] })
      else (s.send_ret, { s with ready := s.ready ++ [(0, b)] })
    | none =>
      (s.send_ret,
       { s with ready := s.ready ++ s.held.map (fun b => (0, b)), held := [], flushed := true })

/-- Retrieval from the example codec: the next queued answer; with an empty
queue `AVERROR_EOF` after the flush and `AVERROR(EAGAIN)` before it.  A queued
answer that is one of these two codes stays queued. -/
def Toy.receive (s : Toy) : Int × List Byte × Toy :=
  match s.ready with
  | (r, b) :: rest =>
    if r = linux.EAGAIN ∨ r = linux.EOF then (r, [], s) else (r, b, { s with ready := rest })
  | [] => (if s.flushed then linux.EOF else linux.EAGAIN, [], s)

/-- Memory that holds the bytes `b`, followed by zeros. -/
def mem (b : List Byte) : Ptr := fun i => b.getD i 0

/-- A packet with payload `b`. -/
def toyPacket (b : List Byte) : AVPacket :=
  { data := some (mem b), size := b.length, stream_index := 0, pts := 0 }

/-- A frame of one row whose planes all hold the bytes `b`. -/
def toyFrame (b : List Byte) : AVFrame :=
  { width := b.length, height := 1, format := 0, nb_samples := b.length,
    data := fun _ => mem b, linesize := fun _ => b.length, extended_data := fun _ => mem b,
    pts := 0, coded_picture_number := 0 }

/-- The example codec as an encoder: the payload of a frame is its first plane. -/
def toyEncoder : Engine Toy (Option AVFrame) AVPacket where
  send s f := s.send (f.map (fun f => bytesAt (f.data 0) f.nb_samples.toNat))
  receive s := ((s.receive).1, toyPacket (s.receive).2.1, (s.receive).2.2)

/-- The example codec as a decoder of packets; a packet of size 0 is the flush
signal. -/
def toyDecoder : Engine Toy AVPacket AVFrame where
  send s p := s.send (if p.size = 0 then none else some p.payload)
  receive s := ((s.receive).1, toyFrame (s.receive).2.1, (s.receive).2.2)

/-- The example codec as a decoder that is flushed by the null packet. -/
def toyDecoderNull : Engine Toy (Option AVPacket) AVFrame where
  send s p := s.send (p.map AVPacket.payload)
  receive s := ((s.receive).1, toyFrame (s.receive).2.1, (s.receive).2.2)

/-- An example codec in its initial state. -/
def toy0 (buffering : Bool) : Toy :=
  { ready := [], held := [], flushed := false, buffering := buffering, send_ret := 0 }

/-- An initial world around the codec state `s`. -/
def world0 {O S : Type} (s : Toy) (out : S) : World Toy O S := { ctx := s, out := out, calls := [] }

/-- An example codec with two answers queued: a unit `[1, 2]` and a unit `[3]`. -/
def toyLoaded : Toy :=
  { ready := [(0, [1, 2]), (0, [3])], held := [], flushed := false, buffering := true,
    send_ret := 0 }

/-- An example codec with a unit `[1, 2]` queued, followed by the error `-5`. -/
def toyFailing : Toy :=
  { ready := [(0, [1, 2]), (-5, [])], held := [], flushed := false, buffering := true,
    send_ret := 0 }

/-- An example codec that rejects every submission with `-22`. -/
def toyRejecting : Toy :=
  { ready := [(0, [1, 2])], held := [], flushed := false, buffering := true, send_ret := -22 }

/-- An example codec with two units of two bytes queued. -/
def toyPictures : Toy :=
  { ready := [(0, [1, 2]), (0, [5, 6])], held := [], flushed := false, buffering := true,
    send_ret := 0 }

/-- An example codec with a unit of two bytes queued, followed by a unit of
one byte. -/
def toyResized : Toy :=
  { ready := [(0, [1, 2]), (0, [3])], held := [], flushed := false, buffering := true,
    send_ret := 0 }

/-- An example codec with a unit of one byte queued, followed by a unit of two
bytes. -/
def toyShrunk : Toy :=
  { ready := [(0, [3]), (0, [1, 2])], held := [], flushed := false, buffering := true,
    send_ret := 0 }

/-- Example library objects for encode_audio.c: the frame is always writable
and the fill loop leaves it as it is. -/
def toyEncLib : EncodeAudio.Lib Toy where
  enc := toyEncoder
  av_frame_make_writable := fun _ f => (0, f)
  fill := fun _ _ f => f
  c := linux

/-- Example library objects for encode_video.c. -/
def toyEncVideoLib : EncodeVideo.Lib Toy where
  enc := toyEncoder
  av_frame_make_writable := fun _ f => (0, f)
  fill := fun _ _ f => f
  is_mpeg12 := true
  c := linux

/-- An example initial state of `main` of decode_audio.c around the codec
state `s`: the input file holds `input` and the next reads are cut short to
the sizes `sizes`. -/
def toyAudioState (s : Toy) (input : List Byte) (sizes : List Nat) : DecodeAudio.State Toy :=
  { w := world0 s [],
    infile := { rest := input, sizes := sizes, eof := false },
    inbuf := fun _ => 0, data := 0, data_size := 0,
    pkt := { data := none, size := 0, stream_index := 0, pts := 0 },
    decoded_frame := false }

/-- An example initial state of `main` of decode_video.c around the codec
state `s`: the input file holds `input` and the next reads are cut short to
the sizes `sizes`. -/
def toyVideoState (s : Toy) (input : List Byte) (sizes : List Nat) : DecodeVideo.State Toy :=
  { w := world0 s [],
    fd := { rest := input, sizes := sizes, eof := false },
    inbuf := fun _ => 0, data := 0, data_size := 0,
    pkt := { data := none, size := 0, stream_index := 0, pts := 0 } }

/-- An example initial state of `main` of encode_audio.c around the codec
state `s`. -/
def toyEncState (s : Toy) : EncodeAudio.State Toy :=
  { w := world0 s [], frame := toyFrame [9], ret := 0 }

/-- An example initial state of `main` of encode_video.c around the codec
state `s`. -/
def toyEncVideoState (s : Toy) : EncodeVideo.State Toy :=
  { w := world0 s [], frame := toyFrame [9], ret := 0 }

/-- An example parser: it consumes up to two bytes per call and hands them on
as one packet. -/
def toyParse (s : Toy) (p : Ptr) (n : Nat) : Int × Option Ptr × Int × Toy :=
  (min n 2, some p, min n 2, s)

/-- Example library objects for decode_audio.c: one channel, one byte per
sample. -/
def toyAudioLib : DecodeAudio.Lib Toy where
  dec := toyDecoder
  av_parser_parse2 := toyParse
  bytes_per_sample := fun _ => 1
  channels := fun _ => 1
  c := linux

/-- Example library objects for decode_video.c. -/
def toyVideoLib : DecodeVideo.Lib Toy where
  dec := toyDecoderNull
  av_parser_parse2 := toyParse
  frame_number := fun s => s.ready.length
  c := linux

/-- An example demuxer: its state lists the packets still to be read, each as
stream index and payload.  At the end of the input it returns `AVERROR_EOF`
and leaves a blank packet. -/
def toyRead (q : List (Int × List Byte)) (_pkt : AVPacket) :
    Int × AVPacket × List (Int × List Byte) :=
  match q with
  | (i, b) :: rest => (0, { toyPacket b with stream_index := i }, rest)
  | [] => (linux.EOF, { data := none, size := 0, stream_index := 0, pts := 0 }, [])

/-- Example library objects for demuxing_decoding.c. -/
def toyLib : DemuxingDecoding.Lib Toy (List (Int × List Byte)) where
  av_read_frame := toyRead
  video := toyDecoder
  audio := toyDecoder
  av_image_copy := fun _ f _ _ _ => f.data 0
  av_get_bytes_per_sample := fun _ => 1
  c := linux

/-- An example configuration: video is stream 0, audio is stream 1, images
are 2 x 1 and take 2 bytes. -/
def toyConfig : DemuxingDecoding.Config :=
  { video_stream_idx := 0, audio_stream_idx := 1, width := 2, height := 1, pix_fmt := 0,
    video_dst_bufsize := 2 }

/-- An example initial state of demuxing_decoding.c: the two decoder states,
the packets of the input, and the packet variable holding stream index `i`. -/
def toyState (v a : Toy) (q : List (Int × List Byte)) (i : Int) :
    DemuxingDecoding.State Toy (List (Int × List Byte)) :=
  { fmt_ctx := q, video_dec_ctx := v, audio_dec_ctx := a,
    pkt := { data := none, size := 0, stream_index := i, pts := 0 },
    video_dst_data := fun _ => 0, video_frame_count := 0, audio_frame_count := 0,
    video_dst_file := [], audio_dst_file := [], calls := [] }

/-- The list of what the next two calls of `recv` return from state `s`. -/
def next2 {σ O : Type} (recv : σ → Int × O × σ) (s : σ) : List (Int × O × σ) :=
  [recv s, recv (recv s).2.2]

/-- The state after the next two calls of `recv` from state `s`. -/
def after2 {σ O : Type} (recv : σ → Int × O × σ) (s : σ) : σ :=
  (recv (recv s).2.2).2.2

/-- A stereo frame made from the bytes `b`: the first half of `b` is at
`data[0]`, the second half follows it in memory and is at `data[1]`; the
number of samples is half the number of bytes.  Read as a planar frame of one
byte per sample, plane 0 is the first half; read as a packed frame, the
interleaved samples of both channels start at `data[0]`. -/
def toyStereoFrame (b : List Byte) : AVFrame :=
  { width := 0, height := 0, format := 0, nb_samples := (b.length / 2 : Nat),
    data := fun ch => mem (b.drop (ch * (b.length / 2))),
    linesize := fun _ => (b.length / 2 : Nat),
    extended_data := fun ch => mem (b.drop (ch * (b.length / 2))),
    pts := 0, coded_picture_number := 0 }

/-- The example codec as a decoder of stereo frames. -/
def toyStereoDecoder : Engine Toy AVPacket AVFrame where
  send s p := s.send (if p.size = 0 then none else some p.payload)
  receive s := ((s.receive).1, toyStereoFrame (s.receive).2.1, (s.receive).2.2)

/-- Example library objects for demuxing_decoding.c with a stereo audio
decoder and one byte per sample. -/
def toyStereoLib : DemuxingDecoding.Lib Toy (List (Int × List Byte)) where
  av_read_frame := toyRead
  video := toyDecoder
  audio := toyStereoDecoder
  av_image_copy := fun _ f _ _ _ => f.data 0
  av_get_bytes_per_sample := fun _ => 1
  c := linux

/-- An example codec with one unit of four bytes queued. -/
def toyQuad : Toy :=
  { ready := [(0, [1, 2, 3, 4])], held := [], flushed := false, buffering := true,
    send_ret := 0 }

/-- The statement that `video_frame_count` is the number of writes made on the
video file and that each of these writes has `video_dst_bufsize` bytes. -/
def DemuxingDecoding.VideoSized {σ φ : Type} (k : DemuxingDecoding.Config)
    (st : DemuxingDecoding.State σ φ) : Prop :=
  (st.video_dst_file.length : Int) = st.video_frame_count ∧
  ∀ wr ∈ st.video_dst_file, wr.length = k.video_dst_bufsize.toNat

/-- Example library objects for decode_audio.c with a planar stereo decoder:
two channels, one byte per sample. -/
def toyStereoAudioLib : DecodeAudio.Lib Toy where
  dec := toyStereoDecoder
  av_parser_parse2 := toyParse
  bytes_per_sample := fun _ => 1
  channels := fun _ => 2
  c := linux

/-- The writes that the nested `for` loops of `decode` (decode_audio.c lines
278-280) make for one frame, listed explicitly: for each sample `i` in order,
and for each channel `ch` in order, the `data_size` bytes at
`data[ch] + data_size * i`. -/
def DecodeAudio.interleaved (frame : AVFrame) (channels data_size : Int) : Sink :=
  ((List.range frame.nb_samples.toNat).map (fun (i : Nat) =>
    (List.range channels.toNat).map (fun (ch : Nat) =>
      bytesAt ((frame.data ch).add (data_size * (i : Int)).toNat) (to_size_t data_size)))).flatten

/-- The example codec as a decoder with room for one packet: a packet of size
0 is the flush signal; any other packet is refused with `AVERROR(EAGAIN)`
while an earlier packet is still held. -/
def toyOnceDecoder : Engine Toy AVPacket AVFrame where
  send s p :=
    if p.size = 0 then s.send none
    else if s.held.isEmpty then s.send (some p.payload) else (linux.EAGAIN, s)
  receive s := ((s.receive).1, toyFrame (s.receive).2.1, (s.receive).2.2)

/-- Example library objects for demuxing_decoding.c with two decoders that
have room for one packet each. -/
def toyOnceLib : DemuxingDecoding.Lib Toy (List (Int × List Byte)) where
  av_read_frame := toyRead
  video := toyOnceDecoder
  audio := toyOnceDecoder
  av_image_copy := fun _ f _ _ _ => f.data 0
  av_get_bytes_per_sample := fun _ => 1
  c := linux

/-- Whether a history entry is a call on the video decoder. -/
def DemuxingDecoding.DCall.onVideo : DemuxingDecoding.DCall → Bool
  | DemuxingDecoding.DCall.send_video _ _ => true
  | DemuxingDecoding.DCall.receive_video _ => true
  | _ => false

/-- Whether a history entry is a call on the audio decoder. -/
def DemuxingDecoding.DCall.onAudio : DemuxingDecoding.DCall → Bool
  | DemuxingDecoding.DCall.send_audio _ _ => true
  | DemuxingDecoding.DCall.receive_audio _ => true
  | _ => false

/-- Example library objects for encode_audio.c whose `av_frame_make_writable`
fails with -12. -/
def toyStuckEncLib : EncodeAudio.Lib Toy where
  enc := toyEncoder
  av_frame_make_writable := fun _ f => (-12, f)
  fill := fun _ _ f => f
  c := linux

/-- Example library objects for encode_video.c whose `av_frame_make_writable`
fails with -12. -/
def toyStuckEncVideoLib : EncodeVideo.Lib Toy where
  enc := toyEncoder
  av_frame_make_writable := fun _ f => (-12, f)
  fill := fun _ _ f => f
  is_mpeg12 := true
  c := linux

/-- The example codec as an encoder that, once flushed, refuses every further
submission with `AVERROR_EOF`. -/
def toyStrictEncoder : Engine Toy (Option AVFrame) AVPacket where
  send s f := if s.flushed then (linux.EOF, s) else toyEncoder.send s f
  receive := toyEncoder.receive

/-- The example codec as a decoder that, once flushed, refuses every further
submission with `AVERROR_EOF`. -/
def toyStrictDecoder : Engine Toy AVPacket AVFrame where
  send s p := if s.flushed then (linux.EOF, s) else toyDecoder.send s p
  receive := toyDecoder.receive

/-- The example codec as a decoder flushed by the null packet that, once
flushed, refuses every further submission with `AVERROR_EOF`. -/
def toyStrictDecoderNull : Engine Toy (Option AVPacket) AVFrame where
  send s p := if s.flushed then (linux.EOF, s) else toyDecoderNull.send s p
  receive := toyDecoderNull.receive

/-- Example library objects for decode_audio.c around the strict decoder. -/
def toyStrictAudioLib : DecodeAudio.Lib Toy where
  dec := toyStrictDecoder
  av_parser_parse2 := toyParse
  bytes_per_sample := fun _ => 1
  channels := fun _ => 1
  c := linux

/-- Example library objects for decode_video.c around the strict decoder. -/
def toyStrictVideoLib : DecodeVideo.Lib Toy where
  dec := toyStrictDecoderNull
  av_parser_parse2 := toyParse
  frame_number := fun s => s.ready.length
  c := linux

/-- An example codec that holds one unit `[1, 2]` back until the flush. -/
def toyHolding : Toy :=
  { ready := [], held := [[1, 2]], flushed := false, buffering := true, send_ret := 0 }

/-- The flush packet: no data, size 0. -/
def flushPacket : AVPacket := { data := none, size := 0, stream_index := 0, pts := 0 }

/-- Whether a history entry is a parser call. -/
def Call.isParse {O : Type} : Call O → Bool
  | Call.parse _ _ => true
  | _ => false

/-- The statement `WellFed input calls`: every parser call recorded in the
history `calls` was offered at least `AUDIO_REFILL_THRESH` bytes, or
everything that was left of the byte stream `input`, that is, the bytes
consumed by the calls before it, followed by its window, are the whole of
`input`. -/
def DecodeAudio.WellFed {O : Type} (input : List Byte) (calls : List (Call O)) : Prop :=
  ∀ (pre post : List (Call O)) (win : List Byte) (r : Int),
    calls = pre ++ Call.parse win r :: post →
    DecodeAudio.AUDIO_REFILL_THRESH ≤ win.length ∨ consumed pre ++ win = input

/-- The same statement, by recursion over the history; `done` are the bytes
consumed before the first entry of `calls`. -/
def DecodeAudio.WellFedFrom {O : Type} (input : List Byte) : List Byte → List (Call O) → Prop
  | _, [] => True
  | done, Call.parse win r :: cs =>
    (DecodeAudio.AUDIO_REFILL_THRESH ≤ win.length ∨ done ++ win = input) ∧
      DecodeAudio.WellFedFrom input (done ++ win.take r.toNat) cs
  | done, _ :: cs => DecodeAudio.WellFedFrom input done cs

/-- The statement that, at the head of the feeding loop of decode_audio.c, the
window holds at least `AUDIO_REFILL_THRESH` bytes or the input file has no
byte left. -/
def DecodeAudio.Supplied {σ : Type} (st : DecodeAudio.State σ) : Prop :=
  DecodeAudio.AUDIO_REFILL_THRESH ≤ st.data_size ∨ st.infile.rest = []

/-- The library objects of decode_audio.c with the submission function of the
decoder replaced by `send`. -/
def DecodeAudio.Lib.with_send {σ : Type} (L : DecodeAudio.Lib σ)
    (send : σ → AVPacket → Int × σ) : DecodeAudio.Lib σ :=
  { L with dec := { send := send, receive := L.dec.receive } }

/-- The library objects of decode_video.c with the submission function of the
decoder replaced by `send`. -/
def DecodeVideo.Lib.with_send {σ : Type} (L : DecodeVideo.Lib σ)
    (send : σ → Option AVPacket → Int × σ) : DecodeVideo.Lib σ :=
  { L with dec := { send := send, receive := L.dec.receive } }

/-- A submission function for decode_audio.c that refuses the flush signal (a
packet of size 0) with -1 and otherwise acts as the example decoder. -/
def toyNoFlushSend (s : Toy) (p : AVPacket) : Int × Toy :=
  if p.size = 0 then (-1, s) else toyDecoder.send s p

/-- A submission function for decode_video.c that refuses the flush signal (the
null packet or a packet of size 0) with -1 and otherwise acts as the example
decoder. -/
def toyNoFlushSendNull (s : Toy) (p : Option AVPacket) : Int × Toy :=
  match p with
  | some q => if q.size = 0 then (-1, s) else toyDecoderNull.send s (some q)
  | none => (-1, s)

/-- The resources that `main` of decode_audio.c acquires, named after the
pointer variables that hold them. -/
inductive DecodeAudio.Resource where
  /-- The packet from `av_packet_alloc`. -/
  | pkt
  /-- The parser from `av_parser_init`. -/
  | parser_ctx
  /-- The codec context from `avcodec_alloc_context3`. -/
  | codec_ctx
  /-- The input file from `fopen`. -/
  | infile
  /-- The output file from `fopen`. -/
  | outfile
  /-- The frame from `av_frame_alloc`. -/
  | decoded_frame
  deriving DecidableEq, Repr

/-- An acquisition or a release of a resource. -/
inductive DecodeAudio.Event where
  | acquire (r : DecodeAudio.Resource)
  | release (r : DecodeAudio.Resource)
  deriving DecidableEq, Repr

/-- Whether each of the calls of `main` of decode_audio.c that can fail
outside the decoding succeeds. -/
structure DecodeAudio.Setup where
  av_packet_alloc : Bool
  avcodec_find_decoder : Bool
  av_parser_init : Bool
  avcodec_alloc_context3 : Bool
  avcodec_open2 : Bool
  fopen_infile : Bool
  fopen_outfile : Bool
  av_frame_alloc : Bool
  get_format_from_sample_fmt : Bool
  deriving DecidableEq, Repr

/-- Which of the pointer variables of `main` of decode_audio.c are non-null. -/
structure DecodeAudio.Pointers where
  pkt : Bool
  parser_ctx : Bool
  codec_ctx : Bool
  infile : Bool
  outfile : Bool
  decoded_frame : Bool
  deriving DecidableEq, Repr

/-- The code at the label `end` of `main` (decode_audio.c lines 180-185): each
of the six calls releases its resource when the pointer is non-null. -/
def DecodeAudio.end_label (p : DecodeAudio.Pointers) : List DecodeAudio.Event :=
  (if p.decoded_frame then [DecodeAudio.Event.release DecodeAudio.Resource.decoded_frame] else []) ++
  (if p.outfile then [DecodeAudio.Event.release DecodeAudio.Resource.outfile] else []) ++
  (if p.infile then [DecodeAudio.Event.release DecodeAudio.Resource.infile] else []) ++
  (if p.codec_ctx then [DecodeAudio.Event.release DecodeAudio.Resource.codec_ctx] else []) ++
  (if p.parser_ctx then [DecodeAudio.Event.release DecodeAudio.Resource.parser_ctx] else []) ++
  (if p.pkt then [DecodeAudio.Event.release DecodeAudio.Resource.pkt] else [])

/-- The acquisition of the frame in the feeding loop, if it took place. -/
def DecodeAudio.frame_event {σ : Type} (st : DecodeAudio.State σ) : List DecodeAudio.Event :=
  if st.decoded_frame then [DecodeAudio.Event.acquire DecodeAudio.Resource.decoded_frame] else []

/-- The function `main` of decode_audio.c from `av_packet_alloc` on
(lines 68-187), as far as resources are concerned: how it ends, and the
acquisitions and releases it makes, in order.  The decoding in the middle is
`DecodeAudio.main`, started with `decoded_frame` null.  After a failure to
open the output file, `av_free(codec_ctx)` releases the codec context and
leaves the pointer as it is. -/
def DecodeAudio.main_resources {σ : Type} (L : DecodeAudio.Lib σ) (fuel : Nat)
    (su : DecodeAudio.Setup) (st : DecodeAudio.State σ) :
    Outcome × List DecodeAudio.Event :=
  if su.av_packet_alloc = false then (Outcome.exited 1, [])
  else
    let p0 : DecodeAudio.Pointers :=
      { pkt := true, parser_ctx := false, codec_ctx := false, infile := false,
        outfile := false, decoded_frame := false }
    let t0 := [DecodeAudio.Event.acquire DecodeAudio.Resource.pkt]
    if su.avcodec_find_decoder = false then (Outcome.jumped, t0 ++ DecodeAudio.end_label p0)
    else if su.av_parser_init = false then (Outcome.jumped, t0 ++ DecodeAudio.end_label p0)
    else
      let p1 := { p0 with parser_ctx := true }
      let t1 := t0 ++ [DecodeAudio.Event.acquire DecodeAudio.Resource.parser_ctx]
      if su.avcodec_alloc_context3 = false then (Outcome.jumped, t1 ++ DecodeAudio.end_label p1)
      else
        let p2 := { p1 with codec_ctx := true }
        let t2 := t1 ++ [DecodeAudio.Event.acquire DecodeAudio.Resource.codec_ctx]
        if su.avcodec_open2 = false then (Outcome.jumped, t2 ++ DecodeAudio.end_label p2)
        else if su.fopen_infile = false then (Outcome.jumped, t2 ++ DecodeAudio.end_label p2)
        else
          let p3 := { p2 with infile := true }
          let t3 := t2 ++ [DecodeAudio.Event.acquire DecodeAudio.Resource.infile]
          if su.fopen_outfile = false then
            (Outcome.jumped,
             t3 ++ [DecodeAudio.Event.release DecodeAudio.Resource.codec_ctx] ++
               DecodeAudio.end_label p3)
          else
            let p4 := { p3 with outfile := true }
            let t4 := t3 ++ [DecodeAudio.Event.acquire DecodeAudio.Resource.outfile]
            let st0 := { st with decoded_frame := false }
            if su.av_frame_alloc = false ∧ 0 < (DecodeAudio.first_read st0).data_size then
              (Outcome.exited 1, t4)
            else
              match DecodeAudio.main L fuel st0 with
              | (Outcome.timeout, st1) => (Outcome.timeout, t4 ++ DecodeAudio.frame_event st1)
              | (Outcome.exited code, st1) =>
                (Outcome.exited code, t4 ++ DecodeAudio.frame_event st1)
              | (Outcome.jumped, st1) =>
                (Outcome.jumped,
                 t4 ++ DecodeAudio.frame_event st1 ++
                   DecodeAudio.end_label { p4 with decoded_frame := st1.decoded_frame })
              | (Outcome.finished, st1) =>
                (if su.get_format_from_sample_fmt then Outcome.finished else Outcome.jumped,
                 t4 ++ DecodeAudio.frame_event st1 ++
                   DecodeAudio.end_label { p4 with decoded_frame := st1.decoded_frame })

/-- The resources acquired in a trace, in order. -/
def DecodeAudio.acquired : List DecodeAudio.Event → List DecodeAudio.Resource
  | [] => []
  | DecodeAudio.Event.acquire r :: t => r :: DecodeAudio.acquired t
  | DecodeAudio.Event.release _ :: t => DecodeAudio.acquired t

/-- The resources released in a trace, in order. -/
def DecodeAudio.released : List DecodeAudio.Event → List DecodeAudio.Resource
  | [] => []
  | DecodeAudio.Event.acquire _ :: t => DecodeAudio.released t
  | DecodeAudio.Event.release r :: t => r :: DecodeAudio.released t

/-- The statement that a trace consists of acquisitions of distinct resources
followed by one release of each of them, in the reverse order. -/
def DecodeAudio.ReleasedInReverse (t : List DecodeAudio.Event) : Prop :=
  t = (DecodeAudio.acquired t).map DecodeAudio.Event.acquire ++
      (DecodeAudio.acquired t).reverse.map DecodeAudio.Event.release ∧
  (DecodeAudio.acquired t).Nodup

instance (t : List DecodeAudio.Event) : Decidable (DecodeAudio.ReleasedInReverse t) :=
  inferInstanceAs (Decidable (_ ∧ _))

/-- The set-up in which every call succeeds. -/
def toySetup : DecodeAudio.Setup :=
  { av_packet_alloc := true, avcodec_find_decoder := true, av_parser_init := true,
    avcodec_alloc_context3 := true, avcodec_open2 := true, fopen_infile := true,
    fopen_outfile := true, av_frame_alloc := true, get_format_from_sample_fmt := true }

/-- Example library objects for decode_audio.c whose parser fails. -/
def toyBadParseLib : DecodeAudio.Lib Toy where
  dec := toyDecoder
  av_parser_parse2 := fun s _ _ => (-1, none, 0, s)
  bytes_per_sample := fun _ => 1
  channels := fun _ => 1
  c := linux

/-- The states of the example run of the `do ... while` loop of
demuxing_decoding.c: the packet has size 1 and belongs to the video stream,
and the video decoder holds back what it is given, has nothing to deliver and
accepts every submission. -/
def toyBusy (st : DemuxingDecoding.State Toy (List (Int × List Byte))) : Prop :=
  st.pkt.size = 1 ∧ st.pkt.stream_index = 0 ∧ st.video_dec_ctx.ready = [] ∧
  st.video_dec_ctx.flushed = false ∧ st.video_dec_ctx.buffering = true ∧
  st.video_dec_ctx.send_ret = 0

/-! ## avio_reading.c and the helper functions of encode_audio.c -/

/-- The conversion of a value to `int` (32 bits, two's complement). -/
def to_int (x : Int) : Int := (x + 2 ^ 31) % 2 ^ 32 - 2 ^ 31

/-- The conversion of a value to `uint64_t`. -/
def to_uint64 (x : Int) : Nat := (x % 2 ^ 64).toNat

/-- The `struct buffer_data` of avio_reading.c: the read position and the
number of bytes left in the buffer (a `size_t`). -/
structure AvioReading.buffer_data where
  ptr : Ptr
  size : Nat

/-- The function `read_packet` of avio_reading.c (lines 123-139): the value
returned, the `buffer_data` after the call, and the memory at `buf` after the
call.  `FFMIN(buf_size, bd->size)` compares and yields its operands as
`size_t`, and the result is stored in the `int` variable `buf_size`. -/
def AvioReading.read_packet (c : ErrCodes) (bd : AvioReading.buffer_data) (buf : Ptr)
    (buf_size : Int) : Int × AvioReading.buffer_data × Ptr :=
  let buf_size1 :=
    to_int (if bd.size < to_size_t buf_size then (bd.size : Int) else (to_size_t buf_size : Int))
  if buf_size1 = 0 then (c.EOF, bd, buf)
  else
    (buf_size1,
     { ptr := bd.ptr.add (to_size_t buf_size1),
       size := to_size_t ((bd.size : Int) - buf_size1) },
     store buf 0 (bytesAt bd.ptr (to_size_t buf_size1)))

/-- The bytes that a call of `read_packet` has copied to `buf`: none when the
call returned `AVERROR_EOF`, else the first `ret` bytes at `buf`. -/
def AvioReading.copied (c : ErrCodes) (r : Int × AvioReading.buffer_data × Ptr) : List Byte :=
  if r.1 = c.EOF then [] else bytesAt r.2.2 r.1.toNat

/-- Successive calls of `read_packet` on the same `buffer_data`, one for each
destination `buf` and `buf_size` of `calls`: the bytes copied by each call, and
the `buffer_data` after the last call. -/
def AvioReading.read_sequence (c : ErrCodes) :
    AvioReading.buffer_data → List (Ptr × Int) → List (List Byte) × AvioReading.buffer_data
  | bd, [] => ([], bd)
  | bd, x :: xs =>
    (AvioReading.copied c (AvioReading.read_packet c bd x.1 x.2) ::
       (AvioReading.read_sequence c (AvioReading.read_packet c bd x.1 x.2).2.1 xs).1,
     (AvioReading.read_sequence c (AvioReading.read_packet c bd x.1 x.2).2.1 xs).2)

/-- The value of `AV_SAMPLE_FMT_NONE`. -/
def EncodeAudio.AV_SAMPLE_FMT_NONE : Int := -1

/-- The function `check_sample_fmt` of encode_audio.c (lines 170-180).  The
list holds the array `codec->sample_fmts` from its first entry on; its end is
taken as a terminator. -/
def EncodeAudio.check_sample_fmt : List Int → Int → Int
  | [], _ => 0
  | p :: ps, sample_fmt =>
    if p = EncodeAudio.AV_SAMPLE_FMT_NONE then 0
    else if p = sample_fmt then 1
    else EncodeAudio.check_sample_fmt ps sample_fmt

/-- The loop `while (*p)` of `select_sample_rate` (encode_audio.c lines
193-199); the second argument is `best_samplerate`.  The list holds the array
from `p` on; its end is taken as a terminator.  The subtraction is made in
`int`. -/
def EncodeAudio.select_sample_rate_loop : List Int → Int → Int
  | [], best_samplerate => best_samplerate
  | p :: ps, best_samplerate =>
    if p = 0 then best_samplerate
    else
      EncodeAudio.select_sample_rate_loop ps
        (if best_samplerate = 0 ∨
            (to_int (44100 - p)).natAbs < (to_int (44100 - best_samplerate)).natAbs
         then p else best_samplerate)

/-- The function `select_sample_rate` of encode_audio.c (lines 186-201);
`none` is the null pointer. -/
def EncodeAudio.select_sample_rate (supported_samplerates : Option (List Int)) : Int :=
  match supported_samplerates with
  | none => 44100
  | some p => EncodeAudio.select_sample_rate_loop p 0

/-- The value of `AV_CH_LAYOUT_STEREO`: front left and front right. -/
def EncodeAudio.AV_CH_LAYOUT_STEREO : Nat := 3

/-- The loop `while (*p)` of `select_channel_layout` (encode_audio.c lines
216-224); the arguments after the list are `best_nb_channels` and
`best_ch_layout`, and `nb_channels` is the library function
`av_get_channel_layout_nb_channels`. -/
def EncodeAudio.select_channel_layout_loop (nb_channels : Nat → Int) :
    List Nat → Int → Nat → Nat
  | [], _, best_ch_layout => best_ch_layout
  | p :: ps, best_nb_channels, best_ch_layout =>
    if p = 0 then best_ch_layout
    else if best_nb_channels < nb_channels p then
      EncodeAudio.select_channel_layout_loop nb_channels ps (nb_channels p) p
    else
      EncodeAudio.select_channel_layout_loop nb_channels ps best_nb_channels best_ch_layout

/-- The function `select_channel_layout` of encode_audio.c (lines 207-226):
the `uint64_t` mask is returned as an `int`. -/
def EncodeAudio.select_channel_layout (nb_channels : Nat → Int)
    (channel_layouts : Option (List Nat)) : Int :=
  match channel_layouts with
  | none => to_int EncodeAudio.AV_CH_LAYOUT_STEREO
  | some p => to_int (EncodeAudio.select_channel_layout_loop nb_channels p 0 0)

/-- The value stored by `codec_ctx->channel_layout = select_channel_layout(codec)`
(encode_audio.c line 80): the `int` is converted to `uint64_t`. -/
def EncodeAudio.stored_channel_layout (nb_channels : Nat → Int)
    (channel_layouts : Option (List Nat)) : Nat :=
  to_uint64 (EncodeAudio.select_channel_layout nb_channels channel_layouts)

/-- The buffer of 16-bit samples at `frame->data[0]`: its content, and the
positions written so far, in order. -/
structure EncodeAudio.Samples where
  val : Nat → Nat
  written : List Nat

/-- The assignment `samples[i] = x`. -/
def EncodeAudio.Samples.set (s : EncodeAudio.Samples) (i x : Nat) : EncodeAudio.Samples :=
  { val := fun k => if k = i then x else s.val k, written := s.written ++ [i] }

/-- The sample-fill loop of `main` (encode_audio.c lines 141-147).  `v j` is
the value `(int)(sin(tone) * 10000)` of iteration `j`, as a `uint16_t`. -/
def EncodeAudio.fill_samples (v : Nat → Nat) (channels frame_size : Int)
    (samples : EncodeAudio.Samples) : EncodeAudio.Samples :=
  (List.range frame_size.toNat).foldl
    (fun (s : EncodeAudio.Samples) (j : Nat) =>
      (List.range' 1 (channels.toNat - 1)).foldl
        (fun (t : EncodeAudio.Samples) (k : Nat) => t.set (2 * j + k) (t.val (2 * j)))
        (s.set (2 * j) (v j)))
    samples

/-- The number of bits set among the 64 low bits of a mask: the value of
`av_get_channel_layout_nb_channels` for a mask of known channels. -/
def toyPopcount (m : Nat) : Int :=
  ((List.range 64).filter (fun i => (m / 2 ^ i) % 2 = 1)).length

/-- A buffer of samples that holds 7 everywhere, with nothing written yet. -/
def toySamples : EncodeAudio.Samples := { val := fun _ => 7, written := [] }

/-- The entries of a zero-terminated array: those before the first 0. -/
def EncodeAudio.entries (p : List Int) : List Int := p.takeWhile (fun x => decide (x ≠ 0))

/-- The distance of a sample rate from 44100. -/
def EncodeAudio.distance (rate : Int) : Nat := (44100 - rate).natAbs

/-! ## Theorems -/

section VocabularyLemmas
variable {σ O : Type}

theorem delivered_receipts (c : ErrCodes) (s : σ) :
    ∀ (xs : List (Int × O × σ)) (s0 : σ) (recv : σ → Int × O × σ),
      Emits recv c s0 xs s → delivered c (receipts xs) = xs.map (fun x => x.2.1) := by
  intro xs
  induction xs with
  | nil => intro _ _ _; rfl
  | cons x xs ih =>
    intro s0 recv h
    obtain ⟨_, h0, hA, hE, hrest⟩ := h
    simp [receipts, delivered, h0, hA, hE]
    exact ih _ recv hrest

theorem endsDrained_concat (c : ErrCodes) (cs : List (Call O)) (r : Int) (u : O)
    (h : r = c.EAGAIN ∨ r = c.EOF) : EndsDrained c (cs ++ [Call.receive r u]) := by
  refine ⟨u, ?_⟩
  rcases h with h | h
  · left; simp [h]
  · right; simp [h]

end VocabularyLemmas

section EncodeLemmas
variable {σ : Type}

theorem EncodeAudio.encode_loop_ret (E : Engine σ (Option AVFrame) AVPacket) (c : ErrCodes)
    (fuel : Nat) (r1 r2 : Int) (w : World σ AVPacket Sink) (h1 : 0 ≤ r1) (h2 : 0 ≤ r2) :
    EncodeAudio.encode_loop E c fuel r1 w = EncodeAudio.encode_loop E c fuel r2 w := by
  cases fuel with
  | zero => rfl
  | succ n => simp [EncodeAudio.encode_loop, h1, h2]

theorem EncodeAudio.encode_loop_emits (E : Engine σ (Option AVFrame) AVPacket) (c : ErrCodes)
    (fuel : Nat) (s1 : σ) :
    ∀ (xs : List (Int × AVPacket × σ)) (w : World σ AVPacket Sink) (ret : Int),
      0 ≤ ret → Emits E.receive c w.ctx xs s1 →
      EncodeAudio.encode_loop E c (xs.length + fuel) ret w =
        EncodeAudio.encode_loop E c fuel 0
          { ctx := s1, out := w.out ++ xs.map (fun x => x.2.1.payload),
            calls := w.calls ++ receipts xs } := by
  intro xs
  induction xs with
  | nil =>
    intro w ret hret h
    simp only [Emits] at h
    subst h
    simpa [receipts] using EncodeAudio.encode_loop_ret E c fuel ret 0 w hret (le_refl 0)
  | cons x xs ih =>
    intro w ret hret h
    obtain ⟨hx, h0, hA, hE, hrest⟩ := h
    have hlen : (x :: xs).length + fuel = (xs.length + fuel) + 1 := by
      simp [Nat.add_right_comm]
    rw [hlen]
    have h0n : ¬ x.1 < 0 := not_lt.mpr h0
    simp only [EncodeAudio.encode_loop, World.receive, hx, hret, hA, hE, h0n, if_true, if_false,
      or_self]
    rw [ih _ x.1 h0 hrest]
    simp [receipts, fwrite, AVPacket.payload]

theorem EncodeAudio.encode_loop_success (E : Engine σ (Option AVFrame) AVPacket) (c : ErrCodes) :
    ∀ (fuel : Nat) (ret : Int) (w : World σ AVPacket Sink) (r : Int),
      0 ≤ ret → (EncodeAudio.encode_loop E c fuel ret w).1 = some r → 0 ≤ r →
      ∃ w0 : World σ AVPacket Sink,
        ((w0.receive E).1 = c.EAGAIN ∨ (w0.receive E).1 = c.EOF) ∧
        (EncodeAudio.encode_loop E c fuel ret w).2 = (w0.receive E).2.2 := by
  intro fuel
  induction fuel with
  | zero => intro ret w r _ h; simp [EncodeAudio.encode_loop] at h
  | succ n ih =>
    intro ret w r hret h hr
    simp only [EncodeAudio.encode_loop, hret, if_true] at h ⊢
    by_cases hstop : (w.receive E).1 = c.EAGAIN ∨ (w.receive E).1 = c.EOF
    · simp only [hstop, if_true]
      exact ⟨w, hstop, rfl⟩
    · simp only [hstop, if_false] at h ⊢
      by_cases hneg : (w.receive E).1 < 0
      · simp only [hneg, if_true, Option.some.injEq] at h
        omega
      · simp only [hneg, if_false] at h ⊢
        exact ih _ _ r (not_lt.mp hneg) h hr

theorem EncodeAudio.encode_run (E : Engine σ (Option AVFrame) AVPacket) (c : ErrCodes)
    (w : World σ AVPacket Sink) (frame : Option AVFrame) (xs : List (Int × AVPacket × σ))
    (s1 : σ) (fuel : Nat)
    (hs : 0 ≤ (E.send w.ctx frame).1)
    (hx : Emits E.receive c (E.send w.ctx frame).2 xs s1)
    (hy : (E.receive s1).1 = c.EAGAIN ∨ (E.receive s1).1 = c.EOF ∨ (E.receive s1).1 < 0)
    (hf : xs.length < fuel) :
    EncodeAudio.encode E c fuel w frame =
      (some (if (E.receive s1).1 = c.EAGAIN ∨ (E.receive s1).1 = c.EOF then 0
             else (E.receive s1).1),
       { ctx := (E.receive s1).2.2,
         out := w.out ++ xs.map (fun x => x.2.1.payload),
         calls := w.calls ++ [Call.send (E.send w.ctx frame).1] ++ receipts xs ++
           [Call.receive (E.receive s1).1 (E.receive s1).2.1] }) := by
  obtain ⟨m, rfl⟩ : ∃ m, fuel = xs.length + (m + 1) := ⟨fuel - xs.length - 1, by omega⟩
  have hs' : ¬ (E.send w.ctx frame).1 < 0 := not_lt.mpr hs
  simp only [EncodeAudio.encode, World.send, hs', if_false]
  rw [EncodeAudio.encode_loop_emits E c (m + 1) s1 xs _ _ hs hx]
  simp only [EncodeAudio.encode_loop, World.receive, le_refl, if_true]
  by_cases hstop : (E.receive s1).1 = c.EAGAIN ∨ (E.receive s1).1 = c.EOF
  · simp [hstop]
  · have hneg : (E.receive s1).1 < 0 := by
      rcases hy with h | h | h
      · exact absurd (Or.inl h) hstop
      · exact absurd (Or.inr h) hstop
      · exact h
    simp [hstop, hneg]

theorem EncodeVideo.encode_loop_eq (E : Engine σ (Option AVFrame) AVPacket) (c : ErrCodes) :
    ∀ (fuel : Nat) (ret : Int) (w : World σ AVPacket Sink),
      EncodeVideo.encode_loop E c fuel ret w = EncodeAudio.encode_loop E c fuel ret w := by
  intro fuel
  induction fuel with
  | zero => intro _ _; rfl
  | succ n ih => intro ret w; simp only [EncodeVideo.encode_loop, EncodeAudio.encode_loop, ih]

theorem EncodeVideo.encode_eq (E : Engine σ (Option AVFrame) AVPacket) (c : ErrCodes)
    (fuel : Nat) (w : World σ AVPacket Sink) (frame : Option AVFrame) :
    EncodeVideo.encode E c fuel w frame = EncodeAudio.encode E c fuel w frame := by
  simp only [EncodeVideo.encode, EncodeAudio.encode, EncodeVideo.encode_loop_eq]

theorem EncodeAudio.encode_success (E : Engine σ (Option AVFrame) AVPacket) (c : ErrCodes)
    (fuel : Nat) (w : World σ AVPacket Sink) (frame : Option AVFrame) (r : Int)
    (h : (EncodeAudio.encode E c fuel w frame).1 = some r) (hr : 0 ≤ r) :
    ∃ w0 : World σ AVPacket Sink,
      ((w0.receive E).1 = c.EAGAIN ∨ (w0.receive E).1 = c.EOF) ∧
      (EncodeAudio.encode E c fuel w frame).2 = (w0.receive E).2.2 := by
  simp only [EncodeAudio.encode] at h ⊢
  by_cases hs : (w.send E frame).1 < 0
  · simp only [hs, if_true, Option.some.injEq] at h
    omega
  · simp only [hs, if_false] at h ⊢
    exact EncodeAudio.encode_loop_success E c fuel _ _ r (not_lt.mp hs) h hr

end EncodeLemmas

section DecodeAudioLemmas
variable {σ : Type}

theorem foldl_sink_append {α : Type} (step : Sink → α → Sink)
    (h : ∀ f a, step f a = f ++ step [] a) :
    ∀ (l : List α) (out : Sink), l.foldl step out = out ++ l.foldl step [] := by
  intro l
  induction l with
  | nil => intro out; simp
  | cons a l ih =>
    intro out
    rw [List.foldl_cons, List.foldl_cons, ih (step out a), ih (step [] a), h out a,
      List.append_assoc]

theorem DecodeAudio.write_samples_append (frame : AVFrame) (channels data_size : Int)
    (out : Sink) :
    DecodeAudio.write_samples frame channels data_size out =
      out ++ DecodeAudio.write_samples frame channels data_size [] := by
  unfold DecodeAudio.write_samples
  apply foldl_sink_append
  intro f i
  apply foldl_sink_append
  intro g ch
  simp [fwrite]

theorem DecodeAudio.decode_loop_ret (L : DecodeAudio.Lib σ)
    (fuel : Nat) (r1 r2 : Int) (w : World σ AVFrame Sink) (h1 : 0 ≤ r1) (h2 : 0 ≤ r2) :
    DecodeAudio.decode_loop L fuel r1 w = DecodeAudio.decode_loop L fuel r2 w := by
  cases fuel with
  | zero => rfl
  | succ n => simp [DecodeAudio.decode_loop, h1, h2]

theorem DecodeAudio.decode_loop_emits (L : DecodeAudio.Lib σ) (fuel : Nat) (s1 : σ) :
    ∀ (xs : List (Int × AVFrame × σ)) (w : World σ AVFrame Sink) (ret : Int),
      0 ≤ ret → Emits L.dec.receive L.c w.ctx xs s1 →
      (∀ x ∈ xs, 0 ≤ L.bytes_per_sample x.2.2) →
      DecodeAudio.decode_loop L (xs.length + fuel) ret w =
        DecodeAudio.decode_loop L fuel 0
          { ctx := s1, out := w.out ++ (xs.map (DecodeAudio.frame_writes L)).flatten,
            calls := w.calls ++ receipts xs } := by
  intro xs
  induction xs with
  | nil =>
    intro w ret hret h _
    simp only [Emits] at h
    subst h
    simpa [receipts] using DecodeAudio.decode_loop_ret L fuel ret 0 w hret (le_refl 0)
  | cons x xs ih =>
    intro w ret hret h hb
    obtain ⟨hx, h0, hA, hE, hrest⟩ := h
    have hlen : (x :: xs).length + fuel = (xs.length + fuel) + 1 := by
      simp [Nat.add_right_comm]
    rw [hlen]
    have h0n : ¬ x.1 < 0 := not_lt.mpr h0
    have hbx : ¬ L.bytes_per_sample x.2.2 < 0 := not_lt.mpr (hb x (List.mem_cons_self _ _))
    simp only [DecodeAudio.decode_loop, World.receive, hx, hret, hA, hE, h0n, hbx, if_true,
      if_false, or_self]
    rw [ih _ x.1 h0 hrest (fun y hy => hb y (List.mem_cons_of_mem _ hy))]
    rw [DecodeAudio.write_samples_append]
    simp [receipts, DecodeAudio.frame_writes]

theorem DecodeAudio.decode_loop_success (L : DecodeAudio.Lib σ) :
    ∀ (fuel : Nat) (ret : Int) (w : World σ AVFrame Sink) (r : Int),
      0 ≤ ret → (DecodeAudio.decode_loop L fuel ret w).1 = some r → 0 ≤ r →
      ∃ w0 : World σ AVFrame Sink,
        ((w0.receive L.dec).1 = L.c.EAGAIN ∨ (w0.receive L.dec).1 = L.c.EOF) ∧
        (DecodeAudio.decode_loop L fuel ret w).2 = (w0.receive L.dec).2.2 := by
  intro fuel
  induction fuel with
  | zero => intro ret w r _ h; simp [DecodeAudio.decode_loop] at h
  | succ n ih =>
    intro ret w r hret h hr
    simp only [DecodeAudio.decode_loop, hret, if_true] at h ⊢
    by_cases hstop : (w.receive L.dec).1 = L.c.EAGAIN ∨ (w.receive L.dec).1 = L.c.EOF
    · simp only [hstop, if_true]
      exact ⟨w, hstop, rfl⟩
    · simp only [hstop, if_false] at h ⊢
      by_cases hneg : (w.receive L.dec).1 < 0
      · simp only [hneg, if_true, Option.some.injEq] at h
        omega
      · simp only [hneg, if_false] at h ⊢
        by_cases hb : L.bytes_per_sample (w.receive L.dec).2.2.ctx < 0
        · simp only [hb, if_true, Option.some.injEq] at h
          omega
        · simp only [hb, if_false] at h ⊢
          exact ih _ _ r (not_lt.mp hneg) h hr

theorem DecodeAudio.decode_run (L : DecodeAudio.Lib σ)
    (w : World σ AVFrame Sink) (pkt : AVPacket) (xs : List (Int × AVFrame × σ))
    (s1 : σ) (fuel : Nat)
    (hs : 0 ≤ (L.dec.send w.ctx pkt).1)
    (hx : Emits L.dec.receive L.c (L.dec.send w.ctx pkt).2 xs s1)
    (hb : ∀ x ∈ xs, 0 ≤ L.bytes_per_sample x.2.2)
    (hy : (L.dec.receive s1).1 = L.c.EAGAIN ∨ (L.dec.receive s1).1 = L.c.EOF ∨
      (L.dec.receive s1).1 < 0)
    (hf : xs.length < fuel) :
    DecodeAudio.decode L fuel w pkt =
      (some (if (L.dec.receive s1).1 = L.c.EAGAIN ∨ (L.dec.receive s1).1 = L.c.EOF then 0
             else -1),
       { ctx := (L.dec.receive s1).2.2,
         out := w.out ++ (xs.map (DecodeAudio.frame_writes L)).flatten,
         calls := w.calls ++ [Call.send (L.dec.send w.ctx pkt).1] ++ receipts xs ++
           [Call.receive (L.dec.receive s1).1 (L.dec.receive s1).2.1] }) := by
  obtain ⟨m, rfl⟩ : ∃ m, fuel = xs.length + (m + 1) := ⟨fuel - xs.length - 1, by omega⟩
  have hs' : ¬ (L.dec.send w.ctx pkt).1 < 0 := not_lt.mpr hs
  simp only [DecodeAudio.decode, World.send, hs', if_false]
  rw [DecodeAudio.decode_loop_emits L (m + 1) s1 xs _ _ hs hx hb]
  simp only [DecodeAudio.decode_loop, World.receive, le_refl, if_true]
  by_cases hstop : (L.dec.receive s1).1 = L.c.EAGAIN ∨ (L.dec.receive s1).1 = L.c.EOF
  · simp [hstop]
  · have hneg : (L.dec.receive s1).1 < 0 := by
      rcases hy with h | h | h
      · exact absurd (Or.inl h) hstop
      · exact absurd (Or.inr h) hstop
      · exact h
    simp [hstop, hneg]

end DecodeAudioLemmas

section DecodeVideoLemmas
variable {σ : Type}

theorem DecodeVideo.vdecode_loop_ret (L : DecodeVideo.Lib σ) (filename : String)
    (fuel : Nat) (r1 r2 : Int) (w : World σ AVFrame DecodeVideo.Files)
    (h1 : 0 ≤ r1) (h2 : 0 ≤ r2) :
    DecodeVideo.decode_loop L filename fuel r1 w = DecodeVideo.decode_loop L filename fuel r2 w := by
  cases fuel with
  | zero => rfl
  | succ n => simp [DecodeVideo.decode_loop, h1, h2]

theorem DecodeVideo.vdecode_loop_emits (L : DecodeVideo.Lib σ) (filename : String) (fuel : Nat)
    (s1 : σ) :
    ∀ (xs : List (Int × AVFrame × σ)) (w : World σ AVFrame DecodeVideo.Files) (ret : Int),
      0 ≤ ret → Emits L.dec.receive L.c w.ctx xs s1 →
      DecodeVideo.decode_loop L filename (xs.length + fuel) ret w =
        DecodeVideo.decode_loop L filename fuel 0
          { ctx := s1, out := w.out ++ xs.map (DecodeVideo.saved L filename),
            calls := w.calls ++ receipts xs } := by
  intro xs
  induction xs with
  | nil =>
    intro w ret hret h
    simp only [Emits] at h
    subst h
    simpa [receipts] using DecodeVideo.vdecode_loop_ret L filename fuel ret 0 w hret (le_refl 0)
  | cons x xs ih =>
    intro w ret hret h
    obtain ⟨hx, h0, hA, hE, hrest⟩ := h
    have hlen : (x :: xs).length + fuel = (xs.length + fuel) + 1 := by
      simp [Nat.add_right_comm]
    rw [hlen]
    have h0n : ¬ x.1 < 0 := not_lt.mpr h0
    simp only [DecodeVideo.decode_loop, World.receive, hx, hret, hA, hE, h0n, if_true, if_false,
      or_self]
    rw [ih _ x.1 h0 hrest]
    simp [receipts, DecodeVideo.saved]

theorem DecodeVideo.vdecode_loop_success (L : DecodeVideo.Lib σ) (filename : String) :
    ∀ (fuel : Nat) (ret : Int) (w : World σ AVFrame DecodeVideo.Files) (r : Int),
      0 ≤ ret → (DecodeVideo.decode_loop L filename fuel ret w).1 = some r → 0 ≤ r →
      ∃ w0 : World σ AVFrame DecodeVideo.Files,
        ((w0.receive L.dec).1 = L.c.EAGAIN ∨ (w0.receive L.dec).1 = L.c.EOF) ∧
        (DecodeVideo.decode_loop L filename fuel ret w).2 = (w0.receive L.dec).2.2 := by
  intro fuel
  induction fuel with
  | zero => intro ret w r _ h; simp [DecodeVideo.decode_loop] at h
  | succ n ih =>
    intro ret w r hret h hr
    simp only [DecodeVideo.decode_loop, hret, if_true] at h ⊢
    by_cases hstop : (w.receive L.dec).1 = L.c.EAGAIN ∨ (w.receive L.dec).1 = L.c.EOF
    · simp only [hstop, if_true]
      exact ⟨w, hstop, rfl⟩
    · simp only [hstop, if_false] at h ⊢
      by_cases hneg : (w.receive L.dec).1 < 0
      · simp only [hneg, if_true, Option.some.injEq] at h
        omega
      · simp only [hneg, if_false] at h ⊢
        exact ih _ _ r (not_lt.mp hneg) h hr

theorem DecodeVideo.vdecode_run (L : DecodeVideo.Lib σ) (filename : String)
    (w : World σ AVFrame DecodeVideo.Files) (pkt : Option AVPacket)
    (xs : List (Int × AVFrame × σ)) (s1 : σ) (fuel : Nat)
    (hs : 0 ≤ (L.dec.send w.ctx pkt).1)
    (hx : Emits L.dec.receive L.c (L.dec.send w.ctx pkt).2 xs s1)
    (hy : (L.dec.receive s1).1 = L.c.EAGAIN ∨ (L.dec.receive s1).1 = L.c.EOF ∨
      (L.dec.receive s1).1 < 0)
    (hf : xs.length < fuel) :
    DecodeVideo.decode L filename fuel w pkt =
      (some (if (L.dec.receive s1).1 = L.c.EAGAIN ∨ (L.dec.receive s1).1 = L.c.EOF then 0
             else -1),
       { ctx := (L.dec.receive s1).2.2,
         out := w.out ++ xs.map (DecodeVideo.saved L filename),
         calls := w.calls ++ [Call.send (L.dec.send w.ctx pkt).1] ++ receipts xs ++
           [Call.receive (L.dec.receive s1).1 (L.dec.receive s1).2.1] }) := by
  obtain ⟨m, rfl⟩ : ∃ m, fuel = xs.length + (m + 1) := ⟨fuel - xs.length - 1, by omega⟩
  have hs' : ¬ (L.dec.send w.ctx pkt).1 < 0 := not_lt.mpr hs
  simp only [DecodeVideo.decode, World.send, hs', if_false]
  rw [DecodeVideo.vdecode_loop_emits L filename (m + 1) s1 xs _ _ hs hx]
  simp only [DecodeVideo.decode_loop, World.receive, le_refl, if_true]
  by_cases hstop : (L.dec.receive s1).1 = L.c.EAGAIN ∨ (L.dec.receive s1).1 = L.c.EOF
  · simp [hstop]
  · have hneg : (L.dec.receive s1).1 < 0 := by
      rcases hy with h | h | h
      · exact absurd (Or.inl h) hstop
      · exact absurd (Or.inr h) hstop
      · exact h
    simp [hstop, hneg]

end DecodeVideoLemmas

section DemuxLemmas
variable {σ φ : Type}
open DemuxingDecoding

theorem DemuxingDecoding.video_loop_ret (L : Lib σ φ) (k : Config) (d : Int)
    (fuel : Nat) (r1 r2 : Int) (st : State σ φ) (h1 : 0 ≤ r1) (h2 : 0 ≤ r2) :
    video_loop L k d fuel r1 st = video_loop L k d fuel r2 st := by
  cases fuel with
  | zero => rfl
  | succ n => simp [video_loop, h1, h2]

theorem DemuxingDecoding.video_loop_emits (L : Lib σ φ) (k : Config) (d : Int) (fuel : Nat)
    (s1 : σ) :
    ∀ (xs : List (Int × AVFrame × σ)) (st : State σ φ) (ret : Int),
      0 ≤ ret → Emits L.video.receive L.c st.video_dec_ctx xs s1 →
      (∀ x ∈ xs, SameShape k x.2.1) →
      video_loop L k d (xs.length + fuel) ret st =
        video_loop L k d fuel 0 (xs.foldl (video_step L k) st) := by
  intro xs
  induction xs with
  | nil =>
    intro st ret hret _ _
    simpa using video_loop_ret L k d fuel ret 0 st hret (le_refl 0)
  | cons x xs ih =>
    intro st ret hret h hm
    obtain ⟨hx, h0, hA, hE, hrest⟩ := h
    have hlen : (x :: xs).length + fuel = (xs.length + fuel) + 1 := by
      simp [Nat.add_right_comm]
    rw [hlen]
    have h0n : ¬ x.1 < 0 := not_lt.mpr h0
    obtain ⟨m1, m2, m3⟩ := hm x (List.mem_cons_self _ _)
    simp only [video_loop, hx, hret, hA, hE, h0n, m1, m2, m3, if_true, if_false, or_self,
      ne_eq, not_true_eq_false]
    rw [List.foldl_cons]
    exact ih _ x.1 h0 hrest (fun y hy => hm y (List.mem_cons_of_mem _ hy))

theorem DemuxingDecoding.video_fold_ctx (L : Lib σ φ) (k : Config) (s1 : σ) :
    ∀ (xs : List (Int × AVFrame × σ)) (st : State σ φ),
      Emits L.video.receive L.c st.video_dec_ctx xs s1 →
      (xs.foldl (video_step L k) st).video_dec_ctx = s1 := by
  intro xs
  induction xs with
  | nil => intro st h; simp only [Emits] at h; simp [h]
  | cons x xs ih =>
    intro st h
    obtain ⟨_, _, _, _, hrest⟩ := h
    rw [List.foldl_cons]
    exact ih _ hrest

theorem DemuxingDecoding.video_fold_fields (L : Lib σ φ) (k : Config) :
    ∀ (xs : List (Int × AVFrame × σ)) (st : State σ φ),
      (xs.foldl (video_step L k) st).calls =
        st.calls ++ xs.map (fun x => DCall.receive_video x.1) ∧
      (xs.foldl (video_step L k) st).video_frame_count = st.video_frame_count + xs.length ∧
      (xs.foldl (video_step L k) st).video_dst_file =
        st.video_dst_file ++ video_writes L k st.video_dst_data xs ∧
      (xs.foldl (video_step L k) st).audio_dst_file = st.audio_dst_file ∧
      (xs.foldl (video_step L k) st).audio_frame_count = st.audio_frame_count ∧
      (xs.foldl (video_step L k) st).audio_dec_ctx = st.audio_dec_ctx ∧
      (xs.foldl (video_step L k) st).pkt = st.pkt ∧
      (xs.foldl (video_step L k) st).fmt_ctx = st.fmt_ctx := by
  intro xs
  induction xs with
  | nil => intro st; simp [video_writes]
  | cons x xs ih =>
    intro st
    rw [List.foldl_cons]
    obtain ⟨a1, a2, a3, a4, a5, a6, a7, a8⟩ := ih (video_step L k st x)
    rw [a1, a2, a3, a4, a5, a6, a7, a8]
    simp only [video_step, video_writes, fwrite, List.map_cons, List.length_cons,
      List.append_assoc, List.singleton_append, Nat.cast_add, Nat.cast_one]
    refine ⟨trivial, ?_, trivial, trivial, trivial, trivial, trivial, trivial⟩
    omega

theorem DemuxingDecoding.video_loop_success (L : Lib σ φ) (k : Config) (d : Int) :
    ∀ (fuel : Nat) (ret : Int) (st : State σ φ) (r : Int),
      0 ≤ ret → (video_loop L k d fuel ret st).1 = some r → 0 ≤ r →
      ∃ st0 : State σ φ,
        ((L.video.receive st0.video_dec_ctx).1 = L.c.EAGAIN ∨
          (L.video.receive st0.video_dec_ctx).1 = L.c.EOF) ∧
        (video_loop L k d fuel ret st).2 =
          { st0 with video_dec_ctx := (L.video.receive st0.video_dec_ctx).2.2,
                     calls := st0.calls ++
                       [DCall.receive_video (L.video.receive st0.video_dec_ctx).1] } := by
  intro fuel
  induction fuel with
  | zero => intro ret st r _ h; simp [video_loop] at h
  | succ n ih =>
    intro ret st r hret h hr
    simp only [video_loop, hret, if_true] at h ⊢
    by_cases hstop : (L.video.receive st.video_dec_ctx).1 = L.c.EAGAIN ∨
        (L.video.receive st.video_dec_ctx).1 = L.c.EOF
    · simp only [hstop, if_true]
      exact ⟨st, hstop, rfl⟩
    · simp only [hstop, if_false] at h ⊢
      by_cases hneg : (L.video.receive st.video_dec_ctx).1 < 0
      · simp only [hneg, if_true, Option.some.injEq] at h
        omega
      · simp only [hneg, if_false] at h ⊢
        by_cases hsh : (L.video.receive st.video_dec_ctx).2.1.width ≠ k.width ∨
            (L.video.receive st.video_dec_ctx).2.1.height ≠ k.height ∨
            (L.video.receive st.video_dec_ctx).2.1.format ≠ k.pix_fmt
        · simp only [hsh, if_true, Option.some.injEq] at h
          omega
        · simp only [hsh, if_false] at h ⊢
          exact ih _ _ r (not_lt.mp hneg) h hr

theorem DemuxingDecoding.audio_loop_ret (L : Lib σ φ) (d : Int)
    (fuel : Nat) (r1 r2 : Int) (st : State σ φ) (h1 : 0 ≤ r1) (h2 : 0 ≤ r2) :
    audio_loop L d fuel r1 st = audio_loop L d fuel r2 st := by
  cases fuel with
  | zero => rfl
  | succ n => simp [audio_loop, h1, h2]

theorem DemuxingDecoding.audio_loop_emits (L : Lib σ φ) (d : Int) (fuel : Nat) (s1 : σ) :
    ∀ (xs : List (Int × AVFrame × σ)) (st : State σ φ) (ret : Int),
      0 ≤ ret → Emits L.audio.receive L.c st.audio_dec_ctx xs s1 →
      audio_loop L d (xs.length + fuel) ret st =
        audio_loop L d fuel 0 (xs.foldl (audio_step L) st) := by
  intro xs
  induction xs with
  | nil =>
    intro st ret hret _
    simpa using audio_loop_ret L d fuel ret 0 st hret (le_refl 0)
  | cons x xs ih =>
    intro st ret hret h
    obtain ⟨hx, h0, hA, hE, hrest⟩ := h
    have hlen : (x :: xs).length + fuel = (xs.length + fuel) + 1 := by
      simp [Nat.add_right_comm]
    rw [hlen]
    have h0n : ¬ x.1 < 0 := not_lt.mpr h0
    simp only [audio_loop, hx, hret, hA, hE, h0n, if_true, if_false, or_self]
    rw [List.foldl_cons]
    exact ih _ x.1 h0 hrest

theorem DemuxingDecoding.audio_fold_fields (L : Lib σ φ) :
    ∀ (xs : List (Int × AVFrame × σ)) (st : State σ φ),
      (xs.foldl (audio_step L) st).calls =
        st.calls ++ xs.map (fun x => DCall.receive_audio x.1) ∧
      (xs.foldl (audio_step L) st).audio_frame_count = st.audio_frame_count + xs.length ∧
      (xs.foldl (audio_step L) st).audio_dst_file =
        st.audio_dst_file ++ xs.map (fun x => audio_write L x.2.1) ∧
      (xs.foldl (audio_step L) st).video_dst_file = st.video_dst_file ∧
      (xs.foldl (audio_step L) st).video_frame_count = st.video_frame_count ∧
      (xs.foldl (audio_step L) st).video_dec_ctx = st.video_dec_ctx ∧
      (xs.foldl (audio_step L) st).pkt = st.pkt ∧
      (xs.foldl (audio_step L) st).fmt_ctx = st.fmt_ctx := by
  intro xs
  induction xs with
  | nil => intro st; simp
  | cons x xs ih =>
    intro st
    rw [List.foldl_cons]
    obtain ⟨a1, a2, a3, a4, a5, a6, a7, a8⟩ := ih (audio_step L st x)
    rw [a1, a2, a3, a4, a5, a6, a7, a8]
    simp only [audio_step, audio_write, fwrite, List.map_cons, List.length_cons,
      List.append_assoc, List.singleton_append, Nat.cast_add, Nat.cast_one]
    refine ⟨trivial, ?_, trivial, trivial, trivial, trivial, trivial, trivial⟩
    omega

theorem DemuxingDecoding.audio_loop_success (L : Lib σ φ) (d : Int) :
    ∀ (fuel : Nat) (ret : Int) (st : State σ φ) (r : Int),
      0 ≤ ret → (audio_loop L d fuel ret st).1 = some r → 0 ≤ r →
      ∃ st0 : State σ φ,
        ((L.audio.receive st0.audio_dec_ctx).1 = L.c.EAGAIN ∨
          (L.audio.receive st0.audio_dec_ctx).1 = L.c.EOF) ∧
        (audio_loop L d fuel ret st).2 =
          { st0 with audio_dec_ctx := (L.audio.receive st0.audio_dec_ctx).2.2,
                     calls := st0.calls ++
                       [DCall.receive_audio (L.audio.receive st0.audio_dec_ctx).1] } := by
  intro fuel
  induction fuel with
  | zero => intro ret st r _ h; simp [audio_loop] at h
  | succ n ih =>
    intro ret st r hret h hr
    simp only [audio_loop, hret, if_true] at h ⊢
    by_cases hstop : (L.audio.receive st.audio_dec_ctx).1 = L.c.EAGAIN ∨
        (L.audio.receive st.audio_dec_ctx).1 = L.c.EOF
    · simp only [hstop, if_true]
      exact ⟨st, hstop, rfl⟩
    · simp only [hstop, if_false] at h ⊢
      by_cases hneg : (L.audio.receive st.audio_dec_ctx).1 < 0
      · simp only [hneg, if_true, Option.some.injEq] at h
        omega
      · simp only [hneg, if_false] at h ⊢
        exact ih _ _ r (not_lt.mp hneg) h hr

theorem DemuxingDecoding.decode_packet_video_run (L : Lib σ φ) (k : Config) (fuel : Nat)
    (cached : Int) (st : State σ φ) (xs : List (Int × AVFrame × σ)) (s1 : σ)
    (hv : st.pkt.stream_index = k.video_stream_idx)
    (hs : 0 ≤ (L.video.send st.video_dec_ctx st.pkt).1)
    (hx : Emits L.video.receive L.c (L.video.send st.video_dec_ctx st.pkt).2 xs s1)
    (hm : ∀ x ∈ xs, SameShape k x.2.1)
    (hy : (L.video.receive s1).1 = L.c.EAGAIN ∨ (L.video.receive s1).1 = L.c.EOF ∨
      (L.video.receive s1).1 < 0 ∨ ¬ SameShape k (L.video.receive s1).2.1)
    (hf : xs.length < fuel) :
    decode_packet L k fuel cached st =
      (some (if (L.video.receive s1).1 = L.c.EAGAIN ∨ (L.video.receive s1).1 = L.c.EOF then 0
             else if (L.video.receive s1).1 < 0 then (L.video.receive s1).1 else -1),
       { xs.foldl (video_step L k) (video_sent L st) with
           video_dec_ctx := (L.video.receive s1).2.2,
           calls := (xs.foldl (video_step L k) (video_sent L st)).calls ++
             [DCall.receive_video (L.video.receive s1).1] }) := by
  obtain ⟨m, rfl⟩ : ∃ m, fuel = xs.length + (m + 1) := ⟨fuel - xs.length - 1, by omega⟩
  have hs' : ¬ (L.video.send st.video_dec_ctx st.pkt).1 < 0 := not_lt.mpr hs
  have hx' : Emits L.video.receive L.c (video_sent L st).video_dec_ctx xs s1 := hx
  have hc := video_fold_ctx L k s1 xs (video_sent L st) hx'
  simp only [decode_packet, hv, hs', if_true, if_false]
  rw [show ({ st with video_dec_ctx := (L.video.send st.video_dec_ctx st.pkt).2,
                      calls := st.calls ++
                        [DCall.send_video st.pkt.size (L.video.send st.video_dec_ctx st.pkt).1] }
            : State σ φ) = video_sent L st from rfl]
  rw [video_loop_emits L k _ (m + 1) s1 xs _ _ hs hx' hm]
  simp only [video_loop, le_refl, if_true, hc]
  by_cases hstop : (L.video.receive s1).1 = L.c.EAGAIN ∨ (L.video.receive s1).1 = L.c.EOF
  · simp [hstop]
  · by_cases hneg : (L.video.receive s1).1 < 0
    · simp [hstop, hneg]
    · have hsh : ¬ SameShape k (L.video.receive s1).2.1 := by
        rcases hy with h | h | h | h
        · exact absurd (Or.inl h) hstop
        · exact absurd (Or.inr h) hstop
        · exact absurd h hneg
        · exact h
      have hsh' : (L.video.receive s1).2.1.width ≠ k.width ∨
          (L.video.receive s1).2.1.height ≠ k.height ∨
          (L.video.receive s1).2.1.format ≠ k.pix_fmt := by
        simp only [SameShape] at hsh
        by_contra hcon
        simp only [not_or, ne_eq, not_not] at hcon
        exact hsh hcon
      simp [hstop, hneg, hsh']

theorem DemuxingDecoding.audio_fold_ctx (L : Lib σ φ) (s1 : σ) :
    ∀ (xs : List (Int × AVFrame × σ)) (st : State σ φ),
      Emits L.audio.receive L.c st.audio_dec_ctx xs s1 →
      (xs.foldl (audio_step L) st).audio_dec_ctx = s1 := by
  intro xs
  induction xs with
  | nil => intro st h; simp only [Emits] at h; simp [h]
  | cons x xs ih =>
    intro st h
    obtain ⟨_, _, _, _, hrest⟩ := h
    rw [List.foldl_cons]
    exact ih _ hrest

theorem DemuxingDecoding.decode_packet_audio_run (L : Lib σ φ) (k : Config) (fuel : Nat)
    (cached : Int) (st : State σ φ) (xs : List (Int × AVFrame × σ)) (s1 : σ)
    (hv : st.pkt.stream_index ≠ k.video_stream_idx)
    (ha : st.pkt.stream_index = k.audio_stream_idx)
    (hs : 0 ≤ (L.audio.send st.audio_dec_ctx st.pkt).1)
    (hx : Emits L.audio.receive L.c (L.audio.send st.audio_dec_ctx st.pkt).2 xs s1)
    (hy : (L.audio.receive s1).1 = L.c.EAGAIN ∨ (L.audio.receive s1).1 = L.c.EOF ∨
      (L.audio.receive s1).1 < 0)
    (hf : xs.length < fuel) :
    decode_packet L k fuel cached st =
      (some (if (L.audio.receive s1).1 = L.c.EAGAIN ∨ (L.audio.receive s1).1 = L.c.EOF then 0
             else (L.audio.receive s1).1),
       { xs.foldl (audio_step L) (audio_sent L st) with
           audio_dec_ctx := (L.audio.receive s1).2.2,
           calls := (xs.foldl (audio_step L) (audio_sent L st)).calls ++
             [DCall.receive_audio (L.audio.receive s1).1] }) := by
  obtain ⟨m, rfl⟩ : ∃ m, fuel = xs.length + (m + 1) := ⟨fuel - xs.length - 1, by omega⟩
  have hs' : ¬ (L.audio.send st.audio_dec_ctx st.pkt).1 < 0 := not_lt.mpr hs
  have hx' : Emits L.audio.receive L.c (audio_sent L st).audio_dec_ctx xs s1 := hx
  have hc := audio_fold_ctx L s1 xs (audio_sent L st) hx'
  simp only [decode_packet, hv, if_false]
  simp only [ha, hs', if_true, if_false]
  rw [show ({ st with audio_dec_ctx := (L.audio.send st.audio_dec_ctx st.pkt).2,
                      calls := st.calls ++
                        [DCall.send_audio st.pkt.size (L.audio.send st.audio_dec_ctx st.pkt).1] }
            : State σ φ) = audio_sent L st from rfl]
  rw [audio_loop_emits L _ (m + 1) s1 xs _ _ hs hx']
  simp only [audio_loop, le_refl, if_true, hc]
  by_cases hstop : (L.audio.receive s1).1 = L.c.EAGAIN ∨ (L.audio.receive s1).1 = L.c.EOF
  · simp [hstop]
  · have hneg : (L.audio.receive s1).1 < 0 := by
      rcases hy with h | h | h
      · exact absurd (Or.inl h) hstop
      · exact absurd (Or.inr h) hstop
      · exact h
    simp [hstop, hneg]

end DemuxLemmas

section SuccessLemmas
variable {σ φ : Type}
open DemuxingDecoding

theorem DecodeAudio.decode_success (L : DecodeAudio.Lib σ) (fuel : Nat)
    (w : World σ AVFrame Sink) (pkt : AVPacket) (r : Int)
    (h : (DecodeAudio.decode L fuel w pkt).1 = some r) (hr : 0 ≤ r) :
    ∃ w0 : World σ AVFrame Sink,
      ((w0.receive L.dec).1 = L.c.EAGAIN ∨ (w0.receive L.dec).1 = L.c.EOF) ∧
      (DecodeAudio.decode L fuel w pkt).2 = (w0.receive L.dec).2.2 := by
  simp only [DecodeAudio.decode] at h ⊢
  by_cases hs : (w.send L.dec pkt).1 < 0
  · simp only [hs, if_true, Option.some.injEq] at h
    omega
  · simp only [hs, if_false] at h ⊢
    exact DecodeAudio.decode_loop_success L fuel _ _ r (not_lt.mp hs) h hr

theorem DecodeVideo.vdecode_success (L : DecodeVideo.Lib σ) (filename : String) (fuel : Nat)
    (w : World σ AVFrame DecodeVideo.Files) (pkt : Option AVPacket) (r : Int)
    (h : (DecodeVideo.decode L filename fuel w pkt).1 = some r) (hr : 0 ≤ r) :
    ∃ w0 : World σ AVFrame DecodeVideo.Files,
      ((w0.receive L.dec).1 = L.c.EAGAIN ∨ (w0.receive L.dec).1 = L.c.EOF) ∧
      (DecodeVideo.decode L filename fuel w pkt).2 = (w0.receive L.dec).2.2 := by
  simp only [DecodeVideo.decode] at h ⊢
  by_cases hs : (w.send L.dec pkt).1 < 0
  · simp only [hs, if_true, Option.some.injEq] at h
    omega
  · simp only [hs, if_false] at h ⊢
    exact DecodeVideo.vdecode_loop_success L filename fuel _ _ r (not_lt.mp hs) h hr

theorem DemuxingDecoding.decode_packet_video_success (L : Lib σ φ) (k : Config) (fuel : Nat)
    (cached : Int) (st : State σ φ) (r : Int)
    (hv : st.pkt.stream_index = k.video_stream_idx)
    (h : (decode_packet L k fuel cached st).1 = some r) (hr : 0 ≤ r) :
    ∃ st0 : State σ φ,
      ((L.video.receive st0.video_dec_ctx).1 = L.c.EAGAIN ∨
        (L.video.receive st0.video_dec_ctx).1 = L.c.EOF) ∧
      (decode_packet L k fuel cached st).2 =
        { st0 with video_dec_ctx := (L.video.receive st0.video_dec_ctx).2.2,
                   calls := st0.calls ++
                     [DCall.receive_video (L.video.receive st0.video_dec_ctx).1] } := by
  simp only [decode_packet, hv, if_true] at h ⊢
  by_cases hs : (L.video.send st.video_dec_ctx st.pkt).1 < 0
  · simp only [hs, if_true, Option.some.injEq] at h
    omega
  · simp only [hs, if_false] at h ⊢
    exact video_loop_success L k _ fuel _ _ r (not_lt.mp hs) h hr

theorem DemuxingDecoding.decode_packet_audio_success (L : Lib σ φ) (k : Config) (fuel : Nat)
    (cached : Int) (st : State σ φ) (r : Int)
    (hv : st.pkt.stream_index ≠ k.video_stream_idx)
    (ha : st.pkt.stream_index = k.audio_stream_idx)
    (h : (decode_packet L k fuel cached st).1 = some r) (hr : 0 ≤ r) :
    ∃ st0 : State σ φ,
      ((L.audio.receive st0.audio_dec_ctx).1 = L.c.EAGAIN ∨
        (L.audio.receive st0.audio_dec_ctx).1 = L.c.EOF) ∧
      (decode_packet L k fuel cached st).2 =
        { st0 with audio_dec_ctx := (L.audio.receive st0.audio_dec_ctx).2.2,
                   calls := st0.calls ++
                     [DCall.receive_audio (L.audio.receive st0.audio_dec_ctx).1] } := by
  simp only [decode_packet, hv, if_false] at h ⊢
  simp only [ha, if_true] at h ⊢
  by_cases hs : (L.audio.send st.audio_dec_ctx st.pkt).1 < 0
  · simp only [hs, if_true, Option.some.injEq] at h
    omega
  · simp only [hs, if_false] at h ⊢
    exact audio_loop_success L _ fuel _ _ r (not_lt.mp hs) h hr

theorem toy_repeatable (s : Toy) (h : (s.receive).1 = linux.EAGAIN ∨ (s.receive).1 = linux.EOF) :
    ((s.receive).2.2.receive).1 = (s.receive).1 := by
  unfold Toy.receive at h ⊢
  rcases hq : s.ready with _ | ⟨⟨r, b⟩, rest⟩
  · simp [hq]
  · rw [hq] at h
    by_cases hr : r = linux.EAGAIN ∨ r = linux.EOF
    · simp [hq, hr]
    · simp only [hr, if_false] at h

/-- When `decode_packet` returns 0 and the packet still has a positive size,
the `do ... while` loop of `main` goes round again with a packet of the same
size and stream index. -/
theorem DemuxingDecoding.packet_loop_repeats (L : Lib σ φ) (k : Config) (fuel n : Nat)
    (st : State σ φ)
    (h : (decode_packet L k fuel 0 st).1 = some 0)
    (hs : 0 < (decode_packet L k fuel 0 st).2.pkt.size) :
    packet_loop L k fuel (n + 1) st =
      packet_loop L k fuel n
        { (decode_packet L k fuel 0 st).2 with
            pkt := { (decode_packet L k fuel 0 st).2.pkt with
                       data := (decode_packet L k fuel 0 st).2.pkt.data.map (fun p => p.add 0),
                       size := (decode_packet L k fuel 0 st).2.pkt.size } } := by
  simp only [packet_loop]
  rcases hres : decode_packet L k fuel 0 st with ⟨o, st1⟩
  rw [hres] at h hs
  simp only at h hs
  subst h
  simp [hs]

end SuccessLemmas

section FeedLemmas
variable {σ O : Type}

theorem bytesAt_length (p : Ptr) (n : Nat) : (bytesAt p n).length = n := by
  simp [bytesAt]

theorem bytesAt_congr (p q : Ptr) (n : Nat) (h : ∀ i, i < n → p i = q i) :
    bytesAt p n = bytesAt q n := by
  unfold bytesAt
  apply List.map_congr_left
  intro i hi
  exact h i (List.mem_range.mp hi)

theorem bytesAt_add (p : Ptr) (m n : Nat) :
    bytesAt p (m + n) = bytesAt p m ++ bytesAt (p.add m) n := by
  unfold bytesAt Ptr.add
  rw [List.range_add, List.map_append, List.map_map]
  rfl

theorem ptr_add_add (p : Ptr) (a b : Nat) : (p.add a).add b = p.add (a + b) := by
  funext i
  simp [Ptr.add, Nat.add_assoc]

theorem bytesAt_split (p : Ptr) (n r : Nat) (h : r ≤ n) :
    (bytesAt p n).take r ++ bytesAt (p.add r) (n - r) = bytesAt p n := by
  have h1 : bytesAt p n = bytesAt p r ++ bytesAt (p.add r) (n - r) := by
    rw [← bytesAt_add]; congr 1; omega
  have h2 : (bytesAt p n).take r = bytesAt p r := by
    rw [h1]
    exact List.take_left' (bytesAt_length p r)
  rw [h2, ← h1]

theorem bytesAt_mem (b : List Byte) : bytesAt (mem b) b.length = b := by
  apply List.ext_getElem
  · simp [bytesAt]
  · intro i h1 h2
    simp [bytesAt, mem, List.getD_eq_getElem?_getD, List.getElem?_eq_getElem h2]

theorem bytesAt_store (buf : Ptr) (off : Nat) (chunk : List Byte) :
    bytesAt ((store buf off chunk).add off) chunk.length = chunk := by
  have : bytesAt ((store buf off chunk).add off) chunk.length = bytesAt (mem chunk) chunk.length := by
    apply bytesAt_congr
    intro i hi
    simp [store, Ptr.add, mem, hi]
  rw [this, bytesAt_mem]

theorem consumed_append (a b : List (Call O)) :
    consumed (a ++ b) = consumed a ++ consumed b := by
  induction a with
  | nil => rfl
  | cons x xs ih =>
    cases x with
    | send r => simpa [consumed] using ih
    | receive r u => simpa [consumed] using ih
    | parse win r => simp [consumed, ih]

theorem to_size_t_of_nat (n : Nat) (h : n < 2 ^ 64) : to_size_t (n : Int) = n := by
  unfold to_size_t
  have : ((n : Int) % 2 ^ 64) = n := Int.emod_eq_of_lt (by omega) (by exact_mod_cast h)
  rw [this]; simp

theorem fread_append (f : InFile) (n : Nat) : (fread f n).1 ++ (fread f n).2.rest = f.rest := by
  simp [fread]

theorem fread_length_le (f : InFile) (n : Nat) : (fread f n).1.length ≤ n := by
  simp only [fread, List.length_take]
  omega

theorem DecodeAudio.decode_loop_consumed (L : DecodeAudio.Lib σ) :
    ∀ (fuel : Nat) (ret : Int) (w : World σ AVFrame Sink),
      consumed (DecodeAudio.decode_loop L fuel ret w).2.calls = consumed w.calls := by
  intro fuel
  induction fuel with
  | zero => intro _ _; rfl
  | succ n ih =>
    intro ret w
    simp only [DecodeAudio.decode_loop]
    split_ifs
    · simp [World.receive, consumed_append, consumed]
    · simp [World.receive, consumed_append, consumed]
    · simp [World.receive, consumed_append, consumed]
    · rw [ih]; simp [World.receive, consumed_append, consumed]
    · rfl

theorem DecodeAudio.decode_consumed (L : DecodeAudio.Lib σ) (fuel : Nat)
    (w : World σ AVFrame Sink) (pkt : AVPacket) :
    consumed (DecodeAudio.decode L fuel w pkt).2.calls = consumed w.calls := by
  simp only [DecodeAudio.decode]
  split_ifs
  · simp [World.send, consumed_append, consumed]
  · rw [DecodeAudio.decode_loop_consumed]; simp [World.send, consumed_append, consumed]

theorem DecodeVideo.vdecode_loop_consumed (L : DecodeVideo.Lib σ) (filename : String) :
    ∀ (fuel : Nat) (ret : Int) (w : World σ AVFrame DecodeVideo.Files),
      consumed (DecodeVideo.decode_loop L filename fuel ret w).2.calls = consumed w.calls := by
  intro fuel
  induction fuel with
  | zero => intro _ _; rfl
  | succ n ih =>
    intro ret w
    simp only [DecodeVideo.decode_loop]
    split_ifs
    · simp [World.receive, consumed_append, consumed]
    · simp [World.receive, consumed_append, consumed]
    · rw [ih]; simp [World.receive, consumed_append, consumed]
    · rfl

theorem DecodeVideo.vdecode_consumed (L : DecodeVideo.Lib σ) (filename : String) (fuel : Nat)
    (w : World σ AVFrame DecodeVideo.Files) (pkt : Option AVPacket) :
    consumed (DecodeVideo.decode L filename fuel w pkt).2.calls = consumed w.calls := by
  simp only [DecodeVideo.decode]
  split_ifs
  · simp [World.send, consumed_append, consumed]
  · rw [DecodeVideo.vdecode_loop_consumed]; simp [World.send, consumed_append, consumed]

/-- The invariant of the feeding loop of decode_audio.c: the byte stream is
accounted for, and the window lies inside the input buffer. -/
theorem DecodeAudio.parsed_inv (L : DecodeAudio.Lib σ) (hc : ParserContract L.av_parser_parse2)
    (input : List Byte) (st : DecodeAudio.State σ)
    (h : DecodeAudio.Fed input st ∧ st.data + st.data_size ≤ DecodeAudio.AUDIO_INBUF_SIZE) :
    DecodeAudio.Fed input (DecodeAudio.parsed L st) ∧
    (DecodeAudio.parsed L st).data + (DecodeAudio.parsed L st).data_size ≤
      DecodeAudio.AUDIO_INBUF_SIZE := by
  obtain ⟨hfed, hb⟩ := h
  obtain ⟨h0, h1⟩ := hc st.w.ctx (st.inbuf.add st.data) st.data_size
  set r := (L.av_parser_parse2 st.w.ctx (st.inbuf.add st.data) st.data_size).1 with hr
  have hrn : (r.toNat : Int) = r := Int.toNat_of_nonneg h0
  have hle : r.toNat ≤ st.data_size := by omega
  have hsz : to_size_t ((st.data_size : Int) - r) = st.data_size - r.toNat := by
    have : ((st.data_size : Int) - r) = ((st.data_size - r.toNat : Nat) : Int) := by omega
    rw [this]
    apply to_size_t_of_nat
    have : DecodeAudio.AUDIO_INBUF_SIZE = 20480 := rfl
    omega
  have hds : (DecodeAudio.parsed L st).data_size = st.data_size - r.toNat := by
    simp only [DecodeAudio.parsed, DecodeAudio.advance, DecodeAudio.parse_call]
    exact hsz
  have hda : (DecodeAudio.parsed L st).data = st.data + r.toNat := rfl
  have hib : (DecodeAudio.parsed L st).inbuf = st.inbuf := rfl
  have hrest : (DecodeAudio.parsed L st).infile = st.infile := rfl
  have hcalls : (DecodeAudio.parsed L st).w.calls =
      st.w.calls ++ [Call.parse (bytesAt (st.inbuf.add st.data) st.data_size) r] := rfl
  refine ⟨?_, ?_⟩
  · unfold DecodeAudio.Fed DecodeAudio.window at hfed ⊢
    rw [hcalls, hds, hda, hib, hrest, consumed_append, ← hfed]
    simp only [consumed, List.append_nil, List.append_assoc]
    rw [← ptr_add_add, ← List.append_assoc ((bytesAt (st.inbuf.add st.data) st.data_size).take _),
      bytesAt_split _ _ _ hle]
  · rw [hds, hda]; omega

theorem DecodeAudio.refill_inv (input : List Byte) (st : DecodeAudio.State σ)
    (h : DecodeAudio.Fed input st ∧ st.data + st.data_size ≤ DecodeAudio.AUDIO_INBUF_SIZE) :
    DecodeAudio.Fed input (DecodeAudio.refill st) ∧
    (DecodeAudio.refill st).data + (DecodeAudio.refill st).data_size ≤
      DecodeAudio.AUDIO_INBUF_SIZE := by
  obtain ⟨hfed, hb⟩ := h
  have hA : DecodeAudio.AUDIO_INBUF_SIZE = 20480 := rfl
  have hT : DecodeAudio.AUDIO_REFILL_THRESH = 4096 := rfl
  unfold DecodeAudio.refill
  by_cases hlt : st.data_size < DecodeAudio.AUDIO_REFILL_THRESH
  · simp only [hlt, if_true]
    have hreq : to_size_t ((DecodeAudio.AUDIO_INBUF_SIZE : Int) - st.data_size) =
        DecodeAudio.AUDIO_INBUF_SIZE - st.data_size := by
      have : ((DecodeAudio.AUDIO_INBUF_SIZE : Int) - st.data_size) =
          ((DecodeAudio.AUDIO_INBUF_SIZE - st.data_size : Nat) : Int) := by omega
      rw [this]
      apply to_size_t_of_nat
      omega
    rw [hreq]
    set chunk := (fread st.infile (DecodeAudio.AUDIO_INBUF_SIZE - st.data_size)).1 with hchunk
    have hlen : chunk.length ≤ DecodeAudio.AUDIO_INBUF_SIZE - st.data_size :=
      fread_length_le _ _
    have hds : (if (0 : Int) < (chunk.length : Int)
        then to_size_t ((st.data_size : Int) + (chunk.length : Int)) else st.data_size) =
        st.data_size + chunk.length := by
      by_cases hpos : (0 : Int) < (chunk.length : Int)
      · simp only [hpos, if_true]
        have : ((st.data_size : Int) + (chunk.length : Int)) =
            ((st.data_size + chunk.length : Nat) : Int) := by push_cast; rfl
        rw [this]
        apply to_size_t_of_nat
        omega
      · simp only [hpos, if_false]
        omega
    simp only [hds]
    refine ⟨?_, by show 0 + (st.data_size + chunk.length) ≤ _; omega⟩
    unfold DecodeAudio.Fed DecodeAudio.window at hfed ⊢
    show consumed st.w.calls ++
        bytesAt ((store (memmove st.inbuf 0 st.data st.data_size) st.data_size chunk).add 0)
          (st.data_size + chunk.length) ++
        (fread st.infile (DecodeAudio.AUDIO_INBUF_SIZE - st.data_size)).2.rest = input
    rw [bytesAt_add, ptr_add_add, Nat.zero_add, bytesAt_store]
    have hw : bytesAt ((store (memmove st.inbuf 0 st.data st.data_size) st.data_size chunk).add 0)
        st.data_size = bytesAt (st.inbuf.add st.data) st.data_size := by
      apply bytesAt_congr
      intro i hi
      have h1 : ¬ (st.data_size ≤ i ∧ i < st.data_size + chunk.length) := by omega
      simp [store, memmove, Ptr.add, hi, h1]
    rw [hw, ← hfed]
    simp only [List.append_assoc]
    rw [hchunk, fread_append]
  · simp only [hlt, if_false]
    exact ⟨hfed, hb⟩

theorem DecodeAudio.first_read_inv (st : DecodeAudio.State σ) (h : consumed st.w.calls = []) :
    DecodeAudio.Fed st.infile.rest (DecodeAudio.first_read st) ∧
    (DecodeAudio.first_read st).data + (DecodeAudio.first_read st).data_size ≤
      DecodeAudio.AUDIO_INBUF_SIZE := by
  refine ⟨?_, ?_⟩
  · unfold DecodeAudio.Fed DecodeAudio.window DecodeAudio.first_read
    simp only [h, List.nil_append]
    rw [bytesAt_store, fread_append]
  · simp only [DecodeAudio.first_read, Nat.zero_add]
    exact fread_length_le _ _

theorem DecodeAudio.with_world_inv (input : List Byte) (st : DecodeAudio.State σ)
    (w1 : World σ AVFrame Sink) (hw : consumed w1.calls = consumed st.w.calls)
    (h : DecodeAudio.Fed input st ∧ st.data + st.data_size ≤ DecodeAudio.AUDIO_INBUF_SIZE) :
    DecodeAudio.Fed input { st with w := w1 } ∧
    ({ st with w := w1 } : DecodeAudio.State σ).data +
      ({ st with w := w1 } : DecodeAudio.State σ).data_size ≤ DecodeAudio.AUDIO_INBUF_SIZE := by
  refine ⟨?_, h.2⟩
  have := h.1
  unfold DecodeAudio.Fed DecodeAudio.window at this ⊢
  simp only [hw]
  exact this

theorem DecodeAudio.feed_loop_inv (L : DecodeAudio.Lib σ) (hc : ParserContract L.av_parser_parse2)
    (input : List Byte) (fuel : Nat) :
    ∀ (n : Nat) (st : DecodeAudio.State σ),
      (DecodeAudio.Fed input st ∧ st.data + st.data_size ≤ DecodeAudio.AUDIO_INBUF_SIZE) →
      (DecodeAudio.Fed input (DecodeAudio.feed_loop L fuel n st).2 ∧
        (DecodeAudio.feed_loop L fuel n st).2.data + (DecodeAudio.feed_loop L fuel n st).2.data_size
          ≤ DecodeAudio.AUDIO_INBUF_SIZE) ∧
      ((DecodeAudio.feed_loop L fuel n st).1 = Outcome.finished →
        (DecodeAudio.feed_loop L fuel n st).2.data_size = 0) := by
  intro n
  induction n with
  | zero => intro st h; exact ⟨h, fun hf => by simp [DecodeAudio.feed_loop] at hf⟩
  | succ n ih =>
    intro st h
    have hp := DecodeAudio.parsed_inv L hc input st h
    simp only [DecodeAudio.feed_loop]
    by_cases hd : 0 < st.data_size
    · simp only [hd, if_true]
      have hneg : ¬ (DecodeAudio.parse_call L st).1 < 0 :=
        not_lt.mpr (hc st.w.ctx (st.inbuf.add st.data) st.data_size).1
      simp only [hneg, if_false]
      by_cases hsz : (DecodeAudio.parsed L st).pkt.size ≠ 0
      · rw [if_pos hsz]
        have hw := DecodeAudio.decode_consumed L fuel (DecodeAudio.parsed L st).w
          (DecodeAudio.parsed L st).pkt
        rcases hres : DecodeAudio.decode L fuel (DecodeAudio.parsed L st).w
          (DecodeAudio.parsed L st).pkt with ⟨_ | r, w1⟩
        · rw [hres] at hw
          exact ⟨DecodeAudio.with_world_inv input _ w1 hw hp, fun hf => by simp at hf⟩
        · rw [hres] at hw
          simp only
          by_cases hr : r < 0
          · simp only [hr, if_true]
            exact ⟨DecodeAudio.with_world_inv input _ w1 hw hp, fun hf => by simp at hf⟩
          · simp only [hr, if_false]
            exact ih _ (DecodeAudio.refill_inv input _
              (DecodeAudio.with_world_inv input _ w1 hw hp))
      · rw [if_neg hsz]
        exact ih _ (DecodeAudio.refill_inv input _ hp)
    · simp only [hd, if_false]
      exact ⟨h, fun _ => by omega⟩

theorem DecodeVideo.vparsed_inv (L : DecodeVideo.Lib σ) (hc : ParserContract L.av_parser_parse2)
    (input : List Byte) (st : DecodeVideo.State σ)
    (h : DecodeVideo.Fed input st ∧ st.data + st.data_size ≤ DecodeVideo.INBUF_SIZE) :
    DecodeVideo.Fed input (DecodeVideo.parsed L st) ∧
    (DecodeVideo.parsed L st).data + (DecodeVideo.parsed L st).data_size ≤
      DecodeVideo.INBUF_SIZE := by
  obtain ⟨hfed, hb⟩ := h
  obtain ⟨h0, h1⟩ := hc st.w.ctx (st.inbuf.add st.data) st.data_size
  set r := (L.av_parser_parse2 st.w.ctx (st.inbuf.add st.data) st.data_size).1 with hr
  have hrn : (r.toNat : Int) = r := Int.toNat_of_nonneg h0
  have hle : r.toNat ≤ st.data_size := by omega
  have hsz : to_size_t ((st.data_size : Int) - r) = st.data_size - r.toNat := by
    have : ((st.data_size : Int) - r) = ((st.data_size - r.toNat : Nat) : Int) := by omega
    rw [this]
    apply to_size_t_of_nat
    have : DecodeVideo.INBUF_SIZE = 4096 := rfl
    omega
  have hds : (DecodeVideo.parsed L st).data_size = st.data_size - r.toNat := by
    simp only [DecodeVideo.parsed, DecodeVideo.advance, DecodeVideo.parse_call]
    exact hsz
  have hda : (DecodeVideo.parsed L st).data = st.data + r.toNat := rfl
  have hib : (DecodeVideo.parsed L st).inbuf = st.inbuf := rfl
  have hrest : (DecodeVideo.parsed L st).fd = st.fd := rfl
  have hcalls : (DecodeVideo.parsed L st).w.calls =
      st.w.calls ++ [Call.parse (bytesAt (st.inbuf.add st.data) st.data_size) r] := rfl
  refine ⟨?_, ?_⟩
  · unfold DecodeVideo.Fed DecodeVideo.window at hfed ⊢
    rw [hcalls, hds, hda, hib, hrest, consumed_append, ← hfed]
    simp only [consumed, List.append_nil, List.append_assoc]
    rw [← ptr_add_add, ← List.append_assoc ((bytesAt (st.inbuf.add st.data) st.data_size).take _),
      bytesAt_split _ _ _ hle]
  · rw [hds, hda]; omega

theorem DecodeVideo.vwith_world_inv (input : List Byte) (st : DecodeVideo.State σ)
    (w1 : World σ AVFrame DecodeVideo.Files) (hw : consumed w1.calls = consumed st.w.calls)
    (h : DecodeVideo.Fed input st ∧ st.data + st.data_size ≤ DecodeVideo.INBUF_SIZE) :
    DecodeVideo.Fed input { st with w := w1 } ∧
    ({ st with w := w1 } : DecodeVideo.State σ).data +
      ({ st with w := w1 } : DecodeVideo.State σ).data_size ≤ DecodeVideo.INBUF_SIZE := by
  refine ⟨?_, h.2⟩
  have := h.1
  unfold DecodeVideo.Fed DecodeVideo.window at this ⊢
  simp only [hw]
  exact this

theorem DecodeVideo.parse_loop_inv (L : DecodeVideo.Lib σ)
    (hc : ParserContract L.av_parser_parse2) (input : List Byte) (filename : String)
    (fuel : Nat) :
    ∀ (n : Nat) (st : DecodeVideo.State σ),
      (DecodeVideo.Fed input st ∧ st.data + st.data_size ≤ DecodeVideo.INBUF_SIZE) →
      (DecodeVideo.Fed input (DecodeVideo.parse_loop L filename fuel n st).2 ∧
        (DecodeVideo.parse_loop L filename fuel n st).2.data +
          (DecodeVideo.parse_loop L filename fuel n st).2.data_size ≤ DecodeVideo.INBUF_SIZE) ∧
      ((DecodeVideo.parse_loop L filename fuel n st).1 = Outcome.finished →
        (DecodeVideo.parse_loop L filename fuel n st).2.data_size = 0) := by
  intro n
  induction n with
  | zero => intro st h; exact ⟨h, fun hf => by simp [DecodeVideo.parse_loop] at hf⟩
  | succ n ih =>
    intro st h
    have hp := DecodeVideo.vparsed_inv L hc input st h
    simp only [DecodeVideo.parse_loop]
    by_cases hd : 0 < st.data_size
    · simp only [hd, if_true]
      have hneg : ¬ (DecodeVideo.parse_call L st).1 < 0 :=
        not_lt.mpr (hc st.w.ctx (st.inbuf.add st.data) st.data_size).1
      simp only [hneg, if_false]
      by_cases hsz : (DecodeVideo.parsed L st).pkt.size ≠ 0
      · rw [if_pos hsz]
        have hw := DecodeVideo.vdecode_consumed L filename fuel (DecodeVideo.parsed L st).w
          (some (DecodeVideo.parsed L st).pkt)
        rcases hres : DecodeVideo.decode L filename fuel (DecodeVideo.parsed L st).w
          (some (DecodeVideo.parsed L st).pkt) with ⟨_ | r, w1⟩
        · rw [hres] at hw
          exact ⟨DecodeVideo.vwith_world_inv input _ w1 hw hp, fun hf => by simp at hf⟩
        · rw [hres] at hw
          simp only
          by_cases hr : r < 0
          · simp only [hr, if_true]
            exact ⟨DecodeVideo.vwith_world_inv input _ w1 hw hp, fun hf => by simp at hf⟩
          · simp only [hr, if_false]
            exact ih _ (DecodeVideo.vwith_world_inv input _ w1 hw hp)
      · rw [if_neg hsz]
        exact ih _ hp
    · simp only [hd, if_false]
      exact ⟨h, fun _ => by omega⟩

theorem DecodeVideo.read_chunk_inv (input : List Byte) (st : DecodeVideo.State σ)
    (h : DecodeVideo.Fed input st) (hz : st.data_size = 0) :
    DecodeVideo.Fed input { DecodeVideo.read_chunk st with data := 0 } ∧
    ({ DecodeVideo.read_chunk st with data := 0 } : DecodeVideo.State σ).data +
      ({ DecodeVideo.read_chunk st with data := 0 } : DecodeVideo.State σ).data_size ≤
        DecodeVideo.INBUF_SIZE := by
  refine ⟨?_, ?_⟩
  · unfold DecodeVideo.Fed DecodeVideo.window at h ⊢
    show consumed st.w.calls ++
        bytesAt ((store st.inbuf 0 (fread st.fd DecodeVideo.INBUF_SIZE).1).add 0)
          (fread st.fd DecodeVideo.INBUF_SIZE).1.length ++
        (fread st.fd DecodeVideo.INBUF_SIZE).2.rest = input
    rw [bytesAt_store, List.append_assoc, fread_append, ← h, hz]
    simp [bytesAt]
  · show 0 + (fread st.fd DecodeVideo.INBUF_SIZE).1.length ≤ DecodeVideo.INBUF_SIZE
    have := fread_length_le st.fd DecodeVideo.INBUF_SIZE
    omega

theorem DecodeVideo.read_nothing_inv (input : List Byte) (st : DecodeVideo.State σ)
    (h : DecodeVideo.Fed input st) (hz : st.data_size = 0)
    (he : (DecodeVideo.read_chunk st).data_size = 0) :
    DecodeVideo.Fed input (DecodeVideo.read_chunk st) := by
  have h1 : (fread st.fd DecodeVideo.INBUF_SIZE).1 = [] := List.length_eq_zero.mp he
  have h2 := fread_append st.fd DecodeVideo.INBUF_SIZE
  rw [h1, List.nil_append] at h2
  unfold DecodeVideo.Fed DecodeVideo.window at h ⊢
  rw [he]
  show consumed st.w.calls ++ bytesAt _ 0 ++ (fread st.fd DecodeVideo.INBUF_SIZE).2.rest = input
  rw [h2, ← h, hz]
  simp [bytesAt]

theorem DecodeVideo.vfeed_loop_inv (L : DecodeVideo.Lib σ)
    (hc : ParserContract L.av_parser_parse2) (input : List Byte) (filename : String)
    (fuel : Nat) :
    ∀ (n : Nat) (st : DecodeVideo.State σ),
      DecodeVideo.Fed input st → st.data_size = 0 →
      DecodeVideo.Fed input (DecodeVideo.feed_loop L filename fuel n st).2 ∧
      ((DecodeVideo.feed_loop L filename fuel n st).1 = Outcome.finished →
        (DecodeVideo.feed_loop L filename fuel n st).2.data_size = 0) := by
  intro n
  induction n with
  | zero => intro st h _; exact ⟨h, fun hf => by simp [DecodeVideo.feed_loop] at hf⟩
  | succ n ih =>
    intro st h hz
    simp only [DecodeVideo.feed_loop]
    by_cases he : st.fd.eof = false
    · simp only [he, if_true]
      by_cases hd : (DecodeVideo.read_chunk st).data_size = 0
      · rw [if_pos hd]
        exact ⟨DecodeVideo.read_nothing_inv input st h hz hd, fun _ => hd⟩
      · rw [if_neg hd]
        have hp := DecodeVideo.parse_loop_inv L hc input filename fuel fuel _
          (DecodeVideo.read_chunk_inv input st h hz)
        rcases hres : DecodeVideo.parse_loop L filename fuel fuel
          { DecodeVideo.read_chunk st with data := 0 } with ⟨o, st2⟩
        rw [hres] at hp
        cases o with
        | finished => exact ih st2 hp.1.1 (hp.2 rfl)
        | timeout => exact ⟨hp.1.1, fun hf => by simp at hf⟩
        | exited code => exact ⟨hp.1.1, fun hf => by simp at hf⟩
        | jumped => exact ⟨hp.1.1, fun hf => by simp at hf⟩
    · simp only [he, if_false]
      exact ⟨h, fun _ => hz⟩

end FeedLemmas

/-! ### The claims -/

set_option maxRecDepth 100000

/-- C2: in `encode` (encode_audio.c and encode_video.c) and `decode`
(decode_audio.c and decode_video.c), when the submission succeeds and the
engine, after delivering the units `xs`, answers the next retrieval with
`AVERROR(EAGAIN)` or `AVERROR_EOF`, the function returns 0 (any loop bound
above the number of units suffices); for decode_audio.c the bytes-per-sample
value read for each unit is assumed non-negative. -/
theorem C2_stop_codes_return_zero :
    (∀ {σ : Type} (E : Engine σ (Option AVFrame) AVPacket) (c : ErrCodes)
        (w : World σ AVPacket Sink) (frame : Option AVFrame)
        (xs : List (Int × AVPacket × σ)) (s1 : σ) (fuel : Nat),
      0 ≤ (E.send w.ctx frame).1 →
      Emits E.receive c (E.send w.ctx frame).2 xs s1 →
      ((E.receive s1).1 = c.EAGAIN ∨ (E.receive s1).1 = c.EOF) →
      xs.length < fuel →
      (EncodeAudio.encode E c fuel w frame).1 = some 0 ∧
      (EncodeVideo.encode E c fuel w frame).1 = some 0) ∧
    (∀ {σ : Type} (L : DecodeAudio.Lib σ) (w : World σ AVFrame Sink) (pkt : AVPacket)
        (xs : List (Int × AVFrame × σ)) (s1 : σ) (fuel : Nat),
      0 ≤ (L.dec.send w.ctx pkt).1 →
      Emits L.dec.receive L.c (L.dec.send w.ctx pkt).2 xs s1 →
      (∀ x ∈ xs, 0 ≤ L.bytes_per_sample x.2.2) →
      ((L.dec.receive s1).1 = L.c.EAGAIN ∨ (L.dec.receive s1).1 = L.c.EOF) →
      xs.length < fuel →
      (DecodeAudio.decode L fuel w pkt).1 = some 0) ∧
    (∀ {σ : Type} (L : DecodeVideo.Lib σ) (filename : String)
        (w : World σ AVFrame DecodeVideo.Files) (pkt : Option AVPacket)
        (xs : List (Int × AVFrame × σ)) (s1 : σ) (fuel : Nat),
      0 ≤ (L.dec.send w.ctx pkt).1 →
      Emits L.dec.receive L.c (L.dec.send w.ctx pkt).2 xs s1 →
      ((L.dec.receive s1).1 = L.c.EAGAIN ∨ (L.dec.receive s1).1 = L.c.EOF) →
      xs.length < fuel →
      (DecodeVideo.decode L filename fuel w pkt).1 = some 0) := by
  refine ⟨?_, ?_, ?_⟩
  · intro σ E c w frame xs s1 fuel hs hx hy hf
    have h := EncodeAudio.encode_run E c w frame xs s1 fuel hs hx
      (hy.elim Or.inl (fun h => Or.inr (Or.inl h))) hf
    rw [EncodeVideo.encode_eq, h]
    simp [hy]
  · intro σ L w pkt xs s1 fuel hs hx hb hy hf
    rw [DecodeAudio.decode_run L w pkt xs s1 fuel hs hx hb
      (hy.elim Or.inl (fun h => Or.inr (Or.inl h))) hf]
    simp [hy]
  · intro σ L filename w pkt xs s1 fuel hs hx hy hf
    rw [DecodeVideo.vdecode_run L filename w pkt xs s1 fuel hs hx
      (hy.elim Or.inl (fun h => Or.inr (Or.inl h))) hf]
    simp [hy]

/-- C2, evaluated: with two units queued in the example codec, each of the
four functions returns 0 after the submission of one unit. -/
theorem C2_stop_codes_return_zero_witness :
    ((EncodeAudio.encode toyEncoder linux 3 (world0 toyLoaded []) (some (toyFrame [9]))).1 = some 0 ∧
     (EncodeVideo.encode toyEncoder linux 3 (world0 toyLoaded []) (some (toyFrame [9]))).1 = some 0) ∧
    (DecodeAudio.decode toyAudioLib 3 (world0 toyLoaded []) (toyPacket [9])).1 = some 0 ∧
    (DecodeVideo.decode toyVideoLib "out" 3 (world0 toyLoaded []) (some (toyPacket [9]))).1 =
      some 0 :=
  ⟨C2_stop_codes_return_zero.1 toyEncoder linux (world0 toyLoaded []) (some (toyFrame [9]))
      (next2 toyEncoder.receive (toyEncoder.send toyLoaded (some (toyFrame [9]))).2)
      (after2 toyEncoder.receive (toyEncoder.send toyLoaded (some (toyFrame [9]))).2) 3
      (by decide) ⟨rfl, by decide, by decide, by decide, rfl, by decide, by decide, by decide, rfl⟩
      (Or.inl (by decide)) (by decide),
   C2_stop_codes_return_zero.2.1 toyAudioLib (world0 toyLoaded []) (toyPacket [9])
      (next2 toyDecoder.receive (toyDecoder.send toyLoaded (toyPacket [9])).2)
      (after2 toyDecoder.receive (toyDecoder.send toyLoaded (toyPacket [9])).2) 3
      (by decide) ⟨rfl, by decide, by decide, by decide, rfl, by decide, by decide, by decide, rfl⟩
      (by decide) (Or.inl (by decide)) (by decide),
   C2_stop_codes_return_zero.2.2 toyVideoLib "out" (world0 toyLoaded []) (some (toyPacket [9]))
      (next2 toyDecoderNull.receive (toyDecoderNull.send toyLoaded (some (toyPacket [9]))).2)
      (after2 toyDecoderNull.receive (toyDecoderNull.send toyLoaded (some (toyPacket [9]))).2) 3
      (by decide) ⟨rfl, by decide, by decide, by decide, rfl, by decide, by decide, by decide, rfl⟩
      (Or.inl (by decide)) (by decide)⟩

/-- C3: when a call of `encode` (encode_audio.c and encode_video.c) submits
successfully and the engine delivers the packets of `xs` before it answers
`AVERROR(EAGAIN)` or `AVERROR_EOF`, the call returns 0 and the writes on the
output file after the call are those before it followed by one write per
packet, the packet's payload, in retrieval order; so the bytes of the file are
the old bytes followed by the concatenated payloads. -/
theorem C3_encode_writes_payloads_in_order {σ : Type}
    (E : Engine σ (Option AVFrame) AVPacket) (c : ErrCodes)
    (w : World σ AVPacket Sink) (frame : Option AVFrame)
    (xs : List (Int × AVPacket × σ)) (s1 : σ) (fuel : Nat)
    (hs : 0 ≤ (E.send w.ctx frame).1)
    (hx : Emits E.receive c (E.send w.ctx frame).2 xs s1)
    (hy : (E.receive s1).1 = c.EAGAIN ∨ (E.receive s1).1 = c.EOF)
    (hf : xs.length < fuel) :
    ((EncodeAudio.encode E c fuel w frame).1 = some 0 ∧
      (EncodeAudio.encode E c fuel w frame).2.out = w.out ++ xs.map (fun x => x.2.1.payload) ∧
      (EncodeAudio.encode E c fuel w frame).2.out.bytes =
        w.out.bytes ++ (xs.map (fun x => x.2.1.payload)).flatten) ∧
    ((EncodeVideo.encode E c fuel w frame).1 = some 0 ∧
      (EncodeVideo.encode E c fuel w frame).2.out = w.out ++ xs.map (fun x => x.2.1.payload) ∧
      (EncodeVideo.encode E c fuel w frame).2.out.bytes =
        w.out.bytes ++ (xs.map (fun x => x.2.1.payload)).flatten) := by
  have h := EncodeAudio.encode_run E c w frame xs s1 fuel hs hx
    (hy.elim Or.inl (fun h => Or.inr (Or.inl h))) hf
  rw [EncodeVideo.encode_eq, h]
  simp [hy, Sink.bytes]

/-- C3, evaluated: the example encoder has the packets `[1, 2]` and `[3]`
queued; after one call of `encode` the file that held `[[7]]` holds
`[[7], [1, 2], [3]]`. -/
theorem C3_encode_writes_payloads_in_order_witness :
    (EncodeAudio.encode toyEncoder linux 3 (world0 toyLoaded [[7]]) (some (toyFrame [9]))).2.out =
      [[7], [1, 2], [3]] ∧
    (EncodeVideo.encode toyEncoder linux 3 (world0 toyLoaded [[7]]) (some (toyFrame [9]))).2.out =
      [[7], [1, 2], [3]] :=
  have h := C3_encode_writes_payloads_in_order toyEncoder linux (world0 toyLoaded [[7]])
      (some (toyFrame [9]))
      (next2 toyEncoder.receive (toyEncoder.send toyLoaded (some (toyFrame [9]))).2)
      (after2 toyEncoder.receive (toyEncoder.send toyLoaded (some (toyFrame [9]))).2) 3
      (by decide) ⟨rfl, by decide, by decide, by decide, rfl, by decide, by decide, by decide, rfl⟩
      (Or.inl (by decide)) (by decide)
  ⟨h.1.2.1.trans (by decide), h.2.2.1.trans (by decide)⟩

/-- C5: whenever `encode` (encode_audio.c, encode_video.c), `decode`
(decode_audio.c, decode_video.c) or `decode_packet` on a packet of the video
or audio stream returns a non-negative value, the last library call it made is
a retrieval that answered `AVERROR(EAGAIN)` or `AVERROR_EOF`; hence, if the
engine's answer is repeatable, a further retrieval right after the return
answers one of these two codes again, not a unit. -/
theorem C5_draining_is_exhaustive :
    (∀ {σ : Type} (E : Engine σ (Option AVFrame) AVPacket) (c : ErrCodes) (fuel : Nat)
        (w : World σ AVPacket Sink) (frame : Option AVFrame) (r : Int),
      ((EncodeAudio.encode E c fuel w frame).1 = some r → 0 ≤ r →
        EndsDrained c (EncodeAudio.encode E c fuel w frame).2.calls ∧
        (Repeatable E.receive c →
          (E.receive (EncodeAudio.encode E c fuel w frame).2.ctx).1 = c.EAGAIN ∨
          (E.receive (EncodeAudio.encode E c fuel w frame).2.ctx).1 = c.EOF)) ∧
      ((EncodeVideo.encode E c fuel w frame).1 = some r → 0 ≤ r →
        EndsDrained c (EncodeVideo.encode E c fuel w frame).2.calls ∧
        (Repeatable E.receive c →
          (E.receive (EncodeVideo.encode E c fuel w frame).2.ctx).1 = c.EAGAIN ∨
          (E.receive (EncodeVideo.encode E c fuel w frame).2.ctx).1 = c.EOF))) ∧
    (∀ {σ : Type} (L : DecodeAudio.Lib σ) (fuel : Nat) (w : World σ AVFrame Sink)
        (pkt : AVPacket) (r : Int),
      (DecodeAudio.decode L fuel w pkt).1 = some r → 0 ≤ r →
        EndsDrained L.c (DecodeAudio.decode L fuel w pkt).2.calls ∧
        (Repeatable L.dec.receive L.c →
          (L.dec.receive (DecodeAudio.decode L fuel w pkt).2.ctx).1 = L.c.EAGAIN ∨
          (L.dec.receive (DecodeAudio.decode L fuel w pkt).2.ctx).1 = L.c.EOF)) ∧
    (∀ {σ : Type} (L : DecodeVideo.Lib σ) (filename : String) (fuel : Nat)
        (w : World σ AVFrame DecodeVideo.Files) (pkt : Option AVPacket) (r : Int),
      (DecodeVideo.decode L filename fuel w pkt).1 = some r → 0 ≤ r →
        EndsDrained L.c (DecodeVideo.decode L filename fuel w pkt).2.calls ∧
        (Repeatable L.dec.receive L.c →
          (L.dec.receive (DecodeVideo.decode L filename fuel w pkt).2.ctx).1 = L.c.EAGAIN ∨
          (L.dec.receive (DecodeVideo.decode L filename fuel w pkt).2.ctx).1 = L.c.EOF)) ∧
    (∀ {σ φ : Type} (L : DemuxingDecoding.Lib σ φ) (k : DemuxingDecoding.Config) (fuel : Nat)
        (cached : Int) (st : DemuxingDecoding.State σ φ) (r : Int),
      (DemuxingDecoding.decode_packet L k fuel cached st).1 = some r → 0 ≤ r →
      (st.pkt.stream_index = k.video_stream_idx →
        DemuxingDecoding.EndsDrained L.c (DemuxingDecoding.decode_packet L k fuel cached st).2.calls ∧
        (Repeatable L.video.receive L.c →
          (L.video.receive
            (DemuxingDecoding.decode_packet L k fuel cached st).2.video_dec_ctx).1 = L.c.EAGAIN ∨
          (L.video.receive
            (DemuxingDecoding.decode_packet L k fuel cached st).2.video_dec_ctx).1 = L.c.EOF)) ∧
      (st.pkt.stream_index ≠ k.video_stream_idx → st.pkt.stream_index = k.audio_stream_idx →
        DemuxingDecoding.EndsDrained L.c (DemuxingDecoding.decode_packet L k fuel cached st).2.calls ∧
        (Repeatable L.audio.receive L.c →
          (L.audio.receive
            (DemuxingDecoding.decode_packet L k fuel cached st).2.audio_dec_ctx).1 = L.c.EAGAIN ∨
          (L.audio.receive
            (DemuxingDecoding.decode_packet L k fuel cached st).2.audio_dec_ctx).1 = L.c.EOF))) := by
  have enc : ∀ {σ : Type} (E : Engine σ (Option AVFrame) AVPacket) (c : ErrCodes) (fuel : Nat)
      (w : World σ AVPacket Sink) (frame : Option AVFrame) (r : Int),
      (EncodeAudio.encode E c fuel w frame).1 = some r → 0 ≤ r →
        EndsDrained c (EncodeAudio.encode E c fuel w frame).2.calls ∧
        (Repeatable E.receive c →
          (E.receive (EncodeAudio.encode E c fuel w frame).2.ctx).1 = c.EAGAIN ∨
          (E.receive (EncodeAudio.encode E c fuel w frame).2.ctx).1 = c.EOF) := by
    intro σ E c fuel w frame r h hr
    obtain ⟨w0, hstop, hw⟩ := EncodeAudio.encode_success E c fuel w frame r h hr
    rw [hw]
    refine ⟨endsDrained_concat c _ _ _ hstop, fun hrep => ?_⟩
    have := hrep w0.ctx hstop
    simp only [World.receive] at hstop ⊢
    rw [this]; exact hstop
  refine ⟨?_, ?_, ?_, ?_⟩
  · intro σ E c fuel w frame r
    refine ⟨enc E c fuel w frame r, ?_⟩
    rw [EncodeVideo.encode_eq]
    exact enc E c fuel w frame r
  · intro σ L fuel w pkt r h hr
    obtain ⟨w0, hstop, hw⟩ := DecodeAudio.decode_success L fuel w pkt r h hr
    rw [hw]
    refine ⟨endsDrained_concat L.c _ _ _ hstop, fun hrep => ?_⟩
    have := hrep w0.ctx hstop
    simp only [World.receive] at hstop ⊢
    rw [this]; exact hstop
  · intro σ L filename fuel w pkt r h hr
    obtain ⟨w0, hstop, hw⟩ := DecodeVideo.vdecode_success L filename fuel w pkt r h hr
    rw [hw]
    refine ⟨endsDrained_concat L.c _ _ _ hstop, fun hrep => ?_⟩
    have := hrep w0.ctx hstop
    simp only [World.receive] at hstop ⊢
    rw [this]; exact hstop
  · intro σ φ L k fuel cached st r h hr
    refine ⟨fun hv => ?_, fun hv ha => ?_⟩
    · obtain ⟨st0, hstop, hw⟩ :=
        DemuxingDecoding.decode_packet_video_success L k fuel cached st r hv h hr
      rw [hw]
      refine ⟨?_, fun hrep => ?_⟩
      · rcases hstop with h1 | h1
        · left; simp [h1]
        · right; left; simp [h1]
      · have := hrep st0.video_dec_ctx hstop
        simp only
        rw [this]; exact hstop
    · obtain ⟨st0, hstop, hw⟩ :=
        DemuxingDecoding.decode_packet_audio_success L k fuel cached st r hv ha h hr
      rw [hw]
      refine ⟨?_, fun hrep => ?_⟩
      · rcases hstop with h1 | h1
        · right; right; left; simp [h1]
        · right; right; right; simp [h1]
      · have := hrep st0.audio_dec_ctx hstop
        simp only
        rw [this]; exact hstop

/-- C5, evaluated: after `encode`, `decode` and `decode_packet` have returned
0 on the example codec, one more retrieval answers `AVERROR(EAGAIN)`. -/
theorem C5_draining_is_exhaustive_witness :
    (toyEncoder.receive
      (EncodeAudio.encode toyEncoder linux 3 (world0 toyLoaded []) (some (toyFrame [9]))).2.ctx).1
      = linux.EAGAIN ∧
    (toyDecoder.receive
      (DecodeAudio.decode toyAudioLib 3 (world0 toyLoaded []) (toyPacket [9])).2.ctx).1
      = linux.EAGAIN ∧
    (toyDecoderNull.receive
      (DecodeVideo.decode toyVideoLib "out" 3 (world0 toyLoaded []) (some (toyPacket [9]))).2.ctx).1
      = linux.EAGAIN ∧
    DemuxingDecoding.EndsDrained linux
      (DemuxingDecoding.decode_packet toyLib toyConfig 3 0
        { toyState toyPictures (toy0 false) [] 0 with pkt := toyPacket [9] }).2.calls :=
  ⟨((((C5_draining_is_exhaustive.1 toyEncoder linux 3 (world0 toyLoaded [])
        (some (toyFrame [9])) 0).1 (by decide) (by decide)).2
        (fun s h => toy_repeatable s h)).resolve_right (by decide)),
   ((((C5_draining_is_exhaustive.2.1 toyAudioLib 3 (world0 toyLoaded [])
        (toyPacket [9]) 0) (by decide) (by decide)).2
        (fun s h => toy_repeatable s h)).resolve_right (by decide)),
   ((((C5_draining_is_exhaustive.2.2.1 toyVideoLib "out" 3 (world0 toyLoaded [])
        (some (toyPacket [9])) 0) (by decide) (by decide)).2
        (fun s h => toy_repeatable s h)).resolve_right (by decide)),
   (((C5_draining_is_exhaustive.2.2.2 toyLib toyConfig 3 0
        { toyState toyPictures (toy0 false) [] 0 with pkt := toyPacket [9] } 0
        (by decide) (by decide)).1 rfl).1)⟩

/-- C6: if the engine rejects the submission (the send call returns a negative
value), then `encode`, `decode` and `decode_packet` return a negative value
(the value of the send call, or -1 in decode_audio.c and decode_video.c), the
only library call made is the rejected submission, so no retrieval is
attempted, and the output files and the frame counters are unchanged. -/
theorem C6_rejected_submission :
    (∀ {σ : Type} (E : Engine σ (Option AVFrame) AVPacket) (c : ErrCodes) (fuel : Nat)
        (w : World σ AVPacket Sink) (frame : Option AVFrame),
      (E.send w.ctx frame).1 < 0 →
      (EncodeAudio.encode E c fuel w frame =
        (some (E.send w.ctx frame).1,
         { w with ctx := (E.send w.ctx frame).2,
                  calls := w.calls ++ [Call.send (E.send w.ctx frame).1] })) ∧
      (EncodeVideo.encode E c fuel w frame =
        (some (E.send w.ctx frame).1,
         { w with ctx := (E.send w.ctx frame).2,
                  calls := w.calls ++ [Call.send (E.send w.ctx frame).1] }))) ∧
    (∀ {σ : Type} (L : DecodeAudio.Lib σ) (fuel : Nat) (w : World σ AVFrame Sink)
        (pkt : AVPacket),
      (L.dec.send w.ctx pkt).1 < 0 →
      DecodeAudio.decode L fuel w pkt =
        (some (-1),
         { w with ctx := (L.dec.send w.ctx pkt).2,
                  calls := w.calls ++ [Call.send (L.dec.send w.ctx pkt).1] })) ∧
    (∀ {σ : Type} (L : DecodeVideo.Lib σ) (filename : String) (fuel : Nat)
        (w : World σ AVFrame DecodeVideo.Files) (pkt : Option AVPacket),
      (L.dec.send w.ctx pkt).1 < 0 →
      DecodeVideo.decode L filename fuel w pkt =
        (some (-1),
         { w with ctx := (L.dec.send w.ctx pkt).2,
                  calls := w.calls ++ [Call.send (L.dec.send w.ctx pkt).1] })) ∧
    (∀ {σ φ : Type} (L : DemuxingDecoding.Lib σ φ) (k : DemuxingDecoding.Config) (fuel : Nat)
        (cached : Int) (st : DemuxingDecoding.State σ φ),
      (st.pkt.stream_index = k.video_stream_idx →
        (L.video.send st.video_dec_ctx st.pkt).1 < 0 →
        DemuxingDecoding.decode_packet L k fuel cached st =
          (some (L.video.send st.video_dec_ctx st.pkt).1,
           { st with video_dec_ctx := (L.video.send st.video_dec_ctx st.pkt).2,
                     calls := st.calls ++
                       [DemuxingDecoding.DCall.send_video st.pkt.size
                         (L.video.send st.video_dec_ctx st.pkt).1] })) ∧
      (st.pkt.stream_index ≠ k.video_stream_idx → st.pkt.stream_index = k.audio_stream_idx →
        (L.audio.send st.audio_dec_ctx st.pkt).1 < 0 →
        DemuxingDecoding.decode_packet L k fuel cached st =
          (some (L.audio.send st.audio_dec_ctx st.pkt).1,
           { st with audio_dec_ctx := (L.audio.send st.audio_dec_ctx st.pkt).2,
                     calls := st.calls ++
                       [DemuxingDecoding.DCall.send_audio st.pkt.size
                         (L.audio.send st.audio_dec_ctx st.pkt).1] }))) := by
  refine ⟨?_, ?_, ?_, ?_⟩
  · intro σ E c fuel w frame h
    rw [EncodeVideo.encode_eq]
    simp [EncodeAudio.encode, World.send, h]
  · intro σ L fuel w pkt h
    simp [DecodeAudio.decode, World.send, h]
  · intro σ L filename fuel w pkt h
    simp [DecodeVideo.decode, World.send, h]
  · intro σ φ L k fuel cached st
    refine ⟨fun hv h => ?_, fun hv ha h => ?_⟩
    · simp [DemuxingDecoding.decode_packet, hv, h]
    · simp only [DemuxingDecoding.decode_packet, hv, if_false]
      simp [ha, h]

/-- C6, evaluated: the example codec rejects the submission with -22 although
it has a unit queued; the five functions return a negative value, write
nothing, and the history holds the rejected submission only. -/
theorem C6_rejected_submission_witness :
    ((EncodeAudio.encode toyEncoder linux 3 (world0 toyRejecting [[7]]) (some (toyFrame [9]))).1
        = some (-22) ∧
      (EncodeAudio.encode toyEncoder linux 3 (world0 toyRejecting [[7]]) (some (toyFrame [9]))).2.out
        = [[7]]) ∧
    (DecodeAudio.decode toyAudioLib 3 (world0 toyRejecting [[7]]) (toyPacket [9])).1 = some (-1) ∧
    (DecodeVideo.decode toyVideoLib "out" 3 (world0 toyRejecting []) (some (toyPacket [9]))).1
      = some (-1) ∧
    (DemuxingDecoding.decode_packet toyLib toyConfig 3 0
        { toyState toyRejecting (toy0 false) [] 0 with pkt := toyPacket [9] }).2.calls
      = [DemuxingDecoding.DCall.send_video 1 (-22)] :=
  ⟨⟨congrArg Prod.fst ((C6_rejected_submission.1 toyEncoder linux 3 (world0 toyRejecting [[7]])
        (some (toyFrame [9])) (by decide)).1),
    congrArg (fun x => x.2.out) ((C6_rejected_submission.1 toyEncoder linux 3
        (world0 toyRejecting [[7]]) (some (toyFrame [9])) (by decide)).1)⟩,
   congrArg Prod.fst (C6_rejected_submission.2.1 toyAudioLib 3 (world0 toyRejecting [[7]])
        (toyPacket [9]) (by decide)),
   congrArg Prod.fst (C6_rejected_submission.2.2.1 toyVideoLib "out" 3 (world0 toyRejecting [])
        (some (toyPacket [9])) (by decide)),
   congrArg (fun x => x.2.calls) ((C6_rejected_submission.2.2.2 toyLib toyConfig 3 0
        { toyState toyRejecting (toy0 false) [] 0 with pkt := toyPacket [9] }).1 rfl (by decide))⟩

/-- C7: if, in one call of `encode`, `decode` or `decode_packet`, the
submission succeeds, the engine delivers the units of `xs`, and the next
retrieval fails (a negative value other than `AVERROR(EAGAIN)` and
`AVERROR_EOF`), then the function returns a negative value, the failing
retrieval is its last library call (the history gains the submission, one
retrieval per unit and the failing retrieval, nothing after it), and the
output is the output before the call followed by exactly the writes for the
units of `xs`.  For decode_audio.c the bytes-per-sample value read for each
unit is assumed non-negative; for the video branch of `decode_packet` the
units are assumed to have the configured shape. -/
theorem C7_failed_retrieval_keeps_earlier_output :
    (∀ {σ : Type} (E : Engine σ (Option AVFrame) AVPacket) (c : ErrCodes)
        (w : World σ AVPacket Sink) (frame : Option AVFrame)
        (xs : List (Int × AVPacket × σ)) (s1 : σ) (fuel : Nat),
      0 ≤ (E.send w.ctx frame).1 →
      Emits E.receive c (E.send w.ctx frame).2 xs s1 →
      ((E.receive s1).1 < 0 ∧ (E.receive s1).1 ≠ c.EAGAIN ∧ (E.receive s1).1 ≠ c.EOF) →
      xs.length < fuel →
      (EncodeAudio.encode E c fuel w frame =
        (some (E.receive s1).1,
         { ctx := (E.receive s1).2.2,
           out := w.out ++ xs.map (fun x => x.2.1.payload),
           calls := w.calls ++ [Call.send (E.send w.ctx frame).1] ++ receipts xs ++
             [Call.receive (E.receive s1).1 (E.receive s1).2.1] })) ∧
      (EncodeVideo.encode E c fuel w frame =
        (some (E.receive s1).1,
         { ctx := (E.receive s1).2.2,
           out := w.out ++ xs.map (fun x => x.2.1.payload),
           calls := w.calls ++ [Call.send (E.send w.ctx frame).1] ++ receipts xs ++
             [Call.receive (E.receive s1).1 (E.receive s1).2.1] }))) ∧
    (∀ {σ : Type} (L : DecodeAudio.Lib σ) (w : World σ AVFrame Sink) (pkt : AVPacket)
        (xs : List (Int × AVFrame × σ)) (s1 : σ) (fuel : Nat),
      0 ≤ (L.dec.send w.ctx pkt).1 →
      Emits L.dec.receive L.c (L.dec.send w.ctx pkt).2 xs s1 →
      (∀ x ∈ xs, 0 ≤ L.bytes_per_sample x.2.2) →
      ((L.dec.receive s1).1 < 0 ∧ (L.dec.receive s1).1 ≠ L.c.EAGAIN ∧
        (L.dec.receive s1).1 ≠ L.c.EOF) →
      xs.length < fuel →
      DecodeAudio.decode L fuel w pkt =
        (some (-1),
         { ctx := (L.dec.receive s1).2.2,
           out := w.out ++ (xs.map (DecodeAudio.frame_writes L)).flatten,
           calls := w.calls ++ [Call.send (L.dec.send w.ctx pkt).1] ++ receipts xs ++
             [Call.receive (L.dec.receive s1).1 (L.dec.receive s1).2.1] })) ∧
    (∀ {σ : Type} (L : DecodeVideo.Lib σ) (filename : String)
        (w : World σ AVFrame DecodeVideo.Files) (pkt : Option AVPacket)
        (xs : List (Int × AVFrame × σ)) (s1 : σ) (fuel : Nat),
      0 ≤ (L.dec.send w.ctx pkt).1 →
      Emits L.dec.receive L.c (L.dec.send w.ctx pkt).2 xs s1 →
      ((L.dec.receive s1).1 < 0 ∧ (L.dec.receive s1).1 ≠ L.c.EAGAIN ∧
        (L.dec.receive s1).1 ≠ L.c.EOF) →
      xs.length < fuel →
      DecodeVideo.decode L filename fuel w pkt =
        (some (-1),
         { ctx := (L.dec.receive s1).2.2,
           out := w.out ++ xs.map (DecodeVideo.saved L filename),
           calls := w.calls ++ [Call.send (L.dec.send w.ctx pkt).1] ++ receipts xs ++
             [Call.receive (L.dec.receive s1).1 (L.dec.receive s1).2.1] })) ∧
    (∀ {σ φ : Type} (L : DemuxingDecoding.Lib σ φ) (k : DemuxingDecoding.Config) (fuel : Nat)
        (cached : Int) (st : DemuxingDecoding.State σ φ)
        (xs : List (Int × AVFrame × σ)) (s1 : σ),
      st.pkt.stream_index = k.video_stream_idx →
      0 ≤ (L.video.send st.video_dec_ctx st.pkt).1 →
      Emits L.video.receive L.c (L.video.send st.video_dec_ctx st.pkt).2 xs s1 →
      (∀ x ∈ xs, DemuxingDecoding.SameShape k x.2.1) →
      ((L.video.receive s1).1 < 0 ∧ (L.video.receive s1).1 ≠ L.c.EAGAIN ∧
        (L.video.receive s1).1 ≠ L.c.EOF) →
      xs.length < fuel →
      (DemuxingDecoding.decode_packet L k fuel cached st).1 = some (L.video.receive s1).1 ∧
      (DemuxingDecoding.decode_packet L k fuel cached st).2.calls =
        st.calls ++ [DemuxingDecoding.DCall.send_video st.pkt.size
            (L.video.send st.video_dec_ctx st.pkt).1] ++
          xs.map (fun x => DemuxingDecoding.DCall.receive_video x.1) ++
          [DemuxingDecoding.DCall.receive_video (L.video.receive s1).1] ∧
      (DemuxingDecoding.decode_packet L k fuel cached st).2.video_dst_file =
        st.video_dst_file ++ DemuxingDecoding.video_writes L k st.video_dst_data xs ∧
      (DemuxingDecoding.decode_packet L k fuel cached st).2.video_frame_count =
        st.video_frame_count + xs.length ∧
      (DemuxingDecoding.decode_packet L k fuel cached st).2.audio_dst_file =
        st.audio_dst_file) ∧
    (∀ {σ φ : Type} (L : DemuxingDecoding.Lib σ φ) (k : DemuxingDecoding.Config) (fuel : Nat)
        (cached : Int) (st : DemuxingDecoding.State σ φ)
        (xs : List (Int × AVFrame × σ)) (s1 : σ),
      st.pkt.stream_index ≠ k.video_stream_idx →
      st.pkt.stream_index = k.audio_stream_idx →
      0 ≤ (L.audio.send st.audio_dec_ctx st.pkt).1 →
      Emits L.audio.receive L.c (L.audio.send st.audio_dec_ctx st.pkt).2 xs s1 →
      ((L.audio.receive s1).1 < 0 ∧ (L.audio.receive s1).1 ≠ L.c.EAGAIN ∧
        (L.audio.receive s1).1 ≠ L.c.EOF) →
      xs.length < fuel →
      (DemuxingDecoding.decode_packet L k fuel cached st).1 = some (L.audio.receive s1).1 ∧
      (DemuxingDecoding.decode_packet L k fuel cached st).2.calls =
        st.calls ++ [DemuxingDecoding.DCall.send_audio st.pkt.size
            (L.audio.send st.audio_dec_ctx st.pkt).1] ++
          xs.map (fun x => DemuxingDecoding.DCall.receive_audio x.1) ++
          [DemuxingDecoding.DCall.receive_audio (L.audio.receive s1).1] ∧
      (DemuxingDecoding.decode_packet L k fuel cached st).2.audio_dst_file =
        st.audio_dst_file ++ xs.map (fun x => DemuxingDecoding.audio_write L x.2.1) ∧
      (DemuxingDecoding.decode_packet L k fuel cached st).2.audio_frame_count =
        st.audio_frame_count + xs.length ∧
      (DemuxingDecoding.decode_packet L k fuel cached st).2.video_dst_file =
        st.video_dst_file) := by
  refine ⟨?_, ?_, ?_, ?_, ?_⟩
  · intro σ E c w frame xs s1 fuel hs hx hy hf
    have hns : ¬ ((E.receive s1).1 = c.EAGAIN ∨ (E.receive s1).1 = c.EOF) := by
      simp [hy.2.1, hy.2.2]
    have h := EncodeAudio.encode_run E c w frame xs s1 fuel hs hx
      (Or.inr (Or.inr hy.1)) hf
    rw [EncodeVideo.encode_eq, h]
    simp [hns]
  · intro σ L w pkt xs s1 fuel hs hx hb hy hf
    have hns : ¬ ((L.dec.receive s1).1 = L.c.EAGAIN ∨ (L.dec.receive s1).1 = L.c.EOF) := by
      simp [hy.2.1, hy.2.2]
    rw [DecodeAudio.decode_run L w pkt xs s1 fuel hs hx hb (Or.inr (Or.inr hy.1)) hf]
    simp [hns]
  · intro σ L filename w pkt xs s1 fuel hs hx hy hf
    have hns : ¬ ((L.dec.receive s1).1 = L.c.EAGAIN ∨ (L.dec.receive s1).1 = L.c.EOF) := by
      simp [hy.2.1, hy.2.2]
    rw [DecodeVideo.vdecode_run L filename w pkt xs s1 fuel hs hx (Or.inr (Or.inr hy.1)) hf]
    simp [hns]
  · intro σ φ L k fuel cached st xs s1 hv hs hx hm hy hf
    have hns : ¬ ((L.video.receive s1).1 = L.c.EAGAIN ∨ (L.video.receive s1).1 = L.c.EOF) := by
      simp [hy.2.1, hy.2.2]
    rw [DemuxingDecoding.decode_packet_video_run L k fuel cached st xs s1 hv hs hx hm
      (Or.inr (Or.inr (Or.inl hy.1))) hf]
    obtain ⟨a1, a2, a3, a4, _, _, _, _⟩ :=
      DemuxingDecoding.video_fold_fields L k xs (DemuxingDecoding.video_sent L st)
    simp only [hns, hy.1, if_true, if_false, a1, a2, a3, a4]
    simp [DemuxingDecoding.video_sent]
  · intro σ φ L k fuel cached st xs s1 hv ha hs hx hy hf
    have hns : ¬ ((L.audio.receive s1).1 = L.c.EAGAIN ∨ (L.audio.receive s1).1 = L.c.EOF) := by
      simp [hy.2.1, hy.2.2]
    rw [DemuxingDecoding.decode_packet_audio_run L k fuel cached st xs s1 hv ha hs hx
      (Or.inr (Or.inr hy.1)) hf]
    obtain ⟨a1, a2, a3, a4, _, _, _, _⟩ :=
      DemuxingDecoding.audio_fold_fields L xs (DemuxingDecoding.audio_sent L st)
    simp only [hns, if_false, a1, a2, a3, a4]
    simp [DemuxingDecoding.audio_sent]

/-- C7, evaluated: the example codec delivers the unit `[1, 2]` and then
fails with -5; the functions return a negative value and the output holds the
old content followed by the writes for that one unit. -/
theorem C7_failed_retrieval_keeps_earlier_output_witness :
    ((EncodeAudio.encode toyEncoder linux 3 (world0 toyFailing [[7]]) (some (toyFrame [9]))).1
        = some (-5) ∧
      (EncodeAudio.encode toyEncoder linux 3 (world0 toyFailing [[7]]) (some (toyFrame [9]))).2.out
        = [[7], [1, 2]]) ∧
    ((DecodeAudio.decode toyAudioLib 3 (world0 toyFailing [[7]]) (toyPacket [9])).1 = some (-1) ∧
      (DecodeAudio.decode toyAudioLib 3 (world0 toyFailing [[7]]) (toyPacket [9])).2.out
        = [[7], [1], [2]]) ∧
    (DecodeVideo.decode toyVideoLib "out" 3 (world0 toyFailing []) (some (toyPacket [9]))).1
      = some (-1) ∧
    ((DemuxingDecoding.decode_packet toyLib toyConfig 3 0
        { toyState toyFailing (toy0 false) [] 0 with pkt := toyPacket [9] }).1 = some (-5) ∧
      (DemuxingDecoding.decode_packet toyLib toyConfig 3 0
        { toyState toyFailing (toy0 false) [] 0 with pkt := toyPacket [9] }).2.video_dst_file
        = [[1, 2]]) ∧
    ((DemuxingDecoding.decode_packet toyLib toyConfig 3 0
        { toyState (toy0 false) toyFailing [] 0 with
            pkt := { toyPacket [9] with stream_index := 1 } }).1 = some (-5) ∧
      (DemuxingDecoding.decode_packet toyLib toyConfig 3 0
        { toyState (toy0 false) toyFailing [] 0 with
            pkt := { toyPacket [9] with stream_index := 1 } }).2.audio_dst_file
        = [[1, 2]]) :=
  have e := (C7_failed_retrieval_keeps_earlier_output.1 toyEncoder linux
      (world0 toyFailing [[7]]) (some (toyFrame [9]))
      [toyEncoder.receive (toyEncoder.send toyFailing (some (toyFrame [9]))).2]
      (toyEncoder.receive (toyEncoder.send toyFailing (some (toyFrame [9]))).2).2.2 3
      (by decide) ⟨rfl, by decide, by decide, by decide, rfl⟩
      ⟨by decide, by decide, by decide⟩ (by decide)).1
  have a := C7_failed_retrieval_keeps_earlier_output.2.1 toyAudioLib
      (world0 toyFailing [[7]]) (toyPacket [9])
      [toyDecoder.receive (toyDecoder.send toyFailing (toyPacket [9])).2]
      (toyDecoder.receive (toyDecoder.send toyFailing (toyPacket [9])).2).2.2 3
      (by decide) ⟨rfl, by decide, by decide, by decide, rfl⟩ (by decide)
      ⟨by decide, by decide, by decide⟩ (by decide)
  have v := C7_failed_retrieval_keeps_earlier_output.2.2.1 toyVideoLib "out"
      (world0 toyFailing []) (some (toyPacket [9]))
      [toyDecoderNull.receive (toyDecoderNull.send toyFailing (some (toyPacket [9]))).2]
      (toyDecoderNull.receive (toyDecoderNull.send toyFailing (some (toyPacket [9]))).2).2.2 3
      (by decide) ⟨rfl, by decide, by decide, by decide, rfl⟩
      ⟨by decide, by decide, by decide⟩ (by decide)
  have dv := C7_failed_retrieval_keeps_earlier_output.2.2.2.1 toyLib toyConfig 3 0
      { toyState toyFailing (toy0 false) [] 0 with pkt := toyPacket [9] }
      [toyDecoder.receive (toyDecoder.send toyFailing (toyPacket [9])).2]
      (toyDecoder.receive (toyDecoder.send toyFailing (toyPacket [9])).2).2.2
      rfl (by decide) ⟨rfl, by decide, by decide, by decide, rfl⟩
      (by decide) ⟨by decide, by decide, by decide⟩ (by decide)
  have da := C7_failed_retrieval_keeps_earlier_output.2.2.2.2 toyLib toyConfig 3 0
      { toyState (toy0 false) toyFailing [] 0 with
          pkt := { toyPacket [9] with stream_index := 1 } }
      [toyDecoder.receive (toyDecoder.send toyFailing (toyPacket [9])).2]
      (toyDecoder.receive (toyDecoder.send toyFailing (toyPacket [9])).2).2.2
      (by decide) rfl (by decide) ⟨rfl, by decide, by decide, by decide, rfl⟩
      ⟨by decide, by decide, by decide⟩ (by decide)
  ⟨⟨congrArg Prod.fst e, congrArg (fun x => x.2.out) e⟩,
   ⟨congrArg Prod.fst a, (congrArg (fun x => x.2.out) a).trans (by decide)⟩,
   congrArg Prod.fst v,
   ⟨dv.1, dv.2.2.1.trans (by decide)⟩,
   ⟨da.1, da.2.2.1.trans (by decide)⟩⟩

/-- C1 (the code departs from the claim): evaluated on an input with a single
video packet of one byte and a decoder that accepts every packet and answers
`AVERROR(EAGAIN)`.  `decode_packet` returns 0, so `main` does not advance in
the packet and submits the same packet again in every iteration of its
`do ... while` loop: with a bound of three iterations the run is still in
that loop, the history shows one read followed by three submissions of the
packet, and the decoder has received its payload three times. -/
theorem C1_same_packet_is_submitted_again :
    (DemuxingDecoding.main toyLib toyConfig 3
        (toyState (toy0 true) (toy0 true) [(0, [7])] 0)).1 = none ∧
    (DemuxingDecoding.main toyLib toyConfig 3
        (toyState (toy0 true) (toy0 true) [(0, [7])] 0)).2.calls =
      [DemuxingDecoding.DCall.read 0 0 1,
       DemuxingDecoding.DCall.send_video 1 0, DemuxingDecoding.DCall.receive_video (-11),
       DemuxingDecoding.DCall.send_video 1 0, DemuxingDecoding.DCall.receive_video (-11),
       DemuxingDecoding.DCall.send_video 1 0, DemuxingDecoding.DCall.receive_video (-11)] ∧
    (DemuxingDecoding.main toyLib toyConfig 3
        (toyState (toy0 true) (toy0 true) [(0, [7])] 0)).2.video_dec_ctx.held =
      [[7], [7], [7]] := by
  refine ⟨by decide, by decide, by decide⟩

/-- C8, counterexample for demuxing_decoding.c: the input holds two video
packets and the video decoder rejects every submission with -22.  The first
call of `decode_packet` returns -22; `main` nevertheless reads on, submits the
second packet and finally the flush packet.  So a submission follows a
rejected submission in the history of `main`. -/
theorem C8_demux_submits_after_error :
    (DemuxingDecoding.decode_packet toyLib toyConfig 3 0
        { toyState toyRejecting (toy0 true) [(0, [8])] 0 with
            pkt := toyPacket [7],
            calls := [DemuxingDecoding.DCall.read 0 0 1] }).1 = some (-22) ∧
    (DemuxingDecoding.main toyLib toyConfig 3
        (toyState toyRejecting (toy0 true) [(0, [7]), (0, [8])] 0)).2.calls =
      [DemuxingDecoding.DCall.read 0 0 1, DemuxingDecoding.DCall.send_video 1 (-22),
       DemuxingDecoding.DCall.read 0 0 1, DemuxingDecoding.DCall.send_video 1 (-22),
       DemuxingDecoding.DCall.read (-541478725) 0 0,
       DemuxingDecoding.DCall.send_video 0 (-22)] ∧
    ¬ DemuxingDecoding.NoSendAfterRejectedSend
        (DemuxingDecoding.main toyLib toyConfig 3
          (toyState toyRejecting (toy0 true) [(0, [7]), (0, [8])] 0)).2.calls := by
  have hc : (DemuxingDecoding.main toyLib toyConfig 3
        (toyState toyRejecting (toy0 true) [(0, [7]), (0, [8])] 0)).2.calls =
      [DemuxingDecoding.DCall.read 0 0 1, DemuxingDecoding.DCall.send_video 1 (-22),
       DemuxingDecoding.DCall.read 0 0 1, DemuxingDecoding.DCall.send_video 1 (-22),
       DemuxingDecoding.DCall.read (-541478725) 0 0,
       DemuxingDecoding.DCall.send_video 0 (-22)] := by decide
  refine ⟨by decide, hc, ?_⟩
  intro h
  have h1 := h [DemuxingDecoding.DCall.read 0 0 1]
    [DemuxingDecoding.DCall.read 0 0 1, DemuxingDecoding.DCall.send_video 1 (-22),
     DemuxingDecoding.DCall.read (-541478725) 0 0, DemuxingDecoding.DCall.send_video 0 (-22)]
    (DemuxingDecoding.DCall.send_video 1 (-22)) (by rw [hc]; rfl) (by decide)
    (DemuxingDecoding.DCall.send_video 1 (-22)) (by decide)
  exact absurd h1 (by decide)

/-- C8, as amended.  In encode_audio.c, encode_video.c, decode_audio.c and
decode_video.c: at every iteration of the driving loop, if the call of
`encode` or `decode` made in the iteration returns a negative value, the loop
ends at once with a jump to `end` and the world is the one that call left, so
no further library call is made; a loop that ended with a jump is not followed
by the flush call; and after the flush call no library call is made.  In
demuxing_decoding.c a negative return value of `decode_packet` ends the
`do ... while` loop over the current packet, in the state that call left. -/
theorem C8_no_submission_after_error :
    (∀ {σ : Type} (L : EncodeAudio.Lib σ) (fuel n i : Nat) (st : EncodeAudio.State σ)
        (r : Int),
      (¬ (L.av_frame_make_writable st.w.ctx st.frame).1 < 0 →
        (EncodeAudio.encode L.enc L.c fuel st.w
          (some (L.fill st.w.ctx i (L.av_frame_make_writable st.w.ctx st.frame).2))).1 = some r →
        r < 0 →
        (EncodeAudio.frame_loop L fuel (n + 1) i st).1 = Outcome.jumped ∧
        (EncodeAudio.frame_loop L fuel (n + 1) i st).2.w =
          (EncodeAudio.encode L.enc L.c fuel st.w
            (some (L.fill st.w.ctx i (L.av_frame_make_writable st.w.ctx st.frame).2))).2) ∧
      ((EncodeAudio.frame_loop L fuel 200 0 st).1 = Outcome.jumped →
        EncodeAudio.main L fuel st = EncodeAudio.frame_loop L fuel 200 0 st) ∧
      ((EncodeAudio.frame_loop L fuel 200 0 st).1 = Outcome.finished →
        (EncodeAudio.main L fuel st).2.w =
          (EncodeAudio.encode L.enc L.c fuel (EncodeAudio.frame_loop L fuel 200 0 st).2.w
            none).2)) ∧
    (∀ {σ : Type} (L : EncodeVideo.Lib σ) (fuel n i : Nat) (st : EncodeVideo.State σ)
        (r : Int),
      ((EncodeVideo.encode L.enc L.c fuel st.w
          (some { L.fill st.w.ctx i (L.av_frame_make_writable st.w.ctx st.frame).2 with
                    pts := i })).1 = some r →
        r < 0 →
        (EncodeVideo.frame_loop L fuel (n + 1) i st).1 = Outcome.jumped ∧
        (EncodeVideo.frame_loop L fuel (n + 1) i st).2.w =
          (EncodeVideo.encode L.enc L.c fuel st.w
            (some { L.fill st.w.ctx i (L.av_frame_make_writable st.w.ctx st.frame).2 with
                      pts := i })).2) ∧
      ((EncodeVideo.frame_loop L fuel 25 0 st).1 = Outcome.jumped →
        EncodeVideo.main L fuel st = EncodeVideo.frame_loop L fuel 25 0 st) ∧
      ((EncodeVideo.frame_loop L fuel 25 0 st).1 = Outcome.finished →
        (EncodeVideo.main L fuel st).2.w.calls =
          (EncodeVideo.encode L.enc L.c fuel (EncodeVideo.frame_loop L fuel 25 0 st).2.w
            none).2.calls)) ∧
    (∀ {σ : Type} (L : DecodeAudio.Lib σ) (fuel n : Nat) (st : DecodeAudio.State σ)
        (r : Int),
      (0 < st.data_size → ¬ (DecodeAudio.parse_call L st).1 < 0 →
        (DecodeAudio.parsed L st).pkt.size ≠ 0 →
        (DecodeAudio.decode L fuel (DecodeAudio.parsed L st).w
          (DecodeAudio.parsed L st).pkt).1 = some r →
        r < 0 →
        (DecodeAudio.feed_loop L fuel (n + 1) st).1 = Outcome.jumped ∧
        (DecodeAudio.feed_loop L fuel (n + 1) st).2.w =
          (DecodeAudio.decode L fuel (DecodeAudio.parsed L st).w
            (DecodeAudio.parsed L st).pkt).2) ∧
      ((DecodeAudio.feed_loop L fuel fuel (DecodeAudio.first_read st)).1 = Outcome.jumped →
        DecodeAudio.main L fuel st =
          DecodeAudio.feed_loop L fuel fuel (DecodeAudio.first_read st)) ∧
      ((DecodeAudio.feed_loop L fuel fuel (DecodeAudio.first_read st)).1 = Outcome.finished →
        (DecodeAudio.main L fuel st).2.w =
          (DecodeAudio.decode L fuel
            (DecodeAudio.feed_loop L fuel fuel (DecodeAudio.first_read st)).2.w
            { (DecodeAudio.feed_loop L fuel fuel (DecodeAudio.first_read st)).2.pkt with
                data := none, size := 0 }).2)) ∧
    (∀ {σ : Type} (L : DecodeVideo.Lib σ) (filename : String) (fuel n : Nat)
        (st : DecodeVideo.State σ) (r : Int),
      (0 < st.data_size → ¬ (DecodeVideo.parse_call L st).1 < 0 →
        (DecodeVideo.parsed L st).pkt.size ≠ 0 →
        (DecodeVideo.decode L filename fuel (DecodeVideo.parsed L st).w
          (some (DecodeVideo.parsed L st).pkt)).1 = some r →
        r < 0 →
        (DecodeVideo.parse_loop L filename fuel (n + 1) st).1 = Outcome.jumped ∧
        (DecodeVideo.parse_loop L filename fuel (n + 1) st).2.w =
          (DecodeVideo.decode L filename fuel (DecodeVideo.parsed L st).w
            (some (DecodeVideo.parsed L st).pkt)).2) ∧
      (st.fd.eof = false → (DecodeVideo.read_chunk st).data_size ≠ 0 →
        (DecodeVideo.parse_loop L filename fuel fuel
          { DecodeVideo.read_chunk st with data := 0 }).1 = Outcome.jumped →
        DecodeVideo.feed_loop L filename fuel (n + 1) st =
          DecodeVideo.parse_loop L filename fuel fuel
            { DecodeVideo.read_chunk st with data := 0 }) ∧
      ((DecodeVideo.feed_loop L filename fuel fuel st).1 = Outcome.jumped →
        DecodeVideo.main L filename fuel st = DecodeVideo.feed_loop L filename fuel fuel st) ∧
      ((DecodeVideo.feed_loop L filename fuel fuel st).1 = Outcome.finished →
        (DecodeVideo.main L filename fuel st).2.w =
          (DecodeVideo.decode L filename fuel
            (DecodeVideo.feed_loop L filename fuel fuel st).2.w none).2)) ∧
    (∀ {σ φ : Type} (L : DemuxingDecoding.Lib σ φ) (k : DemuxingDecoding.Config)
        (fuel n : Nat) (st : DemuxingDecoding.State σ φ) (r : Int),
      (DemuxingDecoding.decode_packet L k fuel 0 st).1 = some r → r < 0 →
      DemuxingDecoding.packet_loop L k fuel (n + 1) st =
        (some r, (DemuxingDecoding.decode_packet L k fuel 0 st).2)) := by
  refine ⟨?_, ?_, ?_, ?_, ?_⟩
  · intro σ L fuel n i st r
    refine ⟨fun hm h hr => ?_, fun h => ?_, fun h => ?_⟩
    · simp only [EncodeAudio.frame_loop, hm, if_false]
      rcases hres : EncodeAudio.encode L.enc L.c fuel st.w
        (some (L.fill st.w.ctx i (L.av_frame_make_writable st.w.ctx st.frame).2)) with ⟨o, w1⟩
      rw [hres] at h
      simp only at h
      subst h
      simp [hr]
    · simp only [EncodeAudio.main]
      rcases hres : EncodeAudio.frame_loop L fuel 200 0 st with ⟨o, st1⟩
      rw [hres] at h
      simp only at h
      subst h
      rfl
    · simp only [EncodeAudio.main]
      rcases hres : EncodeAudio.frame_loop L fuel 200 0 st with ⟨o, st1⟩
      rw [hres] at h
      simp only at h
      subst h
      simp only
      rcases EncodeAudio.encode L.enc L.c fuel st1.w none with ⟨_ | r1, w1⟩ <;> rfl
  · intro σ L fuel n i st r
    refine ⟨fun h hr => ?_, fun h => ?_, fun h => ?_⟩
    · simp only [EncodeVideo.frame_loop]
      rcases hres : EncodeVideo.encode L.enc L.c fuel st.w
        (some { L.fill st.w.ctx i (L.av_frame_make_writable st.w.ctx st.frame).2 with
                  pts := i }) with ⟨o, w1⟩
      rw [hres] at h
      simp only at h
      subst h
      simp [hr]
    · simp only [EncodeVideo.main]
      rcases hres : EncodeVideo.frame_loop L fuel 25 0 st with ⟨o, st1⟩
      rw [hres] at h
      simp only at h
      subst h
      rfl
    · simp only [EncodeVideo.main]
      rcases hres : EncodeVideo.frame_loop L fuel 25 0 st with ⟨o, st1⟩
      rw [hres] at h
      simp only at h
      subst h
      simp only
      rcases EncodeVideo.encode L.enc L.c fuel st1.w none with ⟨_ | r1, w1⟩
      · rfl
      · by_cases hr1 : r1 < 0
        · simp [hr1]
        · by_cases hm : L.is_mpeg12 = true <;> simp [hr1, hm]
  · intro σ L fuel n st r
    refine ⟨fun hd hp hsz h hr => ?_, fun h => ?_, fun h => ?_⟩
    · simp only [DecodeAudio.feed_loop, hd, hp, if_true, if_false]
      simp only [hsz, ne_eq, not_false_eq_true, if_true]
      rcases hres : DecodeAudio.decode L fuel (DecodeAudio.parsed L st).w
        (DecodeAudio.parsed L st).pkt with ⟨o, w1⟩
      rw [hres] at h
      simp only at h
      subst h
      simp [hr]
    · simp only [DecodeAudio.main]
      rcases hres : DecodeAudio.feed_loop L fuel fuel (DecodeAudio.first_read st) with ⟨o, st1⟩
      rw [hres] at h
      simp only at h
      subst h
      rfl
    · simp only [DecodeAudio.main]
      rcases hres : DecodeAudio.feed_loop L fuel fuel (DecodeAudio.first_read st) with ⟨o, st1⟩
      rw [hres] at h
      simp only at h
      subst h
      simp only
      rcases DecodeAudio.decode L fuel st1.w { st1.pkt with data := none, size := 0 } with
        ⟨_ | r1, w1⟩ <;> rfl
  · intro σ L filename fuel n st r
    refine ⟨fun hd hp hsz h hr => ?_, fun he hz h => ?_, fun h => ?_, fun h => ?_⟩
    · simp only [DecodeVideo.parse_loop, hd, hp, if_true, if_false]
      simp only [hsz, ne_eq, not_false_eq_true, if_true]
      rcases hres : DecodeVideo.decode L filename fuel (DecodeVideo.parsed L st).w
        (some (DecodeVideo.parsed L st).pkt) with ⟨o, w1⟩
      rw [hres] at h
      simp only at h
      subst h
      simp [hr]
    · simp only [DecodeVideo.feed_loop, he, hz, if_true, if_false]
      rcases hres : DecodeVideo.parse_loop L filename fuel fuel
        { DecodeVideo.read_chunk st with data := 0 } with ⟨o, st1⟩
      rw [hres] at h
      simp only at h
      subst h
      rfl
    · simp only [DecodeVideo.main]
      rcases hres : DecodeVideo.feed_loop L filename fuel fuel st with ⟨o, st1⟩
      rw [hres] at h
      simp only at h
      subst h
      rfl
    · simp only [DecodeVideo.main]
      rcases hres : DecodeVideo.feed_loop L filename fuel fuel st with ⟨o, st1⟩
      rw [hres] at h
      simp only at h
      subst h
      simp only
      rcases DecodeVideo.decode L filename fuel st1.w none with ⟨_ | r1, w1⟩ <;> rfl
  · intro σ φ L k fuel n st r h hr
    simp only [DemuxingDecoding.packet_loop]
    rcases hres : DemuxingDecoding.decode_packet L k fuel 0 st with ⟨o, st1⟩
    rw [hres] at h
    simp only at h
    subst h
    simp [hr]

/-- C8 as amended, evaluated: the example codec rejects the first submission
(with -22); `main` of encode_audio.c, encode_video.c, decode_audio.c and
decode_video.c jumps to `end`, and the history of encode_audio.c holds that
one submission only, the history of decode_audio.c the parser call and that
submission.  In demuxing_decoding.c the loop over the packet ends with -22. -/
theorem C8_no_submission_after_error_witness :
    ((EncodeAudio.main toyEncLib 3 (toyEncState toyRejecting)).1 = Outcome.jumped ∧
      (EncodeAudio.main toyEncLib 3 (toyEncState toyRejecting)).2.w.calls.length = 1) ∧
    (EncodeVideo.main toyEncVideoLib 3 (toyEncVideoState toyRejecting)).1 = Outcome.jumped ∧
    ((DecodeAudio.main toyAudioLib 3 (toyAudioState toyRejecting [1, 2, 3] [])).1
        = Outcome.jumped ∧
      (DecodeAudio.main toyAudioLib 3 (toyAudioState toyRejecting [1, 2, 3] [])).2.w.calls.length
        = 2) ∧
    (DecodeVideo.main toyVideoLib "out" 3 (toyVideoState toyRejecting [1, 2, 3] [])).1
      = Outcome.jumped ∧
    (DemuxingDecoding.packet_loop toyLib toyConfig 3 3
        { toyState toyRejecting (toy0 true) [] 0 with pkt := toyPacket [7] }).1 = some (-22) :=
  have e1 := (C8_no_submission_after_error.1 toyEncLib 3 199 0 (toyEncState toyRejecting)
      (-22)).1 (by decide) (by decide) (by decide)
  have e2 := (C8_no_submission_after_error.1 toyEncLib 3 199 0 (toyEncState toyRejecting)
      (-22)).2.1 e1.1
  have v1 := (C8_no_submission_after_error.2.1 toyEncVideoLib 3 24 0
      (toyEncVideoState toyRejecting) (-22)).1 (by decide) (by decide)
  have v2 := (C8_no_submission_after_error.2.1 toyEncVideoLib 3 24 0
      (toyEncVideoState toyRejecting) (-22)).2.1 v1.1
  have a1 := (C8_no_submission_after_error.2.2.1 toyAudioLib 3 2
      (DecodeAudio.first_read (toyAudioState toyRejecting [1, 2, 3] [])) (-1)).1
      (by decide) (by decide) (by decide) (by decide) (by decide)
  have a2 := (C8_no_submission_after_error.2.2.1 toyAudioLib 3 2
      (toyAudioState toyRejecting [1, 2, 3] []) (-1)).2.1 a1.1
  have d1 := (C8_no_submission_after_error.2.2.2.1 toyVideoLib "out" 3 2
      { DecodeVideo.read_chunk (toyVideoState toyRejecting [1, 2, 3] []) with data := 0 }
      (-1)).1 (by decide) (by decide) (by decide) (by decide) (by decide)
  have d2 := (C8_no_submission_after_error.2.2.2.1 toyVideoLib "out" 3 2
      (toyVideoState toyRejecting [1, 2, 3] []) (-1)).2.1 rfl (by decide) d1.1
  have d3 := (C8_no_submission_after_error.2.2.2.1 toyVideoLib "out" 3 2
      (toyVideoState toyRejecting [1, 2, 3] []) (-1)).2.2.1 (by rw [d2]; exact d1.1)
  ⟨⟨by rw [e2]; exact e1.1, by rw [e2, e1.2]; decide⟩,
   by rw [v2]; exact v1.1,
   ⟨by rw [a2]; exact a1.1, by rw [a2, a1.2]; decide⟩,
   by rw [d3, d2]; exact d1.1,
   congrArg Prod.fst (C8_no_submission_after_error.2.2.2.2 toyLib toyConfig 3 2
      { toyState toyRejecting (toy0 true) [] 0 with pkt := toyPacket [7] } (-22)
      (by decide) (by decide))⟩

/-- C9, counterexample: the configured image is 2 x 1.  The first frame that
the decoder delivers is 1 x 1 and the second is 2 x 1, so the second frame
differs in width from the first.  The first call of `decode_packet` refuses
the first frame with -1 and writes nothing; the next call retrieves the second
frame, returns 0 and writes it: the video file holds the bytes of the second
frame, not of the first, and `video_frame_count` is 1. -/
theorem C9_second_frame_differs_and_is_written :
    (toyFrame [3]).width ≠ (toyFrame [1, 2]).width ∧
    (DemuxingDecoding.decode_packet toyLib toyConfig 3 0
        { toyState toyShrunk (toy0 true) [] 0 with pkt := toyPacket [7] }).1 = some (-1) ∧
    (DemuxingDecoding.decode_packet toyLib toyConfig 3 0
        { toyState toyShrunk (toy0 true) [] 0 with pkt := toyPacket [7] }).2.video_dst_file
      = [] ∧
    (DemuxingDecoding.decode_packet toyLib toyConfig 3 0
        (DemuxingDecoding.decode_packet toyLib toyConfig 3 0
          { toyState toyShrunk (toy0 true) [] 0 with pkt := toyPacket [7] }).2).1 = some 0 ∧
    (DemuxingDecoding.decode_packet toyLib toyConfig 3 0
        (DemuxingDecoding.decode_packet toyLib toyConfig 3 0
          { toyState toyShrunk (toy0 true) [] 0 with pkt := toyPacket [7] }).2).2.video_dst_file
      = [[1, 2]] ∧
    (DemuxingDecoding.decode_packet toyLib toyConfig 3 0
        (DemuxingDecoding.decode_packet toyLib toyConfig 3 0
          { toyState toyShrunk (toy0 true) [] 0 with pkt := toyPacket [7] }).2).2.video_frame_count
      = 1 := by
  refine ⟨by decide, by decide, by decide, by decide, by decide, by decide⟩

/-- C9, as amended: the shape that counts is the one fixed before the read
loop (`width`, `height`, `pix_fmt`).  When, in a call of `decode_packet` on a
video packet, the decoder delivers the frames of `xs`, all of that shape, and
then a frame of another shape, the call returns -1 and writes no byte of that
frame: the video file holds what it held before the call followed by the
writes for the frames of `xs`, `video_frame_count` has grown by the number of
these frames only, and the retrieval of the offending frame is the last
library call.  With `xs` of length one: the first frame has the configured
shape, the second differs from it, and the file holds the first frame only. -/
theorem C9_format_change_is_refused {σ φ : Type}
    (L : DemuxingDecoding.Lib σ φ) (k : DemuxingDecoding.Config) (fuel : Nat)
    (cached : Int) (st : DemuxingDecoding.State σ φ)
    (xs : List (Int × AVFrame × σ)) (s1 : σ)
    (hv : st.pkt.stream_index = k.video_stream_idx)
    (hs : 0 ≤ (L.video.send st.video_dec_ctx st.pkt).1)
    (hx : Emits L.video.receive L.c (L.video.send st.video_dec_ctx st.pkt).2 xs s1)
    (hm : ∀ x ∈ xs, DemuxingDecoding.SameShape k x.2.1)
    (hy : 0 ≤ (L.video.receive s1).1 ∧ (L.video.receive s1).1 ≠ L.c.EAGAIN ∧
      (L.video.receive s1).1 ≠ L.c.EOF)
    (hd : ¬ DemuxingDecoding.SameShape k (L.video.receive s1).2.1)
    (hf : xs.length < fuel) :
    (DemuxingDecoding.decode_packet L k fuel cached st).1 = some (-1) ∧
    (DemuxingDecoding.decode_packet L k fuel cached st).2.video_dst_file =
      st.video_dst_file ++ DemuxingDecoding.video_writes L k st.video_dst_data xs ∧
    (DemuxingDecoding.decode_packet L k fuel cached st).2.video_frame_count =
      st.video_frame_count + xs.length ∧
    (DemuxingDecoding.decode_packet L k fuel cached st).2.calls =
      st.calls ++ [DemuxingDecoding.DCall.send_video st.pkt.size
          (L.video.send st.video_dec_ctx st.pkt).1] ++
        xs.map (fun x => DemuxingDecoding.DCall.receive_video x.1) ++
        [DemuxingDecoding.DCall.receive_video (L.video.receive s1).1] := by
  have hns : ¬ ((L.video.receive s1).1 = L.c.EAGAIN ∨ (L.video.receive s1).1 = L.c.EOF) := by
    simp [hy.2.1, hy.2.2]
  have hnn : ¬ (L.video.receive s1).1 < 0 := not_lt.mpr hy.1
  rw [DemuxingDecoding.decode_packet_video_run L k fuel cached st xs s1 hv hs hx hm
    (Or.inr (Or.inr (Or.inr hd))) hf]
  obtain ⟨a1, a2, a3, _, _, _, _, _⟩ :=
    DemuxingDecoding.video_fold_fields L k xs (DemuxingDecoding.video_sent L st)
  simp only [hns, hnn, if_false, a1, a2, a3]
  simp [DemuxingDecoding.video_sent]

/-- C9 as amended, evaluated: the configured image is 2 x 1; the decoder
delivers a frame `[1, 2]` of that shape and then a frame `[3]` of width 1;
`decode_packet` returns -1 and the video file holds the first frame only. -/
theorem C9_format_change_is_refused_witness :
    (DemuxingDecoding.decode_packet toyLib toyConfig 3 0
        { toyState toyResized (toy0 true) [] 0 with pkt := toyPacket [7] }).1 = some (-1) ∧
    (DemuxingDecoding.decode_packet toyLib toyConfig 3 0
        { toyState toyResized (toy0 true) [] 0 with pkt := toyPacket [7] }).2.video_dst_file
      = [[1, 2]] ∧
    (DemuxingDecoding.decode_packet toyLib toyConfig 3 0
        { toyState toyResized (toy0 true) [] 0 with pkt := toyPacket [7] }).2.video_frame_count
      = 1 :=
  have h := C9_format_change_is_refused toyLib toyConfig 3 0
      { toyState toyResized (toy0 true) [] 0 with pkt := toyPacket [7] }
      [toyDecoder.receive (toyDecoder.send toyResized (toyPacket [7])).2]
      (toyDecoder.receive (toyDecoder.send toyResized (toyPacket [7])).2).2.2
      rfl (by decide) ⟨rfl, by decide, by decide, by decide, rfl⟩ (by decide)
      ⟨by decide, by decide, by decide⟩ (by decide) (by decide)
  ⟨h.1, h.2.1.trans (by decide), h.2.2.1.trans (by decide)⟩

theorem toyParse_contract : ParserContract toyParse := by
  intro s p n
  simp only [toyParse]
  omega

/-- C10: in the feeding loops of decode_audio.c and decode_video.c, when the
parser keeps its contract (0 <= consumed <= available), then in every state
that the loop reaches (`feed_loop` with a bound of `n` iterations returns the
state at the head of iteration `n + 1`, or the state in which the loop ended
before) the bytes consumed by the parser so far, followed by the unconsumed
window, followed by the rest of the input file, are the whole input, whatever
the sizes of the chunks that the reads deliver; and when the loop has run to
its end, the window is empty, so the bytes consumed followed by the bytes
never read are the whole input. -/
theorem C10_feeding_loops_keep_every_byte :
    (∀ {σ : Type} (L : DecodeAudio.Lib σ), ParserContract L.av_parser_parse2 →
      ∀ (fuel n : Nat) (st : DecodeAudio.State σ), st.w.calls = [] →
        DecodeAudio.Fed st.infile.rest
          (DecodeAudio.feed_loop L fuel n (DecodeAudio.first_read st)).2 ∧
        ((DecodeAudio.feed_loop L fuel n (DecodeAudio.first_read st)).1 = Outcome.finished →
          consumed (DecodeAudio.feed_loop L fuel n (DecodeAudio.first_read st)).2.w.calls ++
            (DecodeAudio.feed_loop L fuel n (DecodeAudio.first_read st)).2.infile.rest =
          st.infile.rest)) ∧
    (∀ {σ : Type} (L : DecodeVideo.Lib σ), ParserContract L.av_parser_parse2 →
      ∀ (filename : String) (fuel n : Nat) (st : DecodeVideo.State σ),
        st.w.calls = [] → st.data_size = 0 →
        DecodeVideo.Fed st.fd.rest (DecodeVideo.feed_loop L filename fuel n st).2 ∧
        ((DecodeVideo.feed_loop L filename fuel n st).1 = Outcome.finished →
          consumed (DecodeVideo.feed_loop L filename fuel n st).2.w.calls ++
            (DecodeVideo.feed_loop L filename fuel n st).2.fd.rest =
          st.fd.rest)) := by
  refine ⟨?_, ?_⟩
  · intro σ L hc fuel n st h0
    have h := DecodeAudio.feed_loop_inv L hc st.infile.rest fuel n (DecodeAudio.first_read st)
      (DecodeAudio.first_read_inv st (by simp [h0, consumed]))
    refine ⟨h.1.1, fun hf => ?_⟩
    have hz := h.2 hf
    have hfed := h.1.1
    unfold DecodeAudio.Fed DecodeAudio.window at hfed
    rw [hz] at hfed
    simpa [bytesAt] using hfed
  · intro σ L hc filename fuel n st h0 hz
    have hinit : DecodeVideo.Fed st.fd.rest st := by
      unfold DecodeVideo.Fed DecodeVideo.window
      simp [h0, hz, consumed, bytesAt]
    have h := DecodeVideo.vfeed_loop_inv L hc st.fd.rest filename fuel n st hinit hz
    refine ⟨h.1, fun hf => ?_⟩
    have hz2 := h.2 hf
    have hfed := h.1
    unfold DecodeVideo.Fed DecodeVideo.window at hfed
    rw [hz2] at hfed
    simpa [bytesAt] using hfed

/-- C10, evaluated: the input `[1, 2, 3]` is delivered in a first chunk of two
bytes and a second of one byte; the example parser consumes two bytes per
call; both loops run to their end and the parser has consumed `[1, 2, 3]`. -/
theorem C10_feeding_loops_keep_every_byte_witness :
    (DecodeAudio.feed_loop toyAudioLib 5 10
        (DecodeAudio.first_read (toyAudioState (toy0 false) [1, 2, 3] [2]))).1 = Outcome.finished ∧
    consumed (DecodeAudio.feed_loop toyAudioLib 5 10
        (DecodeAudio.first_read (toyAudioState (toy0 false) [1, 2, 3] [2]))).2.w.calls = [1, 2, 3] ∧
    (DecodeVideo.feed_loop toyVideoLib "out" 5 10 (toyVideoState (toy0 false) [1, 2, 3] [2])).1
      = Outcome.finished ∧
    consumed (DecodeVideo.feed_loop toyVideoLib "out" 5 10
        (toyVideoState (toy0 false) [1, 2, 3] [2])).2.w.calls = [1, 2, 3] :=
  have ha := (C10_feeding_loops_keep_every_byte.1 toyAudioLib toyParse_contract 5 10
      (toyAudioState (toy0 false) [1, 2, 3] [2]) rfl).2 (by decide)
  have hv := (C10_feeding_loops_keep_every_byte.2 toyVideoLib toyParse_contract "out" 5 10
      (toyVideoState (toy0 false) [1, 2, 3] [2]) rfl rfl).2 (by decide)
  ⟨by decide,
   by
    rw [show (DecodeAudio.feed_loop toyAudioLib 5 10
        (DecodeAudio.first_read (toyAudioState (toy0 false) [1, 2, 3] [2]))).2.infile.rest = [] from by decide,
      List.append_nil] at ha
    exact ha,
   by decide,
   by
    rw [show (DecodeVideo.feed_loop toyVideoLib "out" 5 10
        (toyVideoState (toy0 false) [1, 2, 3] [2])).2.fd.rest = [] from by decide, List.append_nil] at hv
    exact hv⟩

theorem to_size_t_of_nonneg (x : Int) (h0 : 0 ≤ x) (h1 : x < 2 ^ 64) : to_size_t x = x.toNat := by
  unfold to_size_t
  rw [Int.emod_eq_of_lt h0 h1]

/-- C13: in the audio branch of `decode_packet`, when the submission succeeds
and the decoder delivers the frames of `xs` before it answers with
`AVERROR(EAGAIN)`, `AVERROR_EOF` or an error, the audio file gains exactly one
write per frame: the `av_get_bytes_per_sample(format) * nb_samples` bytes at
`extended_data[0]`, the first plane.  This holds for every frame, so in
particular for a planar frame with several channels; no other plane is read.
The write has `bytes_per_sample * nb_samples` bytes whenever that product is
a valid size. -/
theorem C13_audio_branch_writes_first_plane :
    (∀ {σ φ : Type} (L : DemuxingDecoding.Lib σ φ) (k : DemuxingDecoding.Config) (fuel : Nat)
        (cached : Int) (st : DemuxingDecoding.State σ φ)
        (xs : List (Int × AVFrame × σ)) (s1 : σ),
      st.pkt.stream_index ≠ k.video_stream_idx →
      st.pkt.stream_index = k.audio_stream_idx →
      0 ≤ (L.audio.send st.audio_dec_ctx st.pkt).1 →
      Emits L.audio.receive L.c (L.audio.send st.audio_dec_ctx st.pkt).2 xs s1 →
      ((L.audio.receive s1).1 = L.c.EAGAIN ∨ (L.audio.receive s1).1 = L.c.EOF ∨
        (L.audio.receive s1).1 < 0) →
      xs.length < fuel →
      (DemuxingDecoding.decode_packet L k fuel cached st).2.audio_dst_file =
        st.audio_dst_file ++
          xs.map (fun x => bytesAt (x.2.1.extended_data 0)
            (to_size_t (L.av_get_bytes_per_sample x.2.1.format * x.2.1.nb_samples)))) ∧
    (∀ {σ φ : Type} (L : DemuxingDecoding.Lib σ φ) (f : AVFrame),
      0 ≤ L.av_get_bytes_per_sample f.format * f.nb_samples →
      L.av_get_bytes_per_sample f.format * f.nb_samples < 2 ^ 64 →
      (bytesAt (f.extended_data 0)
        (to_size_t (L.av_get_bytes_per_sample f.format * f.nb_samples))).length =
        (L.av_get_bytes_per_sample f.format * f.nb_samples).toNat) := by
  refine ⟨?_, ?_⟩
  · intro σ φ L k fuel cached st xs s1 hv ha hs hx hy hf
    rw [DemuxingDecoding.decode_packet_audio_run L k fuel cached st xs s1 hv ha hs hx hy hf]
    obtain ⟨_, _, a3, _, _, _, _, _⟩ :=
      DemuxingDecoding.audio_fold_fields L xs (DemuxingDecoding.audio_sent L st)
    simp only [a3]
    rfl
  · intro σ φ L f h0 h1
    rw [bytesAt_length, to_size_t_of_nonneg _ h0 h1]

/-- C13, evaluated: a planar stereo frame of two samples of one byte, plane 0
holding `[1, 2]` and plane 1 holding `[3, 4]`; the audio file gains the write
`[1, 2]`. -/
theorem C13_audio_branch_writes_first_plane_witness :
    (DemuxingDecoding.decode_packet toyStereoLib toyConfig 3 0
        { toyState (toy0 false) toyQuad [] 1 with
            pkt := { toyPacket [9] with stream_index := 1 } }).2.audio_dst_file = [[1, 2]] ∧
    (bytesAt ((toyStereoFrame [1, 2, 3, 4]).extended_data 1) 2) = [3, 4] :=
  ⟨(C13_audio_branch_writes_first_plane.1 toyStereoLib toyConfig 3 0
      { toyState (toy0 false) toyQuad [] 1 with
          pkt := { toyPacket [9] with stream_index := 1 } }
      [toyStereoDecoder.receive (toyStereoDecoder.send toyQuad (toyPacket [9])).2]
      (toyStereoDecoder.receive (toyStereoDecoder.send toyQuad (toyPacket [9])).2).2.2
      (by decide) rfl (by decide) ⟨rfl, by decide, by decide, by decide, rfl⟩
      (Or.inl (by decide)) (by decide)).trans (by decide),
   by decide⟩

section VideoSizedLemmas
variable {σ φ : Type}
open DemuxingDecoding

theorem flatten_length_const {α : Type} (l : List (List α)) (b : Nat) (h : ∀ wr ∈ l, wr.length = b) :
    l.flatten.length = l.length * b := by
  induction l with
  | nil => simp
  | cons x xs ih =>
    simp only [List.flatten_cons, List.length_append, List.length_cons]
    rw [ih (fun wr hw => h wr (List.mem_cons_of_mem _ hw)), h x (List.mem_cons_self _ _)]
    ring

theorem DemuxingDecoding.video_loop_sized (L : Lib σ φ) (k : Config) (d : Int)
    (h0 : 0 ≤ k.video_dst_bufsize) (h1 : k.video_dst_bufsize < 2 ^ 31) :
    ∀ (fuel : Nat) (ret : Int) (st : State σ φ),
      VideoSized k st → VideoSized k (video_loop L k d fuel ret st).2 := by
  intro fuel
  induction fuel with
  | zero => intro _ st h; exact h
  | succ n ih =>
    intro ret st h
    simp only [video_loop]
    split_ifs
    · exact h
    · exact h
    · exact h
    · apply ih
      obtain ⟨hc, hl⟩ := h
      refine ⟨?_, ?_⟩
      · simp only [fwrite, List.length_append, List.length_singleton]
        push_cast
        omega
      · intro wr hw
        simp only [fwrite, List.mem_append, List.mem_singleton] at hw
        rcases hw with hw | hw
        · exact hl wr hw
        · rw [hw, bytesAt_length, to_size_t_of_nonneg _ h0 (by omega)]
    · exact h

theorem DemuxingDecoding.audio_loop_sized (L : Lib σ φ) (k : Config) (d : Int) :
    ∀ (fuel : Nat) (ret : Int) (st : State σ φ),
      VideoSized k st → VideoSized k (audio_loop L d fuel ret st).2 := by
  intro fuel
  induction fuel with
  | zero => intro _ st h; exact h
  | succ n ih =>
    intro ret st h
    simp only [audio_loop]
    split_ifs
    · exact h
    · exact h
    · exact ih _ _ h
    · exact h

theorem DemuxingDecoding.decode_packet_sized (L : Lib σ φ) (k : Config)
    (h0 : 0 ≤ k.video_dst_bufsize) (h1 : k.video_dst_bufsize < 2 ^ 31)
    (fuel : Nat) (cached : Int) (st : State σ φ) (h : VideoSized k st) :
    VideoSized k (decode_packet L k fuel cached st).2 := by
  simp only [decode_packet]
  split_ifs
  · exact h
  · exact video_loop_sized L k _ h0 h1 fuel _ _ h
  · exact h
  · exact audio_loop_sized L k _ fuel _ _ h
  · exact h

theorem DemuxingDecoding.packet_loop_sized (L : Lib σ φ) (k : Config)
    (h0 : 0 ≤ k.video_dst_bufsize) (h1 : k.video_dst_bufsize < 2 ^ 31) (fuel : Nat) :
    ∀ (n : Nat) (st : State σ φ),
      VideoSized k st → VideoSized k (packet_loop L k fuel n st).2 := by
  intro n
  induction n with
  | zero => intro st h; exact h
  | succ n ih =>
    intro st h
    have hd := decode_packet_sized L k h0 h1 fuel 0 st h
    simp only [packet_loop]
    rcases hres : decode_packet L k fuel 0 st with ⟨_ | r, st1⟩
    · rw [hres] at hd; exact hd
    · rw [hres] at hd
      simp only
      split_ifs
      · exact hd
      · exact ih _ hd
      · exact hd

theorem DemuxingDecoding.read_loop_sized (L : Lib σ φ) (k : Config)
    (h0 : 0 ≤ k.video_dst_bufsize) (h1 : k.video_dst_bufsize < 2 ^ 31) (fuel : Nat) :
    ∀ (n : Nat) (ret : Int) (st : State σ φ),
      VideoSized k st → VideoSized k (read_loop L k fuel n ret st).2 := by
  intro n
  induction n with
  | zero => intro _ st h; exact h
  | succ n ih =>
    intro ret st h
    simp only [read_loop]
    split_ifs
    · have hp := packet_loop_sized L k h0 h1 fuel fuel
        { st with fmt_ctx := (L.av_read_frame st.fmt_ctx st.pkt).2.2,
                  pkt := (L.av_read_frame st.fmt_ctx st.pkt).2.1,
                  calls := st.calls ++
                    [DCall.read (L.av_read_frame st.fmt_ctx st.pkt).1
                      (L.av_read_frame st.fmt_ctx st.pkt).2.1.stream_index
                      (L.av_read_frame st.fmt_ctx st.pkt).2.1.size] } h
      rcases hres : packet_loop L k fuel fuel
        { st with fmt_ctx := (L.av_read_frame st.fmt_ctx st.pkt).2.2,
                  pkt := (L.av_read_frame st.fmt_ctx st.pkt).2.1,
                  calls := st.calls ++
                    [DCall.read (L.av_read_frame st.fmt_ctx st.pkt).1
                      (L.av_read_frame st.fmt_ctx st.pkt).2.1.stream_index
                      (L.av_read_frame st.fmt_ctx st.pkt).2.1.size] } with ⟨_ | r, st2⟩
      · rw [hres] at hp; exact hp
      · rw [hres] at hp; exact ih _ _ hp
    · exact h

theorem DemuxingDecoding.main_sized (L : Lib σ φ) (k : Config)
    (h0 : 0 ≤ k.video_dst_bufsize) (h1 : k.video_dst_bufsize < 2 ^ 31) (fuel : Nat)
    (st : State σ φ) (h : VideoSized k st) :
    VideoSized k (main L k fuel st).2 := by
  have hr := read_loop_sized L k h0 h1 fuel fuel 0 st h
  simp only [main]
  rcases hres : read_loop L k fuel fuel 0 st with ⟨_ | r, st1⟩
  · rw [hres] at hr; exact hr
  · rw [hres] at hr
    exact decode_packet_sized L k h0 h1 fuel 1 _ hr

end VideoSizedLemmas

/-- C19: let `video_dst_bufsize` be a non-negative C `int`.  Every call of
`decode_packet` keeps the following true, and so it holds after any run of
`main` that starts with an empty video file and `video_frame_count = 0`,
whatever the input and wherever the run stands: each write on the video file
has exactly `video_dst_bufsize` bytes, `video_frame_count` is the number of
these writes, and the number of bytes in the video file is
`video_frame_count * video_dst_bufsize`. -/
theorem C19_video_file_is_count_times_bufsize {σ φ : Type}
    (L : DemuxingDecoding.Lib σ φ) (k : DemuxingDecoding.Config) (fuel : Nat)
    (h0 : 0 ≤ k.video_dst_bufsize) (h1 : k.video_dst_bufsize < 2 ^ 31) :
    (∀ (cached : Int) (st : DemuxingDecoding.State σ φ),
      DemuxingDecoding.VideoSized k st →
      DemuxingDecoding.VideoSized k (DemuxingDecoding.decode_packet L k fuel cached st).2) ∧
    (∀ (st : DemuxingDecoding.State σ φ),
      st.video_dst_file = [] → st.video_frame_count = 0 →
      (∀ wr ∈ (DemuxingDecoding.main L k fuel st).2.video_dst_file,
        wr.length = k.video_dst_bufsize.toNat) ∧
      ((DemuxingDecoding.main L k fuel st).2.video_dst_file.length : Int) =
        (DemuxingDecoding.main L k fuel st).2.video_frame_count ∧
      ((DemuxingDecoding.main L k fuel st).2.video_dst_file.bytes.length : Int) =
        (DemuxingDecoding.main L k fuel st).2.video_frame_count * k.video_dst_bufsize) := by
  refine ⟨fun cached st h => DemuxingDecoding.decode_packet_sized L k h0 h1 fuel cached st h,
    fun st hf hc => ?_⟩
  have hs : DemuxingDecoding.VideoSized k st := by
    unfold DemuxingDecoding.VideoSized
    simp [hf, hc]
  obtain ⟨hn, hl⟩ := DemuxingDecoding.main_sized L k h0 h1 fuel st hs
  refine ⟨hl, hn, ?_⟩
  rw [Sink.bytes, flatten_length_const _ _ hl, ← hn]
  push_cast
  rw [Int.toNat_of_nonneg h0]

/-- C19, evaluated: images take 2 bytes; the decoder delivers two frames for
the first packet; the video file holds two writes of 2 bytes, 4 bytes in all,
and `video_frame_count` is 2. -/
theorem C19_video_file_is_count_times_bufsize_witness :
    (DemuxingDecoding.main toyLib toyConfig 3
        (toyState toyPictures (toy0 true) [(0, [7])] 0)).2.video_dst_file = [[1, 2], [5, 6]] ∧
    (DemuxingDecoding.main toyLib toyConfig 3
        (toyState toyPictures (toy0 true) [(0, [7])] 0)).2.video_frame_count = 2 ∧
    ((DemuxingDecoding.main toyLib toyConfig 3
        (toyState toyPictures (toy0 true) [(0, [7])] 0)).2.video_dst_file.bytes.length : Int) =
      (DemuxingDecoding.main toyLib toyConfig 3
        (toyState toyPictures (toy0 true) [(0, [7])] 0)).2.video_frame_count * 2 :=
  ⟨by decide, by decide,
   ((C19_video_file_is_count_times_bufsize toyLib toyConfig 3 (by decide) (by decide)).2
      (toyState toyPictures (toy0 true) [(0, [7])] 0) rfl rfl).2.2⟩

section InterleaveLemmas
variable {σ : Type}

theorem foldl_fwrite {α : Type} (p : α → Ptr) (m : Nat) :
    ∀ (l : List α) (f : Sink),
      l.foldl (fun g a => fwrite (p a) m g) f = f ++ l.map (fun a => bytesAt (p a) m) := by
  intro l
  induction l with
  | nil => intro f; simp
  | cons a l ih => intro f; rw [List.foldl_cons, ih]; simp [fwrite]

theorem foldl_append_flatten {α : Type} (G : α → Sink) :
    ∀ (l : List α) (f : Sink),
      l.foldl (fun g a => g ++ G a) f = f ++ (l.map G).flatten := by
  intro l
  induction l with
  | nil => intro f; simp
  | cons a l ih => intro f; simp [ih]

theorem coe_list (l : List Nat) :
    (do let a ← l; pure (a : Int) : List Int) = List.map Nat.cast l := by
  induction l with
  | nil => rfl
  | cons a l ih =>
    have : (do let a ← (a :: l); pure (a : Int) : List Int) =
        (a : Int) :: (do let a ← l; pure (a : Int) : List Int) := rfl
    rw [this, ih]; rfl

theorem foldl_coe {β : Type} (g : β → Int → β) (b : β) (l : List Nat) :
    List.foldl g b (do let a ← l; pure (a : Int) : List Int) =
      l.foldl (fun acc (i : Nat) => g acc (i : Int)) b := by
  rw [coe_list, List.foldl_map]

theorem DecodeAudio.write_samples_eq (frame : AVFrame) (channels data_size : Int)
    (out : Sink) :
    DecodeAudio.write_samples frame channels data_size out =
      out ++ DecodeAudio.interleaved frame channels data_size := by
  unfold DecodeAudio.write_samples DecodeAudio.interleaved
  rw [foldl_coe, ← foldl_append_flatten]
  congr 1
  funext f i
  exact foldl_fwrite (fun ch => (frame.data ch).add (data_size * (i : Int)).toNat) _ _ f

theorem DecodeAudio.interleaved_length (frame : AVFrame) (channels data_size : Int) :
    (DecodeAudio.interleaved frame channels data_size).length =
      frame.nb_samples.toNat * channels.toNat ∧
    (DecodeAudio.interleaved frame channels data_size).bytes.length =
      frame.nb_samples.toNat * channels.toNat * to_size_t data_size := by
  have hl : (DecodeAudio.interleaved frame channels data_size).length =
      frame.nb_samples.toNat * channels.toNat := by
    unfold DecodeAudio.interleaved
    rw [flatten_length_const _ channels.toNat]
    · simp
    · intro wr hw
      simp only [List.mem_map] at hw
      obtain ⟨i, _, rfl⟩ := hw
      simp
  refine ⟨hl, ?_⟩
  rw [Sink.bytes, flatten_length_const _ (to_size_t data_size), hl]
  intro wr hw
  unfold DecodeAudio.interleaved at hw
  simp only [List.mem_flatten, List.mem_map] at hw
  obtain ⟨l, ⟨i, _, rfl⟩, hw⟩ := hw
  simp only [List.mem_map] at hw
  obtain ⟨ch, _, rfl⟩ := hw
  exact bytesAt_length _ _

end InterleaveLemmas

/-- C14, counterexample: a planar stereo frame of two samples of one byte,
plane `data[0]` holding `[1, 2]` and plane `data[1]` holding `[3, 4]`.
`decode` of decode_audio.c returns 0 and writes the four bytes `1, 3, 2, 4`:
both channels, interleaved, and not the two bytes of plane `data[0]` only. -/
theorem C14_decode_audio_writes_every_channel :
    bytesAt ((toyStereoFrame [1, 2, 3, 4]).data 0) 2 = [1, 2] ∧
    bytesAt ((toyStereoFrame [1, 2, 3, 4]).data 1) 2 = [3, 4] ∧
    (DecodeAudio.decode toyStereoAudioLib 3 (world0 toyQuad []) (toyPacket [9])).1 = some 0 ∧
    (DecodeAudio.decode toyStereoAudioLib 3 (world0 toyQuad []) (toyPacket [9])).2.out.bytes
      = [1, 3, 2, 4] ∧
    (DecodeAudio.decode toyStereoAudioLib 3 (world0 toyQuad []) (toyPacket [9])).2.out.bytes
      ≠ bytesAt ((toyStereoFrame [1, 2, 3, 4]).data 0) 2 := by
  refine ⟨by decide, by decide, by decide, by decide, by decide⟩

/-- C14, as amended: `decode` of decode_audio.c writes every channel.  When
the submission succeeds and the decoder delivers the frames of `xs` (with a
non-negative bytes-per-sample value) before it answers `AVERROR(EAGAIN)`,
`AVERROR_EOF` or an error, the output gains, for each frame in order, for each
sample `i` in order and for each channel `ch` in order, one write of the
`bytes_per_sample` bytes at `data[ch] + bytes_per_sample * i`: the samples of
all planes interleaved, `nb_samples * channels` writes of `bytes_per_sample`
bytes for each frame. -/
theorem C14_decode_audio_interleaves_planes {σ : Type} (L : DecodeAudio.Lib σ)
    (w : World σ AVFrame Sink) (pkt : AVPacket) (xs : List (Int × AVFrame × σ))
    (s1 : σ) (fuel : Nat)
    (hs : 0 ≤ (L.dec.send w.ctx pkt).1)
    (hx : Emits L.dec.receive L.c (L.dec.send w.ctx pkt).2 xs s1)
    (hb : ∀ x ∈ xs, 0 ≤ L.bytes_per_sample x.2.2)
    (hy : (L.dec.receive s1).1 = L.c.EAGAIN ∨ (L.dec.receive s1).1 = L.c.EOF ∨
      (L.dec.receive s1).1 < 0)
    (hf : xs.length < fuel) :
    (DecodeAudio.decode L fuel w pkt).2.out =
      w.out ++ (xs.map (fun x =>
        DecodeAudio.interleaved x.2.1 (L.channels x.2.2) (L.bytes_per_sample x.2.2))).flatten ∧
    (∀ x ∈ xs,
      (DecodeAudio.interleaved x.2.1 (L.channels x.2.2) (L.bytes_per_sample x.2.2)).length =
        x.2.1.nb_samples.toNat * (L.channels x.2.2).toNat ∧
      (DecodeAudio.interleaved x.2.1 (L.channels x.2.2) (L.bytes_per_sample x.2.2)).bytes.length =
        x.2.1.nb_samples.toNat * (L.channels x.2.2).toNat *
          to_size_t (L.bytes_per_sample x.2.2)) := by
  refine ⟨?_, fun x _ => DecodeAudio.interleaved_length _ _ _⟩
  rw [DecodeAudio.decode_run L w pkt xs s1 fuel hs hx hb hy hf]
  simp only
  congr 2
  apply List.map_congr_left
  intro x _
  unfold DecodeAudio.frame_writes
  rw [DecodeAudio.write_samples_eq]
  simp

/-- C14 as amended, evaluated: for the planar stereo frame with planes
`[1, 2]` and `[3, 4]` the writes are `[1]`, `[3]`, `[2]`, `[4]`. -/
theorem C14_decode_audio_interleaves_planes_witness :
    (DecodeAudio.decode toyStereoAudioLib 3 (world0 toyQuad []) (toyPacket [9])).2.out =
      [[1], [3], [2], [4]] :=
  ((C14_decode_audio_interleaves_planes toyStereoAudioLib (world0 toyQuad []) (toyPacket [9])
      [toyStereoDecoder.receive (toyStereoDecoder.send toyQuad (toyPacket [9])).2]
      (toyStereoDecoder.receive (toyStereoDecoder.send toyQuad (toyPacket [9])).2).2.2 3
      (by decide) ⟨rfl, by decide, by decide, by decide, rfl⟩ (by decide)
      (Or.inl (by decide)) (by decide)).1).trans (by decide)

/-- C15: the write that the audio branch of `decode_packet` makes for a frame
has `bytes_per_sample * nb_samples` bytes, whatever the number of channels.
For a packed stereo frame of two samples of one byte, whose complete sample
data are the four bytes `1, 2, 3, 4` at `extended_data[0]`, `decode_packet`
returns 0, counts one frame and writes the two bytes `1, 2`: half of the
`nb_samples * 2 * bytes_per_sample = 4` bytes of the frame. -/
theorem C15_packed_stereo_frame_is_cut_short :
    (∀ {σ φ : Type} (L : DemuxingDecoding.Lib σ φ) (st : DemuxingDecoding.State σ φ)
        (x : Int × AVFrame × σ),
      (DemuxingDecoding.audio_step L st x).audio_dst_file =
        st.audio_dst_file ++ [bytesAt (x.2.1.extended_data 0)
          (to_size_t (L.av_get_bytes_per_sample x.2.1.format * x.2.1.nb_samples))]) ∧
    (toyStereoFrame [1, 2, 3, 4]).nb_samples = 2 ∧
    bytesAt ((toyStereoFrame [1, 2, 3, 4]).extended_data 0) (2 * 2 * 1) = [1, 2, 3, 4] ∧
    (DemuxingDecoding.decode_packet toyStereoLib toyConfig 3 0
        { toyState (toy0 false) toyQuad [] 1 with
            pkt := { toyPacket [9] with stream_index := 1 } }).1 = some 0 ∧
    (DemuxingDecoding.decode_packet toyStereoLib toyConfig 3 0
        { toyState (toy0 false) toyQuad [] 1 with
            pkt := { toyPacket [9] with stream_index := 1 } }).2.audio_frame_count = 1 ∧
    (DemuxingDecoding.decode_packet toyStereoLib toyConfig 3 0
        { toyState (toy0 false) toyQuad [] 1 with
            pkt := { toyPacket [9] with stream_index := 1 } }).2.audio_dst_file.bytes = [1, 2] := by
  refine ⟨fun L st x => rfl, by decide, by decide, by decide, by decide, by decide⟩

section OneDecoderLemmas
variable {σ φ : Type}
open DemuxingDecoding

theorem DemuxingDecoding.video_loop_keeps_audio (L : Lib σ φ) (k : Config) (d : Int) :
    ∀ (fuel : Nat) (ret : Int) (st : State σ φ),
      (video_loop L k d fuel ret st).2.audio_dec_ctx = st.audio_dec_ctx ∧
      (video_loop L k d fuel ret st).2.audio_dst_file = st.audio_dst_file ∧
      ∃ extra, (video_loop L k d fuel ret st).2.calls = st.calls ++ extra ∧
        ∀ x ∈ extra, x.onVideo = true := by
  intro fuel
  induction fuel with
  | zero => intro ret st; exact ⟨rfl, rfl, [], by simp [video_loop], by simp⟩
  | succ n ih =>
    intro ret st
    unfold video_loop
    by_cases h0 : 0 ≤ ret
    · rw [if_pos h0]
      dsimp only
      split_ifs with h1 h2 h3
      · exact ⟨rfl, rfl, _, rfl, by simp [DCall.onVideo]⟩
      · exact ⟨rfl, rfl, _, rfl, by simp [DCall.onVideo]⟩
      · exact ⟨rfl, rfl, _, rfl, by simp [DCall.onVideo]⟩
      · obtain ⟨a, b, extra, hc, he⟩ := ih (L.video.receive st.video_dec_ctx).1
          { st with video_dec_ctx := (L.video.receive st.video_dec_ctx).2.2,
                    calls := st.calls ++ [DCall.receive_video (L.video.receive st.video_dec_ctx).1],
                    video_frame_count := st.video_frame_count + 1,
                    video_dst_data := L.av_image_copy st.video_dst_data
                      (L.video.receive st.video_dec_ctx).2.1 k.pix_fmt k.width k.height,
                    video_dst_file := fwrite (L.av_image_copy st.video_dst_data
                      (L.video.receive st.video_dec_ctx).2.1 k.pix_fmt k.width k.height)
                      (to_size_t k.video_dst_bufsize) st.video_dst_file }
        refine ⟨a, b, DCall.receive_video (L.video.receive st.video_dec_ctx).1 :: extra, ?_, ?_⟩
        · rw [hc]; simp
        · intro x hx
          rcases List.mem_cons.mp hx with rfl | hx
          · rfl
          · exact he x hx
    · rw [if_neg h0]
      exact ⟨rfl, rfl, [], by simp, by simp⟩

theorem DemuxingDecoding.audio_loop_keeps_video (L : Lib σ φ) (d : Int) :
    ∀ (fuel : Nat) (ret : Int) (st : State σ φ),
      (audio_loop L d fuel ret st).2.video_dec_ctx = st.video_dec_ctx ∧
      (audio_loop L d fuel ret st).2.video_dst_file = st.video_dst_file ∧
      ∃ extra, (audio_loop L d fuel ret st).2.calls = st.calls ++ extra ∧
        ∀ x ∈ extra, x.onAudio = true := by
  intro fuel
  induction fuel with
  | zero => intro ret st; exact ⟨rfl, rfl, [], by simp [audio_loop], by simp⟩
  | succ n ih =>
    intro ret st
    unfold audio_loop
    by_cases h0 : 0 ≤ ret
    · rw [if_pos h0]
      dsimp only
      split_ifs with h1 h2
      · exact ⟨rfl, rfl, _, rfl, by simp [DCall.onAudio]⟩
      · exact ⟨rfl, rfl, _, rfl, by simp [DCall.onAudio]⟩
      · obtain ⟨a, b, extra, hc, he⟩ := ih (L.audio.receive st.audio_dec_ctx).1
          { st with audio_dec_ctx := (L.audio.receive st.audio_dec_ctx).2.2,
                    calls := st.calls ++ [DCall.receive_audio (L.audio.receive st.audio_dec_ctx).1],
                    audio_frame_count := st.audio_frame_count + 1,
                    audio_dst_file := fwrite ((L.audio.receive st.audio_dec_ctx).2.1.extended_data 0)
                      (to_size_t (L.av_get_bytes_per_sample
                        (L.audio.receive st.audio_dec_ctx).2.1.format *
                        (L.audio.receive st.audio_dec_ctx).2.1.nb_samples)) st.audio_dst_file }
        refine ⟨a, b, DCall.receive_audio (L.audio.receive st.audio_dec_ctx).1 :: extra, ?_, ?_⟩
        · rw [hc]; simp
        · intro x hx
          rcases List.mem_cons.mp hx with rfl | hx
          · rfl
          · exact he x hx
    · rw [if_neg h0]
      exact ⟨rfl, rfl, [], by simp, by simp⟩

theorem DemuxingDecoding.decode_packet_one_decoder (L : Lib σ φ) (k : Config) (fuel : Nat)
    (cached : Int) (st : State σ φ) :
    ((decode_packet L k fuel cached st).2.audio_dec_ctx = st.audio_dec_ctx ∧
      (decode_packet L k fuel cached st).2.audio_dst_file = st.audio_dst_file ∧
      ∃ extra, (decode_packet L k fuel cached st).2.calls = st.calls ++ extra ∧
        ∀ x ∈ extra, x.onVideo = true) ∨
    ((decode_packet L k fuel cached st).2.video_dec_ctx = st.video_dec_ctx ∧
      (decode_packet L k fuel cached st).2.video_dst_file = st.video_dst_file ∧
      ∃ extra, (decode_packet L k fuel cached st).2.calls = st.calls ++ extra ∧
        ∀ x ∈ extra, x.onAudio = true) := by
  unfold decode_packet
  dsimp only
  by_cases hv : st.pkt.stream_index = k.video_stream_idx
  · rw [if_pos hv]
    left
    by_cases hs : (L.video.send st.video_dec_ctx st.pkt).1 < 0
    · rw [if_pos hs]
      exact ⟨rfl, rfl, _, rfl, by simp [DCall.onVideo]⟩
    · rw [if_neg hs]
      obtain ⟨a, b, extra, hc, he⟩ := video_loop_keeps_audio L k st.pkt.size fuel
        (L.video.send st.video_dec_ctx st.pkt).1
        { st with video_dec_ctx := (L.video.send st.video_dec_ctx st.pkt).2,
                  calls := st.calls ++
                    [DCall.send_video st.pkt.size (L.video.send st.video_dec_ctx st.pkt).1] }
      refine ⟨a, b, DCall.send_video st.pkt.size (L.video.send st.video_dec_ctx st.pkt).1 :: extra,
        ?_, ?_⟩
      · rw [hc]; simp
      · intro x hx
        rcases List.mem_cons.mp hx with rfl | hx
        · rfl
        · exact he x hx
  · rw [if_neg hv]
    right
    by_cases ha : st.pkt.stream_index = k.audio_stream_idx
    · rw [if_pos ha]
      by_cases hs : (L.audio.send st.audio_dec_ctx st.pkt).1 < 0
      · rw [if_pos hs]
        exact ⟨rfl, rfl, _, rfl, by simp [DCall.onAudio]⟩
      · rw [if_neg hs]
        obtain ⟨a, b, extra, hc, he⟩ := audio_loop_keeps_video L
          (min (L.audio.send st.audio_dec_ctx st.pkt).1 st.pkt.size) fuel
          (L.audio.send st.audio_dec_ctx st.pkt).1
          { st with audio_dec_ctx := (L.audio.send st.audio_dec_ctx st.pkt).2,
                    calls := st.calls ++
                      [DCall.send_audio st.pkt.size (L.audio.send st.audio_dec_ctx st.pkt).1] }
        refine ⟨a, b,
          DCall.send_audio st.pkt.size (L.audio.send st.audio_dec_ctx st.pkt).1 :: extra, ?_, ?_⟩
        · rw [hc]; simp
        · intro x hx
          rcases List.mem_cons.mp hx with rfl | hx
          · rfl
          · exact he x hx
    · rw [if_neg ha]
      exact ⟨rfl, rfl, [], by simp, by simp⟩

end OneDecoderLemmas

/-- C17: one call of `decode_packet`, so also the flush call
`decode_packet(1)` after the read loop, calls only one of the two decoders:
either the audio decoder and the audio file are left as they were and every
library call made is a call on the video decoder, or the video decoder and the
video file are left as they were and every call made is on the audio decoder.
Evaluated on an input with an audio packet `[3, 4]` (stream 1) followed by a
video packet `[1, 2]` (stream 0), with two decoders that hold their input back
until the flush: `main` returns 0, the flush signal is submitted to the video
decoder only, the video frame is written, and the audio frame stays in the
audio decoder: the audio file is empty. -/
theorem C17_flush_reaches_one_decoder_only :
    (∀ {σ φ : Type} (L : DemuxingDecoding.Lib σ φ) (k : DemuxingDecoding.Config) (fuel : Nat)
        (cached : Int) (st : DemuxingDecoding.State σ φ),
      ((DemuxingDecoding.decode_packet L k fuel cached st).2.audio_dec_ctx = st.audio_dec_ctx ∧
        (DemuxingDecoding.decode_packet L k fuel cached st).2.audio_dst_file = st.audio_dst_file ∧
        ∃ extra, (DemuxingDecoding.decode_packet L k fuel cached st).2.calls = st.calls ++ extra ∧
          ∀ x ∈ extra, x.onVideo = true) ∨
      ((DemuxingDecoding.decode_packet L k fuel cached st).2.video_dec_ctx = st.video_dec_ctx ∧
        (DemuxingDecoding.decode_packet L k fuel cached st).2.video_dst_file = st.video_dst_file ∧
        ∃ extra, (DemuxingDecoding.decode_packet L k fuel cached st).2.calls = st.calls ++ extra ∧
          ∀ x ∈ extra, x.onAudio = true)) ∧
    (DemuxingDecoding.main toyOnceLib toyConfig 4
        (toyState (toy0 true) (toy0 true) [(1, [3, 4]), (0, [1, 2])] 0)).1 = some 0 ∧
    (DemuxingDecoding.main toyOnceLib toyConfig 4
        (toyState (toy0 true) (toy0 true) [(1, [3, 4]), (0, [1, 2])] 0)).2.calls =
      [DemuxingDecoding.DCall.read 0 1 2,
       DemuxingDecoding.DCall.send_audio 2 0,
       DemuxingDecoding.DCall.receive_audio (-11),
       DemuxingDecoding.DCall.send_audio 2 (-11),
       DemuxingDecoding.DCall.read 0 0 2,
       DemuxingDecoding.DCall.send_video 2 0,
       DemuxingDecoding.DCall.receive_video (-11),
       DemuxingDecoding.DCall.send_video 2 (-11),
       DemuxingDecoding.DCall.read (-541478725) 0 0,
       DemuxingDecoding.DCall.send_video 0 0,
       DemuxingDecoding.DCall.receive_video 0,
       DemuxingDecoding.DCall.receive_video (-541478725)] ∧
    (DemuxingDecoding.main toyOnceLib toyConfig 4
        (toyState (toy0 true) (toy0 true) [(1, [3, 4]), (0, [1, 2])] 0)).2.video_dst_file =
      [[1, 2]] ∧
    (DemuxingDecoding.main toyOnceLib toyConfig 4
        (toyState (toy0 true) (toy0 true) [(1, [3, 4]), (0, [1, 2])] 0)).2.audio_dst_file = [] ∧
    (DemuxingDecoding.main toyOnceLib toyConfig 4
        (toyState (toy0 true) (toy0 true) [(1, [3, 4]), (0, [1, 2])] 0)).2.audio_dec_ctx.held =
      [[3, 4]] := by
  refine ⟨fun L k fuel cached st => DemuxingDecoding.decode_packet_one_decoder L k fuel cached st,
    by decide, by decide, by decide, by decide, by decide⟩

/-- C18: in encode_video.c the result of `av_frame_make_writable` is only
printed: whatever it returns, one iteration of the frame loop fills the frame
and calls `encode` on it.  Evaluated with an `av_frame_make_writable` that
fails with -12: the loop of encode_video.c still submits the frame and writes
the packet `[9]`, whereas the loop of encode_audio.c jumps to `end` without a
library call and without a write. -/
theorem C18_video_loop_ignores_failed_make_writable :
    (∀ {σ : Type} (L : EncodeVideo.Lib σ) (fuel i : Nat) (st : EncodeVideo.State σ),
      (EncodeVideo.frame_loop L fuel 1 i st).2.w =
        (EncodeVideo.encode L.enc L.c fuel st.w
          (some { L.fill st.w.ctx i (L.av_frame_make_writable st.w.ctx st.frame).2 with
                    pts := i })).2) ∧
    (toyStuckEncVideoLib.av_frame_make_writable (toy0 false) (toyFrame [9])).1 = -12 ∧
    (EncodeVideo.frame_loop toyStuckEncVideoLib 3 1 0 (toyEncVideoState (toy0 false))).1 =
      Outcome.finished ∧
    (EncodeVideo.frame_loop toyStuckEncVideoLib 3 1 0 (toyEncVideoState (toy0 false))).2.w.calls =
      [Call.send 0, Call.receive 0 (toyPacket [9]), Call.receive (-11) (toyPacket [])] ∧
    (EncodeVideo.frame_loop toyStuckEncVideoLib 3 1 0 (toyEncVideoState (toy0 false))).2.w.out =
      [[9]] ∧
    (EncodeAudio.frame_loop toyStuckEncLib 3 1 0 (toyEncState (toy0 false))).1 = Outcome.jumped ∧
    (EncodeAudio.frame_loop toyStuckEncLib 3 1 0 (toyEncState (toy0 false))).2.w.calls = [] ∧
    (EncodeAudio.frame_loop toyStuckEncLib 3 1 0 (toyEncState (toy0 false))).2.w.out = [] := by
  refine ⟨?_, by decide, by decide, ?_, by decide, by decide, ?_, by decide⟩
  · intro σ L fuel i st
    simp only [EncodeVideo.frame_loop]
    rcases h : EncodeVideo.encode L.enc L.c fuel st.w
      (some { L.fill st.w.ctx i (L.av_frame_make_writable st.w.ctx st.frame).2 with
                pts := i }) with ⟨_ | r, w1⟩
    · rfl
    · by_cases hr : r < 0
      · simp [hr]
      · simp [hr]
  · rfl
  · rfl

/-- C16, counterexample: an encoder and a decoder that, like libavcodec,
refuse every submission after the flush with `AVERROR_EOF`, each holding one
unit `[1, 2]`.  The first flush call returns 0 and writes the unit; the second
flush call in a row submits the flush signal again, is refused, and returns a
negative value (`AVERROR_EOF` from `encode`, -1 from `decode`), not success. -/
theorem C16_second_flush_is_refused :
    (EncodeAudio.encode toyStrictEncoder linux 3 (world0 toyHolding []) none).1 = some 0 ∧
    (EncodeAudio.encode toyStrictEncoder linux 3 (world0 toyHolding []) none).2.out = [[1, 2]] ∧
    (EncodeAudio.encode toyStrictEncoder linux 3
      (EncodeAudio.encode toyStrictEncoder linux 3 (world0 toyHolding []) none).2 none).1 =
        some (-541478725) ∧
    (DecodeAudio.decode toyStrictAudioLib 3 (world0 toyHolding []) flushPacket).1 = some 0 ∧
    (DecodeAudio.decode toyStrictAudioLib 3 (world0 toyHolding []) flushPacket).2.out =
      [[1], [2]] ∧
    (DecodeAudio.decode toyStrictAudioLib 3
      (DecodeAudio.decode toyStrictAudioLib 3 (world0 toyHolding []) flushPacket).2
        flushPacket).1 = some (-1) ∧
    ¬ ((EncodeAudio.encode toyStrictEncoder linux 3
        (EncodeAudio.encode toyStrictEncoder linux 3 (world0 toyHolding []) none).2 none).1 =
          some 0) := by
  refine ⟨by decide, by decide, by decide, by decide, by decide, by decide, by decide⟩

/-- C16, as amended: the pump keeps no state of its own, so a second flush
call in a row submits the flush signal to the engine again and its result
follows the engine's answer.  With `w1` the state left by a first flush call:
if the engine refuses the repeated flush signal, the second call returns a
negative value (the engine's value from `encode`, -1 from `decode`), makes no
retrieval and writes nothing; if the engine accepts it and answers the next
retrieval with `AVERROR(EAGAIN)` or `AVERROR_EOF`, the second call returns 0
and writes nothing. -/
theorem C16_second_flush_follows_the_engine :
    (∀ {σ : Type} (E : Engine σ (Option AVFrame) AVPacket) (c : ErrCodes) (fuel : Nat)
        (w w1 : World σ AVPacket Sink),
      (w1 = (EncodeAudio.encode E c fuel w none).2 ∨
        w1 = (EncodeVideo.encode E c fuel w none).2) →
      ((E.send w1.ctx none).1 < 0 →
        EncodeAudio.encode E c fuel w1 none =
          (some (E.send w1.ctx none).1,
           { w1 with ctx := (E.send w1.ctx none).2,
                     calls := w1.calls ++ [Call.send (E.send w1.ctx none).1] }) ∧
        EncodeVideo.encode E c fuel w1 none =
          (some (E.send w1.ctx none).1,
           { w1 with ctx := (E.send w1.ctx none).2,
                     calls := w1.calls ++ [Call.send (E.send w1.ctx none).1] })) ∧
      (0 ≤ (E.send w1.ctx none).1 →
        ((E.receive (E.send w1.ctx none).2).1 = c.EAGAIN ∨
          (E.receive (E.send w1.ctx none).2).1 = c.EOF) →
        0 < fuel →
        ((EncodeAudio.encode E c fuel w1 none).1 = some 0 ∧
          (EncodeAudio.encode E c fuel w1 none).2.out = w1.out) ∧
        ((EncodeVideo.encode E c fuel w1 none).1 = some 0 ∧
          (EncodeVideo.encode E c fuel w1 none).2.out = w1.out))) ∧
    (∀ {σ : Type} (L : DecodeAudio.Lib σ) (fuel : Nat) (w w1 : World σ AVFrame Sink)
        (pkt : AVPacket),
      w1 = (DecodeAudio.decode L fuel w { pkt with data := none, size := 0 }).2 →
      ((L.dec.send w1.ctx { pkt with data := none, size := 0 }).1 < 0 →
        DecodeAudio.decode L fuel w1 { pkt with data := none, size := 0 } =
          (some (-1),
           { w1 with ctx := (L.dec.send w1.ctx { pkt with data := none, size := 0 }).2,
                     calls := w1.calls ++
                       [Call.send (L.dec.send w1.ctx { pkt with data := none, size := 0 }).1] })) ∧
      (0 ≤ (L.dec.send w1.ctx { pkt with data := none, size := 0 }).1 →
        ((L.dec.receive (L.dec.send w1.ctx { pkt with data := none, size := 0 }).2).1 =
            L.c.EAGAIN ∨
          (L.dec.receive (L.dec.send w1.ctx { pkt with data := none, size := 0 }).2).1 =
            L.c.EOF) →
        0 < fuel →
        (DecodeAudio.decode L fuel w1 { pkt with data := none, size := 0 }).1 = some 0 ∧
        (DecodeAudio.decode L fuel w1 { pkt with data := none, size := 0 }).2.out = w1.out)) ∧
    (∀ {σ : Type} (L : DecodeVideo.Lib σ) (filename : String) (fuel : Nat)
        (w w1 : World σ AVFrame DecodeVideo.Files),
      w1 = (DecodeVideo.decode L filename fuel w none).2 →
      ((L.dec.send w1.ctx none).1 < 0 →
        DecodeVideo.decode L filename fuel w1 none =
          (some (-1),
           { w1 with ctx := (L.dec.send w1.ctx none).2,
                     calls := w1.calls ++ [Call.send (L.dec.send w1.ctx none).1] })) ∧
      (0 ≤ (L.dec.send w1.ctx none).1 →
        ((L.dec.receive (L.dec.send w1.ctx none).2).1 = L.c.EAGAIN ∨
          (L.dec.receive (L.dec.send w1.ctx none).2).1 = L.c.EOF) →
        0 < fuel →
        (DecodeVideo.decode L filename fuel w1 none).1 = some 0 ∧
        (DecodeVideo.decode L filename fuel w1 none).2.out = w1.out)) := by
  refine ⟨?_, ?_, ?_⟩
  · intro σ E c fuel w w1 _
    refine ⟨fun h => ?_, fun hs hy hf => ?_⟩
    · rw [EncodeVideo.encode_eq]
      simp [EncodeAudio.encode, World.send, h]
    · have h := EncodeAudio.encode_run E c w1 none [] (E.send w1.ctx none).2 fuel hs rfl
        (hy.elim Or.inl (fun h => Or.inr (Or.inl h))) hf
      rw [EncodeVideo.encode_eq, h]
      simp [hy]
  · intro σ L fuel w w1 pkt _
    refine ⟨fun h => ?_, fun hs hy hf => ?_⟩
    · simp [DecodeAudio.decode, World.send, h]
    · rw [DecodeAudio.decode_run L w1 _ [] _ fuel hs rfl (by simp)
        (hy.elim Or.inl (fun h => Or.inr (Or.inl h))) hf]
      simp [hy]
  · intro σ L filename fuel w w1 _
    refine ⟨fun h => ?_, fun hs hy hf => ?_⟩
    · simp [DecodeVideo.decode, World.send, h]
    · rw [DecodeVideo.vdecode_run L filename w1 _ [] _ fuel hs rfl
        (hy.elim Or.inl (fun h => Or.inr (Or.inl h))) hf]
      simp [hy]

/-- C16 as amended, evaluated: after a first flush call the strict encoder
refuses the second flush signal and `encode` returns `AVERROR_EOF`; the
example decoder of decode_audio.c accepts it, answers `AVERROR_EOF` to the
retrieval, and `decode` returns 0 with the output `[[1], [2]]` of the first
call unchanged. -/
theorem C16_second_flush_follows_the_engine_witness :
    (EncodeAudio.encode toyStrictEncoder linux 3
      (EncodeAudio.encode toyStrictEncoder linux 3 (world0 toyHolding []) none).2 none).1 =
        some (-541478725) ∧
    ((DecodeAudio.decode toyAudioLib 3
      (DecodeAudio.decode toyAudioLib 3 (world0 toyHolding []) flushPacket).2 flushPacket).1 =
        some 0 ∧
     (DecodeAudio.decode toyAudioLib 3
      (DecodeAudio.decode toyAudioLib 3 (world0 toyHolding []) flushPacket).2 flushPacket).2.out =
        [[1], [2]]) :=
  ⟨(congrArg Prod.fst (((C16_second_flush_follows_the_engine.1 toyStrictEncoder linux 3
        (world0 toyHolding [])
        (EncodeAudio.encode toyStrictEncoder linux 3 (world0 toyHolding []) none).2
        (Or.inl rfl)).1 (by decide)).1)).trans (by decide),
   ⟨(((C16_second_flush_follows_the_engine.2.1 toyAudioLib 3 (world0 toyHolding [])
        (DecodeAudio.decode toyAudioLib 3 (world0 toyHolding []) flushPacket).2 flushPacket
        rfl).2 (by decide) (Or.inr (by decide)) (by decide)).1),
    (((C16_second_flush_follows_the_engine.2.1 toyAudioLib 3 (world0 toyHolding [])
        (DecodeAudio.decode toyAudioLib 3 (world0 toyHolding []) flushPacket).2 flushPacket
        rfl).2 (by decide) (Or.inr (by decide)) (by decide)).2).trans (by decide)⟩⟩

section RefillLemmas
variable {σ O : Type}

theorem DecodeAudio.wellFed_append (input : List Byte) :
    ∀ (a b : List (Call O)) (done : List Byte),
      DecodeAudio.WellFedFrom input done (a ++ b) ↔
        DecodeAudio.WellFedFrom input done a ∧ DecodeAudio.WellFedFrom input (done ++ consumed a) b := by
  intro a
  induction a with
  | nil => intro b done; simp [DecodeAudio.WellFedFrom, consumed]
  | cons x xs ih =>
    intro b done
    cases x with
    | send r => simpa [DecodeAudio.WellFedFrom, consumed] using ih b done
    | receive r u => simpa [DecodeAudio.WellFedFrom, consumed] using ih b done
    | parse win r =>
      have h := ih b (done ++ win.take r.toNat)
      show ((DecodeAudio.AUDIO_REFILL_THRESH ≤ win.length ∨ done ++ win = input) ∧
          DecodeAudio.WellFedFrom input (done ++ win.take r.toNat) (xs ++ b)) ↔
        ((DecodeAudio.AUDIO_REFILL_THRESH ≤ win.length ∨ done ++ win = input) ∧
          DecodeAudio.WellFedFrom input (done ++ win.take r.toNat) xs) ∧
        DecodeAudio.WellFedFrom input (done ++ (win.take r.toNat ++ consumed xs)) b
      rw [h, List.append_assoc]
      tauto

theorem DecodeAudio.wellFed_of_no_parse (input : List Byte) :
    ∀ (a : List (Call O)) (done : List Byte), (∀ x ∈ a, x.isParse = false) →
      DecodeAudio.WellFedFrom input done a := by
  intro a
  induction a with
  | nil => intro done _; trivial
  | cons x xs ih =>
    intro done h
    have hx := h x (List.mem_cons_self _ _)
    have hxs := ih done (fun y hy => h y (List.mem_cons_of_mem _ hy))
    cases x with
    | send r => exact hxs
    | receive r u => exact hxs
    | parse win r => simp [Call.isParse] at hx

theorem DecodeAudio.decode_loop_calls (L : DecodeAudio.Lib σ) :
    ∀ (fuel : Nat) (ret : Int) (w : World σ AVFrame Sink),
      ∃ extra, (DecodeAudio.decode_loop L fuel ret w).2.calls = w.calls ++ extra ∧
        ∀ x ∈ extra, x.isParse = false := by
  intro fuel
  induction fuel with
  | zero => intro _ w; exact ⟨[], by simp [DecodeAudio.decode_loop], by simp⟩
  | succ n ih =>
    intro ret w
    simp only [DecodeAudio.decode_loop]
    split_ifs
    · exact ⟨_, rfl, by simp [Call.isParse]⟩
    · exact ⟨_, rfl, by simp [Call.isParse]⟩
    · exact ⟨_, rfl, by simp [Call.isParse]⟩
    · obtain ⟨extra, hc, he⟩ := ih (w.receive L.dec).1
        { (w.receive L.dec).2.2 with
          out := DecodeAudio.write_samples (w.receive L.dec).2.1
            (L.channels (w.receive L.dec).2.2.ctx) (L.bytes_per_sample (w.receive L.dec).2.2.ctx)
            (w.receive L.dec).2.2.out }
      refine ⟨Call.receive (L.dec.receive w.ctx).1 (L.dec.receive w.ctx).2.1 :: extra, ?_, ?_⟩
      · rw [hc]; simp [World.receive]
      · intro x hx
        rcases List.mem_cons.mp hx with rfl | hx
        · rfl
        · exact he x hx
    · exact ⟨[], by simp, by simp⟩

theorem DecodeAudio.decode_calls (L : DecodeAudio.Lib σ) (fuel : Nat)
    (w : World σ AVFrame Sink) (pkt : AVPacket) :
    ∃ extra, (DecodeAudio.decode L fuel w pkt).2.calls = w.calls ++ extra ∧
      ∀ x ∈ extra, x.isParse = false := by
  simp only [DecodeAudio.decode]
  split_ifs
  · exact ⟨_, rfl, by simp [Call.isParse]⟩
  · obtain ⟨extra, hc, he⟩ := DecodeAudio.decode_loop_calls L fuel (w.send L.dec pkt).1
      (w.send L.dec pkt).2
    refine ⟨Call.send (L.dec.send w.ctx pkt).1 :: extra, ?_, ?_⟩
    · rw [hc]; simp [World.send]
    · intro x hx
      rcases List.mem_cons.mp hx with rfl | hx
      · rfl
      · exact he x hx

theorem DecodeAudio.decode_wellFed (L : DecodeAudio.Lib σ) (fuel : Nat)
    (w : World σ AVFrame Sink) (pkt : AVPacket) (input : List Byte)
    (h : DecodeAudio.WellFedFrom input [] w.calls) :
    DecodeAudio.WellFedFrom input [] (DecodeAudio.decode L fuel w pkt).2.calls := by
  obtain ⟨extra, hc, he⟩ := DecodeAudio.decode_calls L fuel w pkt
  rw [hc, DecodeAudio.wellFed_append]
  exact ⟨h, DecodeAudio.wellFed_of_no_parse input extra _ he⟩

theorem DecodeAudio.refill_same (st : DecodeAudio.State σ)
    (h : DecodeAudio.AUDIO_REFILL_THRESH ≤ st.data_size) : DecodeAudio.refill st = st := by
  unfold DecodeAudio.refill
  rw [if_neg (by omega)]

theorem DecodeAudio.refill_world (st : DecodeAudio.State σ) :
    (DecodeAudio.refill st).w = st.w ∧ (DecodeAudio.refill st).pkt = st.pkt ∧
    (DecodeAudio.refill st).decoded_frame = st.decoded_frame := by
  unfold DecodeAudio.refill
  split_ifs <;> exact ⟨rfl, rfl, rfl⟩

theorem DecodeAudio.refill_request (st : DecodeAudio.State σ)
    (h : st.data_size < DecodeAudio.AUDIO_REFILL_THRESH) :
    to_size_t ((DecodeAudio.AUDIO_INBUF_SIZE : Int) - st.data_size) =
      DecodeAudio.AUDIO_INBUF_SIZE - st.data_size := by
  have hA : DecodeAudio.AUDIO_INBUF_SIZE = 20480 := rfl
  have hT : DecodeAudio.AUDIO_REFILL_THRESH = 4096 := rfl
  have : ((DecodeAudio.AUDIO_INBUF_SIZE : Int) - st.data_size) =
      ((DecodeAudio.AUDIO_INBUF_SIZE - st.data_size : Nat) : Int) := by omega
  rw [this]
  apply to_size_t_of_nat
  omega

theorem DecodeAudio.refill_size (st : DecodeAudio.State σ)
    (h : st.data_size < DecodeAudio.AUDIO_REFILL_THRESH) :
    (DecodeAudio.refill st).data_size = st.data_size +
      (fread st.infile (DecodeAudio.AUDIO_INBUF_SIZE - st.data_size)).1.length := by
  have hA : DecodeAudio.AUDIO_INBUF_SIZE = 20480 := rfl
  have hT : DecodeAudio.AUDIO_REFILL_THRESH = 4096 := rfl
  unfold DecodeAudio.refill
  simp only [h, if_true]
  rw [DecodeAudio.refill_request st h]
  set chunk := (fread st.infile (DecodeAudio.AUDIO_INBUF_SIZE - st.data_size)).1 with hchunk
  have hlen : chunk.length ≤ DecodeAudio.AUDIO_INBUF_SIZE - st.data_size :=
    fread_length_le _ _
  by_cases hpos : (0 : Int) < (chunk.length : Int)
  · simp only [hpos, if_true]
    have : ((st.data_size : Int) + (chunk.length : Int)) =
        ((st.data_size + chunk.length : Nat) : Int) := by push_cast; rfl
    rw [this]
    apply to_size_t_of_nat
    omega
  · simp only [hpos, if_false]
    omega

/-- The refill step, when it is taken: the cursor is back at the start of the
buffer, the file is read once, and the window is the old window followed by
the bytes read. -/
theorem DecodeAudio.refill_window (st : DecodeAudio.State σ)
    (h : st.data_size < DecodeAudio.AUDIO_REFILL_THRESH) :
    (DecodeAudio.refill st).data = 0 ∧
    (DecodeAudio.refill st).infile =
      (fread st.infile (DecodeAudio.AUDIO_INBUF_SIZE - st.data_size)).2 ∧
    DecodeAudio.window (DecodeAudio.refill st) =
      DecodeAudio.window st ++
        (fread st.infile (DecodeAudio.AUDIO_INBUF_SIZE - st.data_size)).1 := by
  have hsz := DecodeAudio.refill_size st h
  have hreq := DecodeAudio.refill_request st h
  have hd : (DecodeAudio.refill st).data = 0 := by
    unfold DecodeAudio.refill; simp only [h, if_true]
  have hf : (DecodeAudio.refill st).infile =
      (fread st.infile (DecodeAudio.AUDIO_INBUF_SIZE - st.data_size)).2 := by
    unfold DecodeAudio.refill; simp only [h, if_true]; rw [hreq]
  have hb : (DecodeAudio.refill st).inbuf =
      store (memmove st.inbuf 0 st.data st.data_size) st.data_size
        (fread st.infile (DecodeAudio.AUDIO_INBUF_SIZE - st.data_size)).1 := by
    unfold DecodeAudio.refill; simp only [h, if_true]; rw [hreq]
  refine ⟨hd, hf, ?_⟩
  unfold DecodeAudio.window
  rw [hsz, hd, hb]
  set chunk := (fread st.infile (DecodeAudio.AUDIO_INBUF_SIZE - st.data_size)).1 with hchunk
  rw [bytesAt_add, ptr_add_add, Nat.zero_add, bytesAt_store]
  congr 1
  apply bytesAt_congr
  intro i hi
  have h1 : ¬ (st.data_size ≤ i ∧ i < st.data_size + chunk.length) := by omega
  simp [store, memmove, Ptr.add, hi, h1]

theorem fread_honest (f : InFile) (n : Nat) (h : f.sizes = []) :
    (fread f n).2.sizes = [] ∧
    ((fread f n).1.length = n ∨ (fread f n).2.rest = []) := by
  simp only [fread, h, List.headD_nil, Nat.min_self, List.tail_nil, List.length_take, true_and]
  by_cases hl : n ≤ f.rest.length
  · left; omega
  · right; exact List.drop_eq_nil_of_le (by omega)

theorem DecodeAudio.refill_supplied (st : DecodeAudio.State σ) (h : st.infile.sizes = []) :
    (DecodeAudio.refill st).infile.sizes = [] ∧ DecodeAudio.Supplied (DecodeAudio.refill st) := by
  have hA : DecodeAudio.AUDIO_INBUF_SIZE = 20480 := rfl
  have hT : DecodeAudio.AUDIO_REFILL_THRESH = 4096 := rfl
  by_cases hlt : st.data_size < DecodeAudio.AUDIO_REFILL_THRESH
  · obtain ⟨_, hf, _⟩ := DecodeAudio.refill_window st hlt
    have hsz := DecodeAudio.refill_size st hlt
    obtain ⟨h1, h2⟩ := fread_honest st.infile (DecodeAudio.AUDIO_INBUF_SIZE - st.data_size) h
    refine ⟨by rw [hf]; exact h1, ?_⟩
    unfold DecodeAudio.Supplied
    rcases h2 with h2 | h2
    · left; rw [hsz, h2]; omega
    · right; rw [hf]; exact h2
  · rw [DecodeAudio.refill_same st (by omega)]
    exact ⟨h, Or.inl (by omega)⟩

theorem DecodeAudio.first_read_supplied (st : DecodeAudio.State σ) (h : st.infile.sizes = []) :
    (DecodeAudio.first_read st).infile.sizes = [] ∧
    DecodeAudio.Supplied (DecodeAudio.first_read st) := by
  have hA : DecodeAudio.AUDIO_INBUF_SIZE = 20480 := rfl
  have hT : DecodeAudio.AUDIO_REFILL_THRESH = 4096 := rfl
  obtain ⟨h1, h2⟩ := fread_honest st.infile DecodeAudio.AUDIO_INBUF_SIZE h
  refine ⟨h1, ?_⟩
  unfold DecodeAudio.Supplied
  rcases h2 with h2 | h2
  · left; show _ ≤ (fread st.infile DecodeAudio.AUDIO_INBUF_SIZE).1.length; omega
  · right; exact h2

/-- An invariant rule for the feeding loop of decode_audio.c: `I` holds at the
head of every iteration, `R` holds of every state in which the loop may end. -/
theorem DecodeAudio.feed_loop_rule (L : DecodeAudio.Lib σ) (fuel : Nat)
    (I R : DecodeAudio.State σ → Prop)
    (hR : ∀ st, I st → R st)
    (hexit : ∀ st, I st → 0 < st.data_size → (DecodeAudio.parse_call L st).1 < 0 →
      R (DecodeAudio.parse_call L st).2)
    (hdec : ∀ st, I st → 0 < st.data_size → ¬ (DecodeAudio.parse_call L st).1 < 0 →
      (DecodeAudio.parsed L st).pkt.size ≠ 0 →
      R { DecodeAudio.parsed L st with
            w := (DecodeAudio.decode L fuel (DecodeAudio.parsed L st).w
              (DecodeAudio.parsed L st).pkt).2 } ∧
      (∀ r, (DecodeAudio.decode L fuel (DecodeAudio.parsed L st).w
              (DecodeAudio.parsed L st).pkt).1 = some r → ¬ r < 0 →
        I (DecodeAudio.refill { DecodeAudio.parsed L st with
            w := (DecodeAudio.decode L fuel (DecodeAudio.parsed L st).w
              (DecodeAudio.parsed L st).pkt).2 })))
    (hskip : ∀ st, I st → 0 < st.data_size → ¬ (DecodeAudio.parse_call L st).1 < 0 →
      (DecodeAudio.parsed L st).pkt.size = 0 → I (DecodeAudio.refill (DecodeAudio.parsed L st))) :
    ∀ (n : Nat) (st : DecodeAudio.State σ), I st →
      R (DecodeAudio.feed_loop L fuel n st).2 ∧
      ((DecodeAudio.feed_loop L fuel n st).1 = Outcome.finished →
        I (DecodeAudio.feed_loop L fuel n st).2 ∧
        (DecodeAudio.feed_loop L fuel n st).2.data_size = 0) := by
  intro n
  induction n with
  | zero => intro st h; exact ⟨hR st h, fun hf => by simp [DecodeAudio.feed_loop] at hf⟩
  | succ n ih =>
    intro st h
    simp only [DecodeAudio.feed_loop]
    by_cases hd : 0 < st.data_size
    · rw [if_pos hd]
      by_cases hneg : (DecodeAudio.parse_call L st).1 < 0
      · rw [if_pos hneg]
        exact ⟨hexit st h hd hneg, fun hf => by simp at hf⟩
      · rw [if_neg hneg]
        by_cases hsz : (DecodeAudio.parsed L st).pkt.size ≠ 0
        · rw [if_pos hsz]
          obtain ⟨h1, h2⟩ := hdec st h hd hneg hsz
          rcases hres : DecodeAudio.decode L fuel (DecodeAudio.parsed L st).w
            (DecodeAudio.parsed L st).pkt with ⟨_ | r, w1⟩
          · rw [hres] at h1
            exact ⟨h1, fun hf => by simp at hf⟩
          · rw [hres] at h1 h2
            dsimp only
            by_cases hr : r < 0
            · rw [if_pos hr]
              exact ⟨h1, fun hf => by simp at hf⟩
            · rw [if_neg hr]
              exact ih _ (h2 r rfl hr)
        · rw [if_neg hsz]
          exact ih _ (hskip st h hd hneg (not_not.mp hsz))
    · rw [if_neg hd]
      exact ⟨hR st h, fun _ => ⟨h, by show st.data_size = 0; omega⟩⟩

theorem DecodeAudio.parsed_wellFed (L : DecodeAudio.Lib σ) (input : List Byte)
    (st : DecodeAudio.State σ) (hfed : DecodeAudio.Fed input st)
    (hs : DecodeAudio.Supplied st) (hw : DecodeAudio.WellFedFrom input [] st.w.calls) :
    DecodeAudio.WellFedFrom input [] (DecodeAudio.parse_call L st).2.w.calls := by
  show DecodeAudio.WellFedFrom input [] (st.w.calls ++
    [Call.parse (bytesAt (st.inbuf.add st.data) st.data_size) _])
  rw [DecodeAudio.wellFed_append]
  refine ⟨hw, ?_, trivial⟩
  rcases hs with hs | hs
  · left; rw [bytesAt_length]; exact hs
  · right
    unfold DecodeAudio.Fed DecodeAudio.window at hfed
    rw [hs, List.append_nil] at hfed
    simpa using hfed

theorem DecodeAudio.feed_loop_wellFed (L : DecodeAudio.Lib σ)
    (hc : ParserContract L.av_parser_parse2) (input : List Byte) (fuel n : Nat)
    (st : DecodeAudio.State σ)
    (h : (DecodeAudio.Fed input st ∧ st.data + st.data_size ≤ DecodeAudio.AUDIO_INBUF_SIZE) ∧
      st.infile.sizes = [] ∧ DecodeAudio.Supplied st ∧ DecodeAudio.WellFedFrom input [] st.w.calls) :
    DecodeAudio.WellFedFrom input [] (DecodeAudio.feed_loop L fuel n st).2.w.calls := by
  refine (DecodeAudio.feed_loop_rule L fuel
    (fun st => (DecodeAudio.Fed input st ∧
        st.data + st.data_size ≤ DecodeAudio.AUDIO_INBUF_SIZE) ∧
      st.infile.sizes = [] ∧ DecodeAudio.Supplied st ∧ DecodeAudio.WellFedFrom input [] st.w.calls)
    (fun st => DecodeAudio.WellFedFrom input [] st.w.calls)
    (fun st h => h.2.2.2) ?_ ?_ ?_ n st h).1
  · intro st h _ _
    exact DecodeAudio.parsed_wellFed L input st h.1.1 h.2.2.1 h.2.2.2
  · intro st h _ _ _
    have hp := DecodeAudio.parsed_inv L hc input st h.1
    have hw := DecodeAudio.parsed_wellFed L input st h.1.1 h.2.2.1 h.2.2.2
    have hd := DecodeAudio.decode_wellFed L fuel (DecodeAudio.parsed L st).w
      (DecodeAudio.parsed L st).pkt input hw
    have hcons := DecodeAudio.decode_consumed L fuel (DecodeAudio.parsed L st).w
      (DecodeAudio.parsed L st).pkt
    refine ⟨hd, fun r _ _ => ?_⟩
    have hq := DecodeAudio.with_world_inv input (DecodeAudio.parsed L st) _ hcons hp
    have hr := DecodeAudio.refill_supplied
      ({ DecodeAudio.parsed L st with
          w := (DecodeAudio.decode L fuel (DecodeAudio.parsed L st).w
            (DecodeAudio.parsed L st).pkt).2 } : DecodeAudio.State σ) h.2.1
    refine ⟨DecodeAudio.refill_inv input _ hq, hr.1, hr.2, ?_⟩
    rw [(DecodeAudio.refill_world _).1]
    exact hd
  · intro st h _ _ _
    have hp := DecodeAudio.parsed_inv L hc input st h.1
    have hw := DecodeAudio.parsed_wellFed L input st h.1.1 h.2.2.1 h.2.2.2
    have hr := DecodeAudio.refill_supplied (DecodeAudio.parsed L st) h.2.1
    refine ⟨DecodeAudio.refill_inv input _ hp, hr.1, hr.2, ?_⟩
    rw [(DecodeAudio.refill_world _).1]
    exact hw

theorem DecodeAudio.wellFed_of_from (input : List Byte) :
    ∀ (pre : List (Call O)) (calls post : List (Call O)) (done win : List Byte) (r : Int),
      DecodeAudio.WellFedFrom input done calls → calls = pre ++ Call.parse win r :: post →
      DecodeAudio.AUDIO_REFILL_THRESH ≤ win.length ∨ done ++ consumed pre ++ win = input := by
  intro pre
  induction pre with
  | nil =>
    intro calls post done win r h hc
    subst hc
    simpa [consumed] using h.1
  | cons x xs ih =>
    intro calls post done win r h hc
    subst hc
    cases x with
    | send r0 => exact ih (xs ++ Call.parse win r :: post) post done win r h rfl
    | receive r0 u => exact ih (xs ++ Call.parse win r :: post) post done win r h rfl
    | parse w0 r0 =>
      have := ih (xs ++ Call.parse win r :: post) post (done ++ w0.take r0.toNat) win r h.2 rfl
      simpa [consumed, List.append_assoc] using this

theorem DecodeAudio.main_wellFed (L : DecodeAudio.Lib σ)
    (hc : ParserContract L.av_parser_parse2) (fuel : Nat) (st : DecodeAudio.State σ)
    (hs : st.infile.sizes = []) (h0 : st.w.calls = []) :
    DecodeAudio.WellFedFrom st.infile.rest [] (DecodeAudio.main L fuel st).2.w.calls := by
  have hfirst := DecodeAudio.first_read_inv st (by rw [h0]; rfl)
  have hsup := DecodeAudio.first_read_supplied st hs
  have hloop := DecodeAudio.feed_loop_wellFed L hc st.infile.rest fuel fuel
    (DecodeAudio.first_read st)
    ⟨hfirst, hsup.1, hsup.2, by
      show DecodeAudio.WellFedFrom st.infile.rest [] st.w.calls
      rw [h0]; trivial⟩
  unfold DecodeAudio.main
  rcases hres : DecodeAudio.feed_loop L fuel fuel (DecodeAudio.first_read st) with ⟨o, st1⟩
  rw [hres] at hloop
  cases o with
  | finished =>
    dsimp only
    have hd := DecodeAudio.decode_wellFed L fuel st1.w { st1.pkt with data := none, size := 0 }
      st.infile.rest hloop
    rcases hdec : DecodeAudio.decode L fuel st1.w { st1.pkt with data := none, size := 0 }
      with ⟨_ | r, w1⟩
    · rw [hdec] at hd; exact hd
    · rw [hdec] at hd; exact hd
  | timeout => exact hloop
  | exited code => exact hloop
  | jumped => exact hloop

theorem DecodeAudio.main_parser_calls (L : DecodeAudio.Lib σ)
    (hc : ParserContract L.av_parser_parse2) (fuel : Nat) (st : DecodeAudio.State σ)
    (hs : st.infile.sizes = []) (h0 : st.w.calls = []) :
    DecodeAudio.WellFed st.infile.rest (DecodeAudio.main L fuel st).2.w.calls := by
  intro pre post win r hcalls
  have h := DecodeAudio.wellFed_of_from st.infile.rest pre _ post [] win r
    (DecodeAudio.main_wellFed L hc fuel st hs h0) hcalls
  simpa using h

end RefillLemmas

section CursorLemmas
variable {σ : Type}

theorem bytesAt_drop (p : Ptr) (n r : Nat) (h : r ≤ n) :
    bytesAt (p.add r) (n - r) = (bytesAt p n).drop r := by
  have h1 : bytesAt p n = bytesAt p r ++ bytesAt (p.add r) (n - r) := by
    rw [← bytesAt_add]; congr 1; omega
  rw [h1]
  exact (List.drop_left' (bytesAt_length p r)).symm

theorem DecodeAudio.parsed_cursor (L : DecodeAudio.Lib σ) (st : DecodeAudio.State σ)
    (h0 : 0 ≤ (DecodeAudio.parse_call L st).1)
    (h1 : (DecodeAudio.parse_call L st).1 ≤ st.data_size) (h2 : st.data_size < 2 ^ 64) :
    (DecodeAudio.parsed L st).data = st.data + (DecodeAudio.parse_call L st).1.toNat ∧
    (DecodeAudio.parsed L st).data_size =
      st.data_size - (DecodeAudio.parse_call L st).1.toNat ∧
    DecodeAudio.window (DecodeAudio.parsed L st) =
      (DecodeAudio.window st).drop (DecodeAudio.parse_call L st).1.toNat := by
  set r := (DecodeAudio.parse_call L st).1 with hr
  have hle : r.toNat ≤ st.data_size := by omega
  have hsz : to_size_t ((st.data_size : Int) - r) = st.data_size - r.toNat := by
    have : ((st.data_size : Int) - r) = ((st.data_size - r.toNat : Nat) : Int) := by omega
    rw [this]
    apply to_size_t_of_nat
    omega
  have hds : (DecodeAudio.parsed L st).data_size = st.data_size - r.toNat := hsz
  refine ⟨rfl, hds, ?_⟩
  unfold DecodeAudio.window
  rw [hds]
  show bytesAt (st.inbuf.add (st.data + r.toNat)) _ = _
  rw [← ptr_add_add, bytesAt_drop _ _ _ hle]

theorem DecodeVideo.vparsed_cursor (L : DecodeVideo.Lib σ) (st : DecodeVideo.State σ)
    (h0 : 0 ≤ (DecodeVideo.parse_call L st).1)
    (h1 : (DecodeVideo.parse_call L st).1 ≤ st.data_size) (h2 : st.data_size < 2 ^ 64) :
    (DecodeVideo.parsed L st).data = st.data + (DecodeVideo.parse_call L st).1.toNat ∧
    (DecodeVideo.parsed L st).data_size =
      st.data_size - (DecodeVideo.parse_call L st).1.toNat ∧
    DecodeVideo.window (DecodeVideo.parsed L st) =
      (DecodeVideo.window st).drop (DecodeVideo.parse_call L st).1.toNat := by
  set r := (DecodeVideo.parse_call L st).1 with hr
  have hle : r.toNat ≤ st.data_size := by omega
  have hsz : to_size_t ((st.data_size : Int) - r) = st.data_size - r.toNat := by
    have : ((st.data_size : Int) - r) = ((st.data_size - r.toNat : Nat) : Int) := by omega
    rw [this]
    apply to_size_t_of_nat
    omega
  have hds : (DecodeVideo.parsed L st).data_size = st.data_size - r.toNat := hsz
  refine ⟨rfl, hds, ?_⟩
  unfold DecodeVideo.window
  rw [hds]
  show bytesAt (st.inbuf.add (st.data + r.toNat)) _ = _
  rw [← ptr_add_add, bytesAt_drop _ _ _ hle]

/-- One iteration of the feeding loop of decode_audio.c: the world after it is
that of the parser call when the packet has size 0, and that of the call of
`decode` on the packet otherwise. -/
theorem DecodeAudio.feed_iteration (L : DecodeAudio.Lib σ) (fuel : Nat)
    (st : DecodeAudio.State σ) (hd : 0 < st.data_size)
    (hp : 0 ≤ (DecodeAudio.parse_call L st).1) :
    ((DecodeAudio.parsed L st).pkt.size = 0 →
      (DecodeAudio.feed_loop L fuel 1 st).2.w = (DecodeAudio.parsed L st).w) ∧
    ((DecodeAudio.parsed L st).pkt.size ≠ 0 →
      (DecodeAudio.feed_loop L fuel 1 st).2.w =
        (DecodeAudio.decode L fuel (DecodeAudio.parsed L st).w (DecodeAudio.parsed L st).pkt).2) := by
  have hneg : ¬ (DecodeAudio.parse_call L st).1 < 0 := not_lt.mpr hp
  refine ⟨fun hz => ?_, fun hz => ?_⟩
  · rw [DecodeAudio.feed_loop, if_pos hd, if_neg hneg, if_neg (not_not.mpr hz)]
    exact (DecodeAudio.refill_world _).1
  · rw [DecodeAudio.feed_loop, if_pos hd, if_neg hneg, if_pos hz]
    rcases hres : DecodeAudio.decode L fuel (DecodeAudio.parsed L st).w
      (DecodeAudio.parsed L st).pkt with ⟨_ | r, w1⟩
    · rfl
    · dsimp only
      by_cases hr : r < 0
      · rw [if_pos hr]
      · rw [if_neg hr]
        exact (DecodeAudio.refill_world _).1

/-- One iteration of the parsing loop of decode_video.c. -/
theorem DecodeVideo.parse_iteration (L : DecodeVideo.Lib σ) (filename : String) (fuel : Nat)
    (st : DecodeVideo.State σ) (hd : 0 < st.data_size)
    (hp : 0 ≤ (DecodeVideo.parse_call L st).1) :
    ((DecodeVideo.parsed L st).pkt.size = 0 →
      (DecodeVideo.parse_loop L filename fuel 1 st).2.w = (DecodeVideo.parsed L st).w) ∧
    ((DecodeVideo.parsed L st).pkt.size ≠ 0 →
      (DecodeVideo.parse_loop L filename fuel 1 st).2.w =
        (DecodeVideo.decode L filename fuel (DecodeVideo.parsed L st).w
          (some (DecodeVideo.parsed L st).pkt)).2) := by
  have hneg : ¬ (DecodeVideo.parse_call L st).1 < 0 := not_lt.mpr hp
  refine ⟨fun hz => ?_, fun hz => ?_⟩
  · rw [DecodeVideo.parse_loop, if_pos hd, if_neg hneg, if_neg (not_not.mpr hz)]
    rfl
  · rw [DecodeVideo.parse_loop, if_pos hd, if_neg hneg, if_pos hz]
    rcases hres : DecodeVideo.decode L filename fuel (DecodeVideo.parsed L st).w
      (some (DecodeVideo.parsed L st).pkt) with ⟨_ | r, w1⟩
    · rfl
    · dsimp only
      by_cases hr : r < 0
      · rw [if_pos hr]
      · rw [if_neg hr]; rfl

theorem DecodeAudio.decode_loop_with_send (L : DecodeAudio.Lib σ)
    (send : σ → AVPacket → Int × σ) :
    ∀ (fuel : Nat) (ret : Int) (w : World σ AVFrame Sink),
      DecodeAudio.decode_loop (L.with_send send) fuel ret w =
        DecodeAudio.decode_loop L fuel ret w := by
  intro fuel
  induction fuel with
  | zero => intro _ _; rfl
  | succ n ih =>
    intro ret w
    rw [DecodeAudio.decode_loop, DecodeAudio.decode_loop]
    simp only [ih]
    rfl

theorem DecodeAudio.decode_with_send (L : DecodeAudio.Lib σ)
    (send : σ → AVPacket → Int × σ) (fuel : Nat) (w : World σ AVFrame Sink) (pkt : AVPacket)
    (h : send w.ctx pkt = L.dec.send w.ctx pkt) :
    DecodeAudio.decode (L.with_send send) fuel w pkt = DecodeAudio.decode L fuel w pkt := by
  unfold DecodeAudio.decode
  simp only [DecodeAudio.decode_loop_with_send]
  have : w.send (L.with_send send).dec pkt = w.send L.dec pkt := by
    unfold World.send
    rw [show (L.with_send send).dec.send w.ctx pkt = send w.ctx pkt from rfl, h]
  rw [this]

theorem DecodeAudio.feed_loop_with_send (L : DecodeAudio.Lib σ)
    (send : σ → AVPacket → Int × σ)
    (h : ∀ s p, p.size ≠ 0 → send s p = L.dec.send s p) (fuel : Nat) :
    ∀ (n : Nat) (st : DecodeAudio.State σ),
      DecodeAudio.feed_loop (L.with_send send) fuel n st = DecodeAudio.feed_loop L fuel n st := by
  intro n
  induction n with
  | zero => intro _; rfl
  | succ n ih =>
    intro st
    have hp : DecodeAudio.parse_call (L.with_send send) st = DecodeAudio.parse_call L st := rfl
    have hq : DecodeAudio.parsed (L.with_send send) st = DecodeAudio.parsed L st := rfl
    rw [DecodeAudio.feed_loop, DecodeAudio.feed_loop, hp, hq]
    by_cases hsz : (DecodeAudio.parsed L st).pkt.size ≠ 0
    · rw [DecodeAudio.decode_with_send L send fuel _ _ (h _ _ hsz)]
      simp only [ih]
    · simp only [if_neg hsz, ih]

theorem DecodeVideo.vdecode_loop_with_send (L : DecodeVideo.Lib σ) (filename : String)
    (send : σ → Option AVPacket → Int × σ) :
    ∀ (fuel : Nat) (ret : Int) (w : World σ AVFrame DecodeVideo.Files),
      DecodeVideo.decode_loop (L.with_send send) filename fuel ret w =
        DecodeVideo.decode_loop L filename fuel ret w := by
  intro fuel
  induction fuel with
  | zero => intro _ _; rfl
  | succ n ih =>
    intro ret w
    rw [DecodeVideo.decode_loop, DecodeVideo.decode_loop]
    simp only [ih]
    rfl

theorem DecodeVideo.vdecode_with_send (L : DecodeVideo.Lib σ) (filename : String)
    (send : σ → Option AVPacket → Int × σ) (fuel : Nat) (w : World σ AVFrame DecodeVideo.Files)
    (pkt : Option AVPacket) (h : send w.ctx pkt = L.dec.send w.ctx pkt) :
    DecodeVideo.decode (L.with_send send) filename fuel w pkt =
      DecodeVideo.decode L filename fuel w pkt := by
  unfold DecodeVideo.decode
  simp only [DecodeVideo.vdecode_loop_with_send]
  have : w.send (L.with_send send).dec pkt = w.send L.dec pkt := by
    unfold World.send
    rw [show (L.with_send send).dec.send w.ctx pkt = send w.ctx pkt from rfl, h]
  rw [this]

theorem DecodeVideo.parse_loop_with_send (L : DecodeVideo.Lib σ) (filename : String)
    (send : σ → Option AVPacket → Int × σ)
    (h : ∀ s p, p.size ≠ 0 → send s (some p) = L.dec.send s (some p)) (fuel : Nat) :
    ∀ (n : Nat) (st : DecodeVideo.State σ),
      DecodeVideo.parse_loop (L.with_send send) filename fuel n st =
        DecodeVideo.parse_loop L filename fuel n st := by
  intro n
  induction n with
  | zero => intro _; rfl
  | succ n ih =>
    intro st
    have hp : DecodeVideo.parse_call (L.with_send send) st = DecodeVideo.parse_call L st := rfl
    have hq : DecodeVideo.parsed (L.with_send send) st = DecodeVideo.parsed L st := rfl
    rw [DecodeVideo.parse_loop, DecodeVideo.parse_loop, hp, hq]
    by_cases hsz : (DecodeVideo.parsed L st).pkt.size ≠ 0
    · rw [DecodeVideo.vdecode_with_send L filename send fuel _ _ (h _ _ hsz)]
      simp only [ih]
    · simp only [if_neg hsz, ih]

theorem DecodeVideo.vfeed_loop_with_send (L : DecodeVideo.Lib σ) (filename : String)
    (send : σ → Option AVPacket → Int × σ)
    (h : ∀ s p, p.size ≠ 0 → send s (some p) = L.dec.send s (some p)) (fuel : Nat) :
    ∀ (n : Nat) (st : DecodeVideo.State σ),
      DecodeVideo.feed_loop (L.with_send send) filename fuel n st =
        DecodeVideo.feed_loop L filename fuel n st := by
  intro n
  induction n with
  | zero => intro _; rfl
  | succ n ih =>
    intro st
    rw [DecodeVideo.feed_loop, DecodeVideo.feed_loop,
      DecodeVideo.parse_loop_with_send L filename send h]
    simp only [ih]

end CursorLemmas

section ExhaustLemmas
variable {σ : Type}

theorem fread_nothing (f : InFile) (n : Nat) (hn : 0 < n) (hs : 0 ∉ f.sizes) :
    0 ∉ (fread f n).2.sizes ∧ ((fread f n).1 = [] → (fread f n).2.rest = []) ∧
    ((fread f n).2.eof = true → f.eof = false → (fread f n).2.rest = []) := by
  have hk : 0 < min n (f.sizes.headD n) := by
    rcases hq : f.sizes with _ | ⟨a, rest⟩
    · simpa using hn
    · have : a ≠ 0 := fun h0 => hs (by rw [hq, h0]; exact List.mem_cons_self _ _)
      simp only [List.headD_cons]
      omega
  refine ⟨fun h => hs (List.mem_of_mem_tail h), fun h => ?_, fun h1 h2 => ?_⟩
  · simp only [fread] at h ⊢
    rcases List.take_eq_nil_iff.mp h with h | h
    · omega
    · rw [h]; simp
  · simp only [fread, h2, Bool.false_or, decide_eq_true_eq] at h1 ⊢
    exact List.drop_eq_nil_of_le (by omega)

theorem DecodeAudio.refill_exhaust (st : DecodeAudio.State σ) (h : 0 ∉ st.infile.sizes) :
    0 ∉ (DecodeAudio.refill st).infile.sizes ∧
    ((DecodeAudio.refill st).data_size = 0 → (DecodeAudio.refill st).infile.rest = []) := by
  have hA : DecodeAudio.AUDIO_INBUF_SIZE = 20480 := rfl
  have hT : DecodeAudio.AUDIO_REFILL_THRESH = 4096 := rfl
  by_cases hlt : st.data_size < DecodeAudio.AUDIO_REFILL_THRESH
  · obtain ⟨_, hf, _⟩ := DecodeAudio.refill_window st hlt
    have hsz := DecodeAudio.refill_size st hlt
    obtain ⟨h1, h2, _⟩ := fread_nothing st.infile (DecodeAudio.AUDIO_INBUF_SIZE - st.data_size)
      (by omega) h
    rw [hf, hsz]
    refine ⟨h1, fun hz => h2 (List.length_eq_zero.mp (by omega))⟩
  · rw [DecodeAudio.refill_same st (by omega)]
    exact ⟨h, fun hz => by omega⟩

theorem DecodeAudio.first_read_exhaust (st : DecodeAudio.State σ) (h : 0 ∉ st.infile.sizes) :
    0 ∉ (DecodeAudio.first_read st).infile.sizes ∧
    ((DecodeAudio.first_read st).data_size = 0 → (DecodeAudio.first_read st).infile.rest = []) := by
  obtain ⟨h1, h2, _⟩ := fread_nothing st.infile DecodeAudio.AUDIO_INBUF_SIZE (by decide) h
  exact ⟨h1, fun hz => h2 (List.length_eq_zero.mp hz)⟩

theorem DecodeAudio.feed_loop_exhausts (L : DecodeAudio.Lib σ) (fuel n : Nat)
    (st : DecodeAudio.State σ)
    (h : 0 ∉ st.infile.sizes ∧ (st.data_size = 0 → st.infile.rest = []))
    (hf : (DecodeAudio.feed_loop L fuel n st).1 = Outcome.finished) :
    (DecodeAudio.feed_loop L fuel n st).2.data_size = 0 ∧
    (DecodeAudio.feed_loop L fuel n st).2.infile.rest = [] := by
  obtain ⟨⟨_, h1⟩, h2⟩ := (DecodeAudio.feed_loop_rule L fuel
    (fun st => 0 ∉ st.infile.sizes ∧ (st.data_size = 0 → st.infile.rest = []))
    (fun _ => True) (fun _ _ => trivial) (fun _ _ _ _ => trivial)
    (fun st h _ _ _ => ⟨trivial, fun _ _ _ => DecodeAudio.refill_exhaust _ h.1⟩)
    (fun st h _ _ _ => DecodeAudio.refill_exhaust _ h.1) n st h).2 hf
  exact ⟨h2, h1 h2⟩

/-- The flush call of `main` of decode_audio.c: made once, after a feeding loop
that finished, when no byte is left in the window or in the file; not made at
all otherwise. -/
theorem DecodeAudio.main_flush (L : DecodeAudio.Lib σ) (fuel : Nat) (st : DecodeAudio.State σ) :
    ((DecodeAudio.feed_loop L fuel fuel (DecodeAudio.first_read st)).1 = Outcome.finished →
      (DecodeAudio.main L fuel st).2.w =
        (DecodeAudio.decode L fuel (DecodeAudio.feed_loop L fuel fuel (DecodeAudio.first_read st)).2.w
          { (DecodeAudio.feed_loop L fuel fuel (DecodeAudio.first_read st)).2.pkt with
              data := none, size := 0 }).2 ∧
      (DecodeAudio.feed_loop L fuel fuel (DecodeAudio.first_read st)).2.data_size = 0 ∧
      (0 ∉ st.infile.sizes →
        (DecodeAudio.feed_loop L fuel fuel (DecodeAudio.first_read st)).2.infile.rest = [])) ∧
    ((DecodeAudio.feed_loop L fuel fuel (DecodeAudio.first_read st)).1 ≠ Outcome.finished →
      DecodeAudio.main L fuel st =
        DecodeAudio.feed_loop L fuel fuel (DecodeAudio.first_read st)) := by
  refine ⟨fun hf => ?_, fun hf => ?_⟩
  · refine ⟨?_, ?_, fun hs => ?_⟩
    · unfold DecodeAudio.main
      rcases hres : DecodeAudio.feed_loop L fuel fuel (DecodeAudio.first_read st) with ⟨o, st1⟩
      rw [hres] at hf
      cases hf
      dsimp only
      rcases hdec : DecodeAudio.decode L fuel st1.w { st1.pkt with data := none, size := 0 }
        with ⟨_ | r, w1⟩ <;> rfl
    · exact ((DecodeAudio.feed_loop_rule L fuel (fun _ => True) (fun _ => True)
        (fun _ _ => trivial) (fun _ _ _ _ => trivial)
        (fun _ _ _ _ _ => ⟨trivial, fun _ _ _ => trivial⟩)
        (fun _ _ _ _ _ => trivial) fuel _ trivial).2 hf).2
    · exact (DecodeAudio.feed_loop_exhausts L fuel fuel _
        (DecodeAudio.first_read_exhaust st hs) hf).2
  · unfold DecodeAudio.main
    rcases hres : DecodeAudio.feed_loop L fuel fuel (DecodeAudio.first_read st) with ⟨o, st1⟩
    rw [hres] at hf
    cases o with
    | finished => exact absurd rfl hf
    | timeout => rfl
    | exited code => rfl
    | jumped => rfl

theorem DecodeVideo.parse_loop_fd (L : DecodeVideo.Lib σ) (filename : String) (fuel : Nat) :
    ∀ (n : Nat) (st : DecodeVideo.State σ),
      (DecodeVideo.parse_loop L filename fuel n st).2.fd = st.fd := by
  intro n
  induction n with
  | zero => intro _; rfl
  | succ n ih =>
    intro st
    rw [DecodeVideo.parse_loop]
    split_ifs
    · rfl
    · rcases hres : DecodeVideo.decode L filename fuel (DecodeVideo.parsed L st).w
        (some (DecodeVideo.parsed L st).pkt) with ⟨_ | r, w1⟩
      · rfl
      · dsimp only
        split_ifs
        · rfl
        · rw [ih]; rfl
    · rw [ih]; rfl
    · rfl

theorem DecodeVideo.vfeed_loop_exhausts (L : DecodeVideo.Lib σ) (filename : String)
    (fuel : Nat) :
    ∀ (n : Nat) (st : DecodeVideo.State σ),
      0 ∉ st.fd.sizes → (st.fd.eof = true → st.fd.rest = []) →
      (DecodeVideo.feed_loop L filename fuel n st).1 = Outcome.finished →
      (DecodeVideo.feed_loop L filename fuel n st).2.fd.rest = [] := by
  intro n
  induction n with
  | zero => intro st _ _ hf; simp [DecodeVideo.feed_loop] at hf
  | succ n ih =>
    intro st hs he hf
    rw [DecodeVideo.feed_loop] at hf ⊢
    by_cases hE : st.fd.eof = false
    · rw [if_pos hE] at hf ⊢
      obtain ⟨h1, h2, h3⟩ := fread_nothing st.fd DecodeVideo.INBUF_SIZE (by decide) hs
      by_cases hd : (DecodeVideo.read_chunk st).data_size = 0
      · rw [if_pos hd]
        exact h2 (List.length_eq_zero.mp hd)
      · rw [if_neg hd] at hf ⊢
        have hfd := DecodeVideo.parse_loop_fd L filename fuel fuel
          { DecodeVideo.read_chunk st with data := 0 }
        rcases hres : DecodeVideo.parse_loop L filename fuel fuel
          { DecodeVideo.read_chunk st with data := 0 } with ⟨o, st2⟩
        rw [hres] at hf hfd
        have hfd2 : st2.fd = (fread st.fd DecodeVideo.INBUF_SIZE).2 := hfd
        cases o with
        | finished =>
          exact ih st2 (by rw [hfd2]; exact h1) (by rw [hfd2]; exact fun h => h3 h hE) hf
        | timeout => simp at hf
        | exited code => simp at hf
        | jumped => simp at hf
    · rw [if_neg hE]
      exact he (by simpa using hE)

/-- The flush call of `main` of decode_video.c: made once, after a feeding loop
that finished, when no byte is left in the file; not made at all otherwise. -/
theorem DecodeVideo.vmain_flush (L : DecodeVideo.Lib σ) (filename : String) (fuel : Nat)
    (st : DecodeVideo.State σ) :
    ((DecodeVideo.feed_loop L filename fuel fuel st).1 = Outcome.finished →
      (DecodeVideo.main L filename fuel st).2.w =
        (DecodeVideo.decode L filename fuel (DecodeVideo.feed_loop L filename fuel fuel st).2.w
          none).2 ∧
      (0 ∉ st.fd.sizes → st.fd.eof = false →
        (DecodeVideo.feed_loop L filename fuel fuel st).2.fd.rest = [])) ∧
    ((DecodeVideo.feed_loop L filename fuel fuel st).1 ≠ Outcome.finished →
      DecodeVideo.main L filename fuel st = DecodeVideo.feed_loop L filename fuel fuel st) := by
  refine ⟨fun hf => ⟨?_, fun hs he => ?_⟩, fun hf => ?_⟩
  · unfold DecodeVideo.main
    rcases hres : DecodeVideo.feed_loop L filename fuel fuel st with ⟨o, st1⟩
    rw [hres] at hf
    cases hf
    dsimp only
    rcases hdec : DecodeVideo.decode L filename fuel st1.w none with ⟨_ | r, w1⟩ <;> rfl
  · exact DecodeVideo.vfeed_loop_exhausts L filename fuel fuel st hs
      (fun h => by rw [he] at h; cases h) hf
  · unfold DecodeVideo.main
    rcases hres : DecodeVideo.feed_loop L filename fuel fuel st with ⟨o, st1⟩
    rw [hres] at hf
    cases o with
    | finished => exact absurd rfl hf
    | timeout => rfl
    | exited code => rfl
    | jumped => rfl

end ExhaustLemmas

/-- C11: the refill step of the feeding loop of decode_audio.c acts exactly
when the unconsumed residual `data_size` is below `AUDIO_REFILL_THRESH`, which
is 4096.  With at least 4096 bytes left the step changes nothing.  Below 4096
it moves the cursor back to the start of the buffer and reads the file once,
and the window becomes the old window followed by the bytes read.  Every
iteration that goes on to the next one ends with this step.  Consequently, for
an input file whose reads are never cut short and a parser that respects its
contract, every parser call that `main` makes (the first included) is offered
at least 4096 bytes, or else everything that is left of the input. -/
theorem C11_refill_below_threshold :
    DecodeAudio.AUDIO_REFILL_THRESH = 4096 ∧
    (∀ {σ : Type} (st : DecodeAudio.State σ),
      DecodeAudio.AUDIO_REFILL_THRESH ≤ st.data_size → DecodeAudio.refill st = st) ∧
    (∀ {σ : Type} (st : DecodeAudio.State σ),
      st.data_size < DecodeAudio.AUDIO_REFILL_THRESH →
      (DecodeAudio.refill st).data = 0 ∧
      (DecodeAudio.refill st).infile =
        (fread st.infile (DecodeAudio.AUDIO_INBUF_SIZE - st.data_size)).2 ∧
      DecodeAudio.window (DecodeAudio.refill st) =
        DecodeAudio.window st ++
          (fread st.infile (DecodeAudio.AUDIO_INBUF_SIZE - st.data_size)).1) ∧
    (∀ {σ : Type} (L : DecodeAudio.Lib σ) (fuel n : Nat) (st : DecodeAudio.State σ),
      0 < st.data_size → 0 ≤ (DecodeAudio.parse_call L st).1 →
      ((DecodeAudio.parsed L st).pkt.size = 0 →
        DecodeAudio.feed_loop L fuel (n + 1) st =
          DecodeAudio.feed_loop L fuel n (DecodeAudio.refill (DecodeAudio.parsed L st))) ∧
      ((DecodeAudio.parsed L st).pkt.size ≠ 0 →
        ∀ r, (DecodeAudio.decode L fuel (DecodeAudio.parsed L st).w
            (DecodeAudio.parsed L st).pkt).1 = some r → 0 ≤ r →
          DecodeAudio.feed_loop L fuel (n + 1) st =
            DecodeAudio.feed_loop L fuel n (DecodeAudio.refill
              { DecodeAudio.parsed L st with
                  w := (DecodeAudio.decode L fuel (DecodeAudio.parsed L st).w
                    (DecodeAudio.parsed L st).pkt).2 }))) ∧
    (∀ {σ : Type} (L : DecodeAudio.Lib σ), ParserContract L.av_parser_parse2 →
      ∀ (fuel : Nat) (st : DecodeAudio.State σ),
        st.infile.sizes = [] → st.w.calls = [] →
        DecodeAudio.WellFed st.infile.rest (DecodeAudio.main L fuel st).2.w.calls) := by
  refine ⟨rfl, fun st h => DecodeAudio.refill_same st h,
    fun st h => DecodeAudio.refill_window st h, ?_,
    fun L hc fuel st hs h0 => DecodeAudio.main_parser_calls L hc fuel st hs h0⟩
  intro σ L fuel n st hd hp
  have hneg : ¬ (DecodeAudio.parse_call L st).1 < 0 := not_lt.mpr hp
  refine ⟨fun hz => ?_, fun hz r hr h0 => ?_⟩
  · rw [DecodeAudio.feed_loop, if_pos hd, if_neg hneg, if_neg (not_not.mpr hz)]
  · rw [DecodeAudio.feed_loop, if_pos hd, if_neg hneg, if_pos hz]
    rcases hres : DecodeAudio.decode L fuel (DecodeAudio.parsed L st).w
      (DecodeAudio.parsed L st).pkt with ⟨o, w1⟩
    rw [hres] at hr
    cases hr
    dsimp only
    rw [if_neg (not_lt.mpr h0)]

/-- C11, evaluated: a state with 5000 unconsumed bytes is left alone; a state
with no unconsumed byte and the input `[1, 2, 3]` is refilled to the window
`[1, 2, 3]`; and on an input of 30000 bytes every parser call of `main` is
offered 4096 bytes or all that is left. -/
theorem C11_refill_below_threshold_witness :
    DecodeAudio.refill { toyAudioState (toy0 false) [1, 2, 3] [] with data_size := 5000 } =
      { toyAudioState (toy0 false) [1, 2, 3] [] with data_size := 5000 } ∧
    DecodeAudio.window (DecodeAudio.refill (toyAudioState (toy0 false) [1, 2, 3] [])) =
      [1, 2, 3] ∧
    DecodeAudio.WellFed (List.replicate 30000 7)
      (DecodeAudio.main toyAudioLib 9
        (toyAudioState (toy0 false) (List.replicate 30000 7) [])).2.w.calls := by
  have h1 := C11_refill_below_threshold.2.1
    { toyAudioState (toy0 false) [1, 2, 3] [] with data_size := 5000 } (by decide)
  have h2 := (C11_refill_below_threshold.2.2.1 (toyAudioState (toy0 false) [1, 2, 3] [])
    (by decide)).2.2
  have h3 := C11_refill_below_threshold.2.2.2.2 toyAudioLib toyParse_contract 9
    (toyAudioState (toy0 false) (List.replicate 30000 7) []) rfl rfl
  exact ⟨h1, h2.trans (by decide), h3⟩

/-- C12: in the feeding loops of decode_audio.c and decode_video.c, (1) after a
parser call that returns `ret` with `0 ≤ ret ≤ data_size`, the cursor `data`
is `ret` further, `data_size` is `ret` less, and the window is the old window
without its first `ret` bytes; (2) in an iteration whose parser call succeeds,
nothing is submitted when the packet has size 0 (the world after the iteration
is that of the parser call), and `decode` is called on the packet when its size
is not 0; (3) the whole loop is the same for every other submission function
that agrees with the decoder's on packets of non-zero size, so the loop never
submits a packet of size 0; (4) when the loop finishes, `main` calls `decode`
once with the flush signal, with no byte left in the window and, for a file
whose reads deliver at least one byte while bytes are left, none left in the
file; when the loop ends in another way, `main` makes no flush call. -/
theorem C12_flush_only_after_the_feeding_loop :
    (∀ {σ : Type} (L : DecodeAudio.Lib σ) (st : DecodeAudio.State σ),
      0 ≤ (DecodeAudio.parse_call L st).1 →
      (DecodeAudio.parse_call L st).1 ≤ st.data_size → st.data_size < 2 ^ 64 →
      (DecodeAudio.parsed L st).data = st.data + (DecodeAudio.parse_call L st).1.toNat ∧
      (DecodeAudio.parsed L st).data_size =
        st.data_size - (DecodeAudio.parse_call L st).1.toNat ∧
      DecodeAudio.window (DecodeAudio.parsed L st) =
        (DecodeAudio.window st).drop (DecodeAudio.parse_call L st).1.toNat) ∧
    (∀ {σ : Type} (L : DecodeVideo.Lib σ) (st : DecodeVideo.State σ),
      0 ≤ (DecodeVideo.parse_call L st).1 →
      (DecodeVideo.parse_call L st).1 ≤ st.data_size → st.data_size < 2 ^ 64 →
      (DecodeVideo.parsed L st).data = st.data + (DecodeVideo.parse_call L st).1.toNat ∧
      (DecodeVideo.parsed L st).data_size =
        st.data_size - (DecodeVideo.parse_call L st).1.toNat ∧
      DecodeVideo.window (DecodeVideo.parsed L st) =
        (DecodeVideo.window st).drop (DecodeVideo.parse_call L st).1.toNat) ∧
    (∀ {σ : Type} (L : DecodeAudio.Lib σ) (fuel : Nat) (st : DecodeAudio.State σ),
      0 < st.data_size → 0 ≤ (DecodeAudio.parse_call L st).1 →
      ((DecodeAudio.parsed L st).pkt.size = 0 →
        (DecodeAudio.feed_loop L fuel 1 st).2.w = (DecodeAudio.parsed L st).w) ∧
      ((DecodeAudio.parsed L st).pkt.size ≠ 0 →
        (DecodeAudio.feed_loop L fuel 1 st).2.w =
          (DecodeAudio.decode L fuel (DecodeAudio.parsed L st).w
            (DecodeAudio.parsed L st).pkt).2)) ∧
    (∀ {σ : Type} (L : DecodeVideo.Lib σ) (filename : String) (fuel : Nat)
        (st : DecodeVideo.State σ),
      0 < st.data_size → 0 ≤ (DecodeVideo.parse_call L st).1 →
      ((DecodeVideo.parsed L st).pkt.size = 0 →
        (DecodeVideo.parse_loop L filename fuel 1 st).2.w = (DecodeVideo.parsed L st).w) ∧
      ((DecodeVideo.parsed L st).pkt.size ≠ 0 →
        (DecodeVideo.parse_loop L filename fuel 1 st).2.w =
          (DecodeVideo.decode L filename fuel (DecodeVideo.parsed L st).w
            (some (DecodeVideo.parsed L st).pkt)).2)) ∧
    (∀ {σ : Type} (L : DecodeAudio.Lib σ) (send : σ → AVPacket → Int × σ),
      (∀ s p, p.size ≠ 0 → send s p = L.dec.send s p) →
      ∀ (fuel n : Nat) (st : DecodeAudio.State σ),
        DecodeAudio.feed_loop (L.with_send send) fuel n st = DecodeAudio.feed_loop L fuel n st) ∧
    (∀ {σ : Type} (L : DecodeVideo.Lib σ) (filename : String)
        (send : σ → Option AVPacket → Int × σ),
      (∀ s p, p.size ≠ 0 → send s (some p) = L.dec.send s (some p)) →
      ∀ (fuel n : Nat) (st : DecodeVideo.State σ),
        DecodeVideo.feed_loop (L.with_send send) filename fuel n st =
          DecodeVideo.feed_loop L filename fuel n st) ∧
    (∀ {σ : Type} (L : DecodeAudio.Lib σ) (fuel : Nat) (st : DecodeAudio.State σ),
      ((DecodeAudio.feed_loop L fuel fuel (DecodeAudio.first_read st)).1 = Outcome.finished →
        (DecodeAudio.main L fuel st).2.w =
          (DecodeAudio.decode L fuel
            (DecodeAudio.feed_loop L fuel fuel (DecodeAudio.first_read st)).2.w
            { (DecodeAudio.feed_loop L fuel fuel (DecodeAudio.first_read st)).2.pkt with
                data := none, size := 0 }).2 ∧
        (DecodeAudio.feed_loop L fuel fuel (DecodeAudio.first_read st)).2.data_size = 0 ∧
        (0 ∉ st.infile.sizes →
          (DecodeAudio.feed_loop L fuel fuel (DecodeAudio.first_read st)).2.infile.rest = [])) ∧
      ((DecodeAudio.feed_loop L fuel fuel (DecodeAudio.first_read st)).1 ≠ Outcome.finished →
        DecodeAudio.main L fuel st =
          DecodeAudio.feed_loop L fuel fuel (DecodeAudio.first_read st))) ∧
    (∀ {σ : Type} (L : DecodeVideo.Lib σ) (filename : String) (fuel : Nat)
        (st : DecodeVideo.State σ),
      ((DecodeVideo.feed_loop L filename fuel fuel st).1 = Outcome.finished →
        (DecodeVideo.main L filename fuel st).2.w =
          (DecodeVideo.decode L filename fuel
            (DecodeVideo.feed_loop L filename fuel fuel st).2.w none).2 ∧
        (0 ∉ st.fd.sizes → st.fd.eof = false →
          (DecodeVideo.feed_loop L filename fuel fuel st).2.fd.rest = [])) ∧
      ((DecodeVideo.feed_loop L filename fuel fuel st).1 ≠ Outcome.finished →
        DecodeVideo.main L filename fuel st =
          DecodeVideo.feed_loop L filename fuel fuel st)) :=
  ⟨fun L st h0 h1 h2 => DecodeAudio.parsed_cursor L st h0 h1 h2,
   fun L st h0 h1 h2 => DecodeVideo.vparsed_cursor L st h0 h1 h2,
   fun L fuel st hd hp => DecodeAudio.feed_iteration L fuel st hd hp,
   fun L filename fuel st hd hp => DecodeVideo.parse_iteration L filename fuel st hd hp,
   fun L send h fuel n st => DecodeAudio.feed_loop_with_send L send h fuel n st,
   fun L filename send h fuel n st => DecodeVideo.vfeed_loop_with_send L filename send h fuel n st,
   fun L fuel st => DecodeAudio.main_flush L fuel st,
   fun L filename fuel st => DecodeVideo.vmain_flush L filename fuel st⟩

/-- C12, evaluated on the input `[1, 2, 3]` with the example parser, which
consumes two bytes per call: after the first parser call the window is `[3]`;
the first iteration calls `decode` on a packet of size 2; the feeding loops
are the same with a decoder that refuses the flush signal; and the loops
finish with no byte left in the file before `main` makes its flush call. -/
theorem C12_flush_only_after_the_feeding_loop_witness :
    (DecodeAudio.window (DecodeAudio.parsed toyAudioLib
        (DecodeAudio.first_read (toyAudioState (toy0 true) [1, 2, 3] []))) = [3] ∧
      DecodeVideo.window (DecodeVideo.parsed toyVideoLib
        { DecodeVideo.read_chunk (toyVideoState (toy0 true) [1, 2, 3] []) with data := 0 }) =
          [3]) ∧
    ((DecodeAudio.feed_loop toyAudioLib 9 1
        (DecodeAudio.first_read (toyAudioState (toy0 true) [1, 2, 3] []))).2.w.calls =
        [Call.parse [1, 2, 3] 2, Call.send 0, Call.receive (-11) (toyFrame [])] ∧
      (DecodeVideo.parse_loop toyVideoLib "out" 9 1
        { DecodeVideo.read_chunk (toyVideoState (toy0 true) [1, 2, 3] []) with
            data := 0 }).2.w.calls =
        [Call.parse [1, 2, 3] 2, Call.send 0, Call.receive (-11) (toyFrame [])]) ∧
    (DecodeAudio.feed_loop (toyAudioLib.with_send toyNoFlushSend) 9 9
        (DecodeAudio.first_read (toyAudioState (toy0 true) [1, 2, 3] [])) =
      DecodeAudio.feed_loop toyAudioLib 9 9
        (DecodeAudio.first_read (toyAudioState (toy0 true) [1, 2, 3] [])) ∧
     DecodeVideo.feed_loop (toyVideoLib.with_send toyNoFlushSendNull) "out" 9 9
        (toyVideoState (toy0 true) [1, 2, 3] []) =
      DecodeVideo.feed_loop toyVideoLib "out" 9 9 (toyVideoState (toy0 true) [1, 2, 3] [])) ∧
    ((DecodeAudio.feed_loop toyAudioLib 9 9
        (DecodeAudio.first_read (toyAudioState (toy0 true) [1, 2, 3] []))).2.infile.rest = [] ∧
      (DecodeVideo.feed_loop toyVideoLib "out" 9 9
        (toyVideoState (toy0 true) [1, 2, 3] [])).2.fd.rest = []) := by
  have a1 := (C12_flush_only_after_the_feeding_loop.1 toyAudioLib
    (DecodeAudio.first_read (toyAudioState (toy0 true) [1, 2, 3] []))
    (by decide) (by decide) (by decide)).2.2
  have a2 := (C12_flush_only_after_the_feeding_loop.2.1 toyVideoLib
    { DecodeVideo.read_chunk (toyVideoState (toy0 true) [1, 2, 3] []) with data := 0 }
    (by decide) (by decide) (by decide)).2.2
  have b1 := (C12_flush_only_after_the_feeding_loop.2.2.1 toyAudioLib 9
    (DecodeAudio.first_read (toyAudioState (toy0 true) [1, 2, 3] []))
    (by decide) (by decide)).2 (by decide)
  have b2 := (C12_flush_only_after_the_feeding_loop.2.2.2.1 toyVideoLib "out" 9
    { DecodeVideo.read_chunk (toyVideoState (toy0 true) [1, 2, 3] []) with data := 0 }
    (by decide) (by decide)).2 (by decide)
  have c1 := C12_flush_only_after_the_feeding_loop.2.2.2.2.1 toyAudioLib toyNoFlushSend
    (fun s p hp => by simp [toyNoFlushSend, toyAudioLib, hp]) 9 9
    (DecodeAudio.first_read (toyAudioState (toy0 true) [1, 2, 3] []))
  have c2 := C12_flush_only_after_the_feeding_loop.2.2.2.2.2.1 toyVideoLib "out"
    toyNoFlushSendNull
    (fun s p hp => by simp [toyNoFlushSendNull, toyVideoLib, hp]) 9 9
    (toyVideoState (toy0 true) [1, 2, 3] [])
  have d1 := ((C12_flush_only_after_the_feeding_loop.2.2.2.2.2.2.1 toyAudioLib 9
    (toyAudioState (toy0 true) [1, 2, 3] [])).1 (by decide)).2.2 (by simp [toyAudioState])
  have d2 := ((C12_flush_only_after_the_feeding_loop.2.2.2.2.2.2.2 toyVideoLib "out" 9
    (toyVideoState (toy0 true) [1, 2, 3] [])).1 (by decide)).2 (by simp [toyVideoState]) rfl
  exact ⟨⟨a1.trans (by decide), a2.trans (by decide)⟩,
    ⟨(congrArg (fun w => w.calls) b1).trans rfl,
     (congrArg (fun w => w.calls) b2).trans rfl⟩, ⟨c1, c2⟩, ⟨d1, d2⟩⟩

/-- C20, counterexample: with every set-up call succeeding and a parser that
fails on the input `[1, 2, 3]`, `main` of decode_audio.c ends by `exit(1)`
after acquiring all six resources and releases none of them.  When the
output file cannot be opened, the codec context is released twice: by
`av_free(codec_ctx)` and again by `avcodec_free_context(&codec_ctx)` at the
label `end`.  Neither trace releases each acquired resource exactly once. -/
theorem C20_exit_path_releases_nothing :
    DecodeAudio.main_resources toyBadParseLib 9 toySetup (toyAudioState (toy0 true) [1, 2, 3] []) =
      (Outcome.exited 1,
       [DecodeAudio.Event.acquire DecodeAudio.Resource.pkt,
        DecodeAudio.Event.acquire DecodeAudio.Resource.parser_ctx,
        DecodeAudio.Event.acquire DecodeAudio.Resource.codec_ctx,
        DecodeAudio.Event.acquire DecodeAudio.Resource.infile,
        DecodeAudio.Event.acquire DecodeAudio.Resource.outfile,
        DecodeAudio.Event.acquire DecodeAudio.Resource.decoded_frame]) ∧
    ¬ DecodeAudio.ReleasedInReverse
      (DecodeAudio.main_resources toyBadParseLib 9 toySetup
        (toyAudioState (toy0 true) [1, 2, 3] [])).2 ∧
    DecodeAudio.released
      (DecodeAudio.main_resources toyAudioLib 9 { toySetup with fopen_outfile := false }
        (toyAudioState (toy0 true) [1, 2, 3] [])).2 =
      [DecodeAudio.Resource.codec_ctx, DecodeAudio.Resource.infile,
       DecodeAudio.Resource.codec_ctx, DecodeAudio.Resource.parser_ctx,
       DecodeAudio.Resource.pkt] ∧
    ¬ DecodeAudio.ReleasedInReverse
      (DecodeAudio.main_resources toyAudioLib 9 { toySetup with fopen_outfile := false }
        (toyAudioState (toy0 true) [1, 2, 3] [])).2 := by
  refine ⟨by decide, by decide, by decide, by decide⟩

/-- C20, as amended: on every path of `main` of decode_audio.c that reaches
the label `end` (by a `goto end` or by running to it), other than the path
after the failure to open the output file, the trace consists of the
acquisitions made so far followed by one release of each acquired resource, in
reverse acquisition order; on the paths that end in `exit(1)` (failure to
allocate the packet or the frame, parser error) `main` releases nothing. -/
theorem C20_resources_released_in_reverse_at_end {σ : Type} (L : DecodeAudio.Lib σ)
    (fuel : Nat) (su : DecodeAudio.Setup) (st : DecodeAudio.State σ) :
    (((DecodeAudio.main_resources L fuel su st).1 = Outcome.jumped ∨
        (DecodeAudio.main_resources L fuel su st).1 = Outcome.finished) →
      ¬ (su.av_packet_alloc = true ∧ su.avcodec_find_decoder = true ∧
          su.av_parser_init = true ∧ su.avcodec_alloc_context3 = true ∧
          su.avcodec_open2 = true ∧ su.fopen_infile = true ∧ su.fopen_outfile = false) →
      DecodeAudio.ReleasedInReverse (DecodeAudio.main_resources L fuel su st).2) ∧
    (∀ code, (DecodeAudio.main_resources L fuel su st).1 = Outcome.exited code →
      DecodeAudio.released (DecodeAudio.main_resources L fuel su st).2 = []) := by
  obtain ⟨a, b, c, d, e, f, g, h, i⟩ := su
  unfold DecodeAudio.main_resources
  dsimp only
  cases a
  · rw [if_pos rfl]
    exact ⟨fun ho _ => by simp at ho, fun _ _ => rfl⟩
  rw [if_neg (by decide)]
  cases b
  · rw [if_pos rfl]
    exact ⟨fun _ _ => by decide, fun _ ho => by simp at ho⟩
  rw [if_neg (by decide)]
  cases c
  · rw [if_pos rfl]
    exact ⟨fun _ _ => by decide, fun _ ho => by simp at ho⟩
  rw [if_neg (by decide)]
  cases d
  · rw [if_pos rfl]
    exact ⟨fun _ _ => by decide, fun _ ho => by simp at ho⟩
  rw [if_neg (by decide)]
  cases e
  · rw [if_pos rfl]
    exact ⟨fun _ _ => by decide, fun _ ho => by simp at ho⟩
  rw [if_neg (by decide)]
  cases f
  · rw [if_pos rfl]
    exact ⟨fun _ _ => by decide, fun _ ho => by simp at ho⟩
  rw [if_neg (by decide)]
  cases g
  · rw [if_pos rfl]
    exact ⟨fun _ hn => absurd ⟨rfl, rfl, rfl, rfl, rfl, rfl, rfl⟩ hn, fun _ ho => by simp at ho⟩
  rw [if_neg (by decide)]
  by_cases hfa : h = false ∧
      0 < (DecodeAudio.first_read { st with decoded_frame := false }).data_size
  · rw [if_pos hfa]
    exact ⟨fun ho _ => by simp at ho, fun _ _ => by decide⟩
  · rw [if_neg hfa]
    rcases hres : DecodeAudio.main L fuel { st with decoded_frame := false } with ⟨o, st1⟩
    cases o with
    | timeout =>
      refine ⟨fun ho _ => by simp at ho, fun _ ho => by simp at ho⟩
    | exited code =>
      refine ⟨fun ho _ => by simp at ho, fun _ _ => ?_⟩
      dsimp only
      unfold DecodeAudio.frame_event
      cases st1.decoded_frame <;> decide
    | jumped =>
      refine ⟨fun _ _ => ?_, fun _ ho => by simp at ho⟩
      dsimp only
      unfold DecodeAudio.frame_event
      cases st1.decoded_frame <;> decide
    | finished =>
      refine ⟨fun _ _ => ?_, fun _ ho => ?_⟩
      · dsimp only
        unfold DecodeAudio.frame_event
        cases st1.decoded_frame <;> decide
      · dsimp only at ho
        cases i <;> simp at ho

/-- C20 as amended, evaluated: a run on the input `[1, 2, 3]` in which every
call succeeds acquires the six resources and releases them in reverse order;
a run whose parser fails ends in `exit(1)` and releases nothing. -/
theorem C20_resources_released_in_reverse_at_end_witness :
    (DecodeAudio.main_resources toyAudioLib 9 toySetup
        (toyAudioState (toy0 true) [1, 2, 3] [])).2 =
      [DecodeAudio.Event.acquire DecodeAudio.Resource.pkt,
       DecodeAudio.Event.acquire DecodeAudio.Resource.parser_ctx,
       DecodeAudio.Event.acquire DecodeAudio.Resource.codec_ctx,
       DecodeAudio.Event.acquire DecodeAudio.Resource.infile,
       DecodeAudio.Event.acquire DecodeAudio.Resource.outfile,
       DecodeAudio.Event.acquire DecodeAudio.Resource.decoded_frame,
       DecodeAudio.Event.release DecodeAudio.Resource.decoded_frame,
       DecodeAudio.Event.release DecodeAudio.Resource.outfile,
       DecodeAudio.Event.release DecodeAudio.Resource.infile,
       DecodeAudio.Event.release DecodeAudio.Resource.codec_ctx,
       DecodeAudio.Event.release DecodeAudio.Resource.parser_ctx,
       DecodeAudio.Event.release DecodeAudio.Resource.pkt] ∧
    DecodeAudio.ReleasedInReverse
      (DecodeAudio.main_resources toyAudioLib 9 toySetup
        (toyAudioState (toy0 true) [1, 2, 3] [])).2 ∧
    DecodeAudio.released
      (DecodeAudio.main_resources toyBadParseLib 9 toySetup
        (toyAudioState (toy0 true) [1, 2, 3] [])).2 = [] := by
  have h1 := (C20_resources_released_in_reverse_at_end toyAudioLib 9 toySetup
    (toyAudioState (toy0 true) [1, 2, 3] [])).1 (Or.inr (by decide)) (by decide)
  have h2 := (C20_resources_released_in_reverse_at_end toyBadParseLib 9 toySetup
    (toyAudioState (toy0 true) [1, 2, 3] [])).2 1 (by decide)
  exact ⟨by decide, h1, h2⟩

section PgmLemmas

theorem DecodeVideo.pgm_save_eq (buf : Ptr) (wrap xsize ysize : Int) :
    DecodeVideo.pgm_save buf wrap xsize ysize =
      DecodeVideo.str_bytes ("P5\n" ++ toString xsize ++ " " ++ toString ysize ++ "\n" ++
          toString 255 ++ "\n") ::
        (List.range ysize.toNat).map
          (fun (i : Nat) => bytesAt (buf.add ((i : Int) * wrap).toNat) (to_size_t xsize)) := by
  unfold DecodeVideo.pgm_save
  rw [foldl_coe]
  exact foldl_fwrite (fun (i : Nat) => buf.add ((i : Int) * wrap).toNat) _ _ _

theorem bytesAt_eq_map (p : Ptr) (k n : Nat) :
    bytesAt (p.add k) n = (List.range n).map (fun j => p (k + j)) := rfl

end PgmLemmas

/-- C29: for an image of `xsize` by `ysize` with `0 ≤ xsize ≤ wrap` (and
`xsize` an `int`), `pgm_save` writes the header `"P5\n<xsize> <ysize>\n255\n"`
followed by exactly `ysize` writes, one per row, row `i` being the `xsize`
bytes `buf[i * wrap + j]` with `j < xsize`; every position read lies before
the start of the next row, so the bytes of the stride padding are not written,
and the payload has `xsize * ysize` bytes. -/
theorem C29_pgm_save_writes_header_and_rows (buf : Ptr) (wrap xsize ysize : Int)
    (h0 : 0 ≤ xsize) (h1 : xsize ≤ wrap) (h2 : xsize < 2 ^ 31) :
    DecodeVideo.pgm_save buf wrap xsize ysize =
      DecodeVideo.str_bytes ("P5\n" ++ toString xsize ++ " " ++ toString ysize ++ "\n255\n") ::
        (List.range ysize.toNat).map
          (fun i => (List.range xsize.toNat).map (fun j => buf (i * wrap.toNat + j))) ∧
    (∀ i j : Nat, j < xsize.toNat → i * wrap.toNat + j < (i + 1) * wrap.toNat) ∧
    (DecodeVideo.pgm_save buf wrap xsize ysize).length = 1 + ysize.toNat ∧
    (Sink.bytes (DecodeVideo.pgm_save buf wrap xsize ysize).tail).length =
      xsize.toNat * ysize.toNat := by
  have hsz : to_size_t xsize = xsize.toNat := to_size_t_of_nonneg xsize h0 (by omega)
  have hw : 0 ≤ wrap := le_trans h0 h1
  have hrow : ∀ i : Nat, ((i : Int) * wrap).toNat = i * wrap.toNat := by
    intro i
    have : (i : Int) * wrap = ((i * wrap.toNat : Nat) : Int) := by
      push_cast; rw [Int.toNat_of_nonneg hw]
    rw [this, Int.toNat_natCast]
  have hhead : "P5\n" ++ toString xsize ++ " " ++ toString ysize ++ "\n" ++ toString 255 ++ "\n" =
      "P5\n" ++ toString xsize ++ " " ++ toString ysize ++ "\n255\n" := by
    rw [show toString 255 = "255" from rfl, String.append_assoc, String.append_assoc]
    rfl
  have heq : DecodeVideo.pgm_save buf wrap xsize ysize =
      DecodeVideo.str_bytes ("P5\n" ++ toString xsize ++ " " ++ toString ysize ++ "\n255\n") ::
        (List.range ysize.toNat).map
          (fun i => (List.range xsize.toNat).map (fun j => buf (i * wrap.toNat + j))) := by
    rw [DecodeVideo.pgm_save_eq, hhead]
    congr 1
    apply List.map_congr_left
    intro i _
    rw [hsz, hrow]
    rfl
  refine ⟨heq, ?_, ?_, ?_⟩
  · intro i j hj
    have : xsize.toNat ≤ wrap.toNat := Int.toNat_le_toNat h1
    rw [Nat.add_mul, Nat.one_mul]
    omega
  · rw [heq]; simp [Nat.add_comm]
  · rw [heq, List.tail_cons, Sink.bytes]
    rw [flatten_length_const _ xsize.toNat]
    · simp [Nat.mul_comm]
    · intro wr hwr
      simp only [List.mem_map] at hwr
      obtain ⟨i, _, rfl⟩ := hwr
      simp

/-- C29, evaluated: an image of 2 by 2 with stride 3 in the buffer
`1, 2, 9, 3, 4, 9`; the writes after the header are `[1, 2]` and `[3, 4]`, and
the padding bytes `9` are not written. -/
theorem C29_pgm_save_writes_header_and_rows_witness :
    DecodeVideo.pgm_save (mem [1, 2, 9, 3, 4, 9]) 3 2 2 =
      [DecodeVideo.str_bytes "P5\n2 2\n255\n", [1, 2], [3, 4]] ∧
    (Sink.bytes (DecodeVideo.pgm_save (mem [1, 2, 9, 3, 4, 9]) 3 2 2).tail).length = 4 := by
  have h := C29_pgm_save_writes_header_and_rows (mem [1, 2, 9, 3, 4, 9]) 3 2 2
    (by decide) (by decide) (by decide)
  exact ⟨h.1.trans (congrArg₂ List.cons rfl (by decide)), h.2.2.2⟩

section BoundLemmas
variable {σ : Type}

theorem DecodeAudio.parsed_bound (L : DecodeAudio.Lib σ) (hc : ParserContract L.av_parser_parse2)
    (st : DecodeAudio.State σ) (h : st.data + st.data_size ≤ DecodeAudio.AUDIO_INBUF_SIZE) :
    (DecodeAudio.parse_call L st).1.toNat ≤ st.data_size ∧
    (DecodeAudio.parsed L st).data_size =
      st.data_size - (DecodeAudio.parse_call L st).1.toNat ∧
    (DecodeAudio.parsed L st).data + (DecodeAudio.parsed L st).data_size ≤
      DecodeAudio.AUDIO_INBUF_SIZE := by
  have hA : DecodeAudio.AUDIO_INBUF_SIZE = 20480 := rfl
  obtain ⟨h0, h1⟩ := hc st.w.ctx (st.inbuf.add st.data) st.data_size
  have h0' : 0 ≤ (DecodeAudio.parse_call L st).1 := h0
  have h1' : (DecodeAudio.parse_call L st).1 ≤ st.data_size := h1
  obtain ⟨hd, hs, _⟩ := DecodeAudio.parsed_cursor L st h0' h1' (by omega)
  refine ⟨by omega, hs, ?_⟩
  rw [hd, hs]
  omega

theorem DecodeAudio.refill_bound (st : DecodeAudio.State σ)
    (h : st.data + st.data_size ≤ DecodeAudio.AUDIO_INBUF_SIZE) :
    (DecodeAudio.refill st).data + (DecodeAudio.refill st).data_size ≤
      DecodeAudio.AUDIO_INBUF_SIZE := by
  by_cases hlt : st.data_size < DecodeAudio.AUDIO_REFILL_THRESH
  · have hT : DecodeAudio.AUDIO_REFILL_THRESH = 4096 := rfl
    have hA : DecodeAudio.AUDIO_INBUF_SIZE = 20480 := rfl
    rw [(DecodeAudio.refill_window st hlt).1, DecodeAudio.refill_size st hlt]
    have := fread_length_le st.infile (DecodeAudio.AUDIO_INBUF_SIZE - st.data_size)
    omega
  · rw [DecodeAudio.refill_same st (by omega)]
    exact h

theorem DecodeAudio.feed_loop_bound (L : DecodeAudio.Lib σ)
    (hc : ParserContract L.av_parser_parse2) (fuel n : Nat) (st : DecodeAudio.State σ)
    (h : st.data + st.data_size ≤ DecodeAudio.AUDIO_INBUF_SIZE) :
    (DecodeAudio.feed_loop L fuel n st).2.data + (DecodeAudio.feed_loop L fuel n st).2.data_size ≤
      DecodeAudio.AUDIO_INBUF_SIZE :=
  (DecodeAudio.feed_loop_rule L fuel
    (fun st => st.data + st.data_size ≤ DecodeAudio.AUDIO_INBUF_SIZE)
    (fun st => st.data + st.data_size ≤ DecodeAudio.AUDIO_INBUF_SIZE)
    (fun _ h => h) (fun _ h _ _ => h)
    (fun st h _ _ _ => ⟨(DecodeAudio.parsed_bound L hc st h).2.2,
      fun _ _ _ => DecodeAudio.refill_bound _ (DecodeAudio.parsed_bound L hc st h).2.2⟩)
    (fun st h _ _ _ => DecodeAudio.refill_bound _ (DecodeAudio.parsed_bound L hc st h).2.2)
    n st h).1

theorem DecodeAudio.main_bound (L : DecodeAudio.Lib σ)
    (hc : ParserContract L.av_parser_parse2) (fuel : Nat) (st : DecodeAudio.State σ) :
    (DecodeAudio.main L fuel st).2.data + (DecodeAudio.main L fuel st).2.data_size ≤
      DecodeAudio.AUDIO_INBUF_SIZE := by
  have hb := DecodeAudio.feed_loop_bound L hc fuel fuel (DecodeAudio.first_read st)
    (by
      show 0 + (fread st.infile DecodeAudio.AUDIO_INBUF_SIZE).1.length ≤ _
      have := fread_length_le st.infile DecodeAudio.AUDIO_INBUF_SIZE
      omega)
  unfold DecodeAudio.main
  rcases hres : DecodeAudio.feed_loop L fuel fuel (DecodeAudio.first_read st) with ⟨o, st1⟩
  rw [hres] at hb
  cases o with
  | finished =>
    dsimp only
    rcases hdec : DecodeAudio.decode L fuel st1.w { st1.pkt with data := none, size := 0 }
      with ⟨_ | r, w1⟩ <;> exact hb
  | timeout => exact hb
  | exited code => exact hb
  | jumped => exact hb

end BoundLemmas

/-- C28: in decode_audio.c, with a parser that respects its contract
(`0 ≤ ret ≤ data_size`), the window stays inside the input buffer.  The first
read leaves `data + data_size ≤ AUDIO_INBUF_SIZE`, which is 20480.  From a
state within that bound: after the parser call and the advance, `data_size`
is the old value less `ret` with `ret ≤ data_size`, so the subtraction does
not wrap, and the bound holds; a refill asks `fread` for exactly
`AUDIO_INBUF_SIZE - data_size` bytes, receives at most that many, and the
bound holds after it; so the bound holds in every state in which the feeding
loop, and `main`, can stop, whatever the loop bound and the outcome. -/
theorem C28_window_stays_inside_inbuf :
    DecodeAudio.AUDIO_INBUF_SIZE = 20480 ∧
    (∀ {σ : Type} (st : DecodeAudio.State σ),
      (DecodeAudio.first_read st).data + (DecodeAudio.first_read st).data_size ≤
        DecodeAudio.AUDIO_INBUF_SIZE) ∧
    (∀ {σ : Type} (L : DecodeAudio.Lib σ), ParserContract L.av_parser_parse2 →
      ∀ (st : DecodeAudio.State σ),
        st.data + st.data_size ≤ DecodeAudio.AUDIO_INBUF_SIZE →
        (DecodeAudio.parse_call L st).1.toNat ≤ st.data_size ∧
        (DecodeAudio.parsed L st).data_size =
          st.data_size - (DecodeAudio.parse_call L st).1.toNat ∧
        (DecodeAudio.parsed L st).data + (DecodeAudio.parsed L st).data_size ≤
          DecodeAudio.AUDIO_INBUF_SIZE) ∧
    (∀ {σ : Type} (st : DecodeAudio.State σ),
      st.data + st.data_size ≤ DecodeAudio.AUDIO_INBUF_SIZE →
      (st.data_size < DecodeAudio.AUDIO_REFILL_THRESH →
        to_size_t ((DecodeAudio.AUDIO_INBUF_SIZE : Int) - st.data_size) =
          DecodeAudio.AUDIO_INBUF_SIZE - st.data_size ∧
        (DecodeAudio.refill st).data_size = st.data_size +
          (fread st.infile (DecodeAudio.AUDIO_INBUF_SIZE - st.data_size)).1.length ∧
        (fread st.infile (DecodeAudio.AUDIO_INBUF_SIZE - st.data_size)).1.length ≤
          DecodeAudio.AUDIO_INBUF_SIZE - st.data_size) ∧
      (DecodeAudio.refill st).data + (DecodeAudio.refill st).data_size ≤
        DecodeAudio.AUDIO_INBUF_SIZE) ∧
    (∀ {σ : Type} (L : DecodeAudio.Lib σ), ParserContract L.av_parser_parse2 →
      ∀ (fuel n : Nat) (st : DecodeAudio.State σ),
        (st.data + st.data_size ≤ DecodeAudio.AUDIO_INBUF_SIZE →
          (DecodeAudio.feed_loop L fuel n st).2.data +
            (DecodeAudio.feed_loop L fuel n st).2.data_size ≤ DecodeAudio.AUDIO_INBUF_SIZE) ∧
        (DecodeAudio.main L fuel st).2.data + (DecodeAudio.main L fuel st).2.data_size ≤
          DecodeAudio.AUDIO_INBUF_SIZE) := by
  refine ⟨rfl, fun st => ?_, fun L hc st h => DecodeAudio.parsed_bound L hc st h,
    fun st h => ⟨fun hlt => ⟨DecodeAudio.refill_request st hlt, DecodeAudio.refill_size st hlt,
      fread_length_le _ _⟩, DecodeAudio.refill_bound st h⟩,
    fun L hc fuel n st => ⟨fun h => DecodeAudio.feed_loop_bound L hc fuel n st h,
      DecodeAudio.main_bound L hc fuel st⟩⟩
  show 0 + (fread st.infile DecodeAudio.AUDIO_INBUF_SIZE).1.length ≤ _
  have := fread_length_le st.infile DecodeAudio.AUDIO_INBUF_SIZE
  omega

/-- C28, evaluated with the example parser on the input `[1, 2, 3]`: after
the first parser call `data_size` is 1; the refill of the state after the
first read, with 3 bytes in the window, asks for 20477 bytes; the window is
inside the buffer when `main` ends, and also for an input of 30000 bytes. -/
theorem C28_window_stays_inside_inbuf_witness :
    (DecodeAudio.parsed toyAudioLib
      (DecodeAudio.first_read (toyAudioState (toy0 true) [1, 2, 3] []))).data_size = 1 ∧
    to_size_t ((DecodeAudio.AUDIO_INBUF_SIZE : Int) -
      (DecodeAudio.first_read (toyAudioState (toy0 true) [1, 2, 3] [])).data_size) = 20477 ∧
    (DecodeAudio.main toyAudioLib 9 (toyAudioState (toy0 true) [1, 2, 3] [])).2.data +
      (DecodeAudio.main toyAudioLib 9 (toyAudioState (toy0 true) [1, 2, 3] [])).2.data_size ≤
        20480 ∧
    (DecodeAudio.main toyAudioLib 9
        (toyAudioState (toy0 true) (List.replicate 30000 7) [])).2.data +
      (DecodeAudio.main toyAudioLib 9
        (toyAudioState (toy0 true) (List.replicate 30000 7) [])).2.data_size ≤
        DecodeAudio.AUDIO_INBUF_SIZE := by
  have a := (C28_window_stays_inside_inbuf.2.2.1 toyAudioLib toyParse_contract
    (DecodeAudio.first_read (toyAudioState (toy0 true) [1, 2, 3] [])) (by decide)).2.1
  have b := ((C28_window_stays_inside_inbuf.2.2.2.1
    (DecodeAudio.first_read (toyAudioState (toy0 true) [1, 2, 3] [])) (by decide)).1
      (by decide)).1
  have c := (C28_window_stays_inside_inbuf.2.2.2.2 toyAudioLib toyParse_contract 9 9
    (toyAudioState (toy0 true) [1, 2, 3] [])).2
  have d := (C28_window_stays_inside_inbuf.2.2.2.2 toyAudioLib toyParse_contract 9 9
    (toyAudioState (toy0 true) (List.replicate 30000 7) [])).2
  exact ⟨a.trans (by decide), b.trans (by decide), c, d⟩

section PacketLoopLemmas
variable {σ φ : Type}
open DemuxingDecoding

theorem DemuxingDecoding.video_loop_result (L : Lib σ φ) (k : Config) (d : Int) :
    ∀ (fuel : Nat) (ret : Int) (st : State σ φ), 0 ≤ ret →
      (video_loop L k d fuel ret st).2.pkt = st.pkt ∧
      ∀ r, (video_loop L k d fuel ret st).1 = some r → r ≤ 0 := by
  intro fuel
  induction fuel with
  | zero => intro ret st _; exact ⟨rfl, fun r h => by simp [video_loop] at h⟩
  | succ n ih =>
    intro ret st h0
    unfold video_loop
    rw [if_pos h0]
    dsimp only
    split_ifs with h1 h2 h3
    · exact ⟨rfl, fun r h => by cases h; exact le_refl _⟩
    · exact ⟨rfl, fun r h => by cases h; exact le_of_lt h2⟩
    · exact ⟨rfl, fun r h => by cases h; decide⟩
    · exact ih _ _ (not_lt.mp h2)

theorem DemuxingDecoding.audio_loop_result (L : Lib σ φ) (d : Int) :
    ∀ (fuel : Nat) (ret : Int) (st : State σ φ), 0 ≤ ret →
      (audio_loop L d fuel ret st).2.pkt = st.pkt ∧
      ∀ r, (audio_loop L d fuel ret st).1 = some r → r ≤ 0 := by
  intro fuel
  induction fuel with
  | zero => intro ret st _; exact ⟨rfl, fun r h => by simp [audio_loop] at h⟩
  | succ n ih =>
    intro ret st h0
    unfold audio_loop
    rw [if_pos h0]
    dsimp only
    split_ifs with h1 h2
    · exact ⟨rfl, fun r h => by cases h; exact le_refl _⟩
    · exact ⟨rfl, fun r h => by cases h; exact le_of_lt h2⟩
    · exact ih _ _ (not_lt.mp h2)

/-- For a packet of the video or the audio stream, `decode_packet` leaves the
packet as it is and returns 0 or a negative value: never the number of bytes
used. -/
theorem DemuxingDecoding.decode_packet_result (L : Lib σ φ) (k : Config) (fuel : Nat)
    (cached : Int) (st : State σ φ)
    (hs : st.pkt.stream_index = k.video_stream_idx ∨ st.pkt.stream_index = k.audio_stream_idx) :
    (decode_packet L k fuel cached st).2.pkt = st.pkt ∧
    ∀ r, (decode_packet L k fuel cached st).1 = some r → r ≤ 0 := by
  unfold decode_packet
  dsimp only
  by_cases hv : st.pkt.stream_index = k.video_stream_idx
  · rw [if_pos hv]
    by_cases hneg : (L.video.send st.video_dec_ctx st.pkt).1 < 0
    · rw [if_pos hneg]
      exact ⟨rfl, fun r h => by cases h; exact le_of_lt hneg⟩
    · rw [if_neg hneg]
      exact video_loop_result L k _ fuel _ _ (not_lt.mp hneg)
  · rw [if_neg hv]
    have ha : st.pkt.stream_index = k.audio_stream_idx := hs.resolve_left hv
    rw [if_pos ha]
    by_cases hneg : (L.audio.send st.audio_dec_ctx st.pkt).1 < 0
    · rw [if_pos hneg]
      exact ⟨rfl, fun r h => by cases h; exact le_of_lt hneg⟩
    · rw [if_neg hneg]
      exact audio_loop_result L _ fuel _ _ (not_lt.mp hneg)

/-- The `do ... while` loop of `main` on a packet of positive size of the
video or the audio stream leaves only with a negative value. -/
theorem DemuxingDecoding.packet_loop_leaves_by_error (L : Lib σ φ) (k : Config) (fuel : Nat) :
    ∀ (n : Nat) (st : State σ φ),
      (st.pkt.stream_index = k.video_stream_idx ∨ st.pkt.stream_index = k.audio_stream_idx) →
      0 < st.pkt.size →
      ∀ r, (packet_loop L k fuel n st).1 = some r → r < 0 := by
  intro n
  induction n with
  | zero => intro st _ _ r h; simp [packet_loop] at h
  | succ n ih =>
    intro st hs hz r h
    obtain ⟨hp, hr⟩ := decode_packet_result L k fuel 0 st hs
    rw [packet_loop] at h
    rcases hres : decode_packet L k fuel 0 st with ⟨_ | ret, st1⟩
    · rw [hres] at h; simp at h
    · rw [hres] at h hp hr
      dsimp only at h hp
      by_cases hneg : ret < 0
      · rw [if_pos hneg] at h
        cases h
        exact hneg
      · rw [if_neg hneg] at h
        have h0 : ret = 0 := le_antisymm (hr ret rfl) (not_lt.mp hneg)
        subst h0
        have hsize : (0 : Int) < st1.pkt.size - 0 := by rw [hp]; simpa using hz
        rw [if_pos hsize] at h
        exact ih _ (by rw [hp] at *; exact hs) hsize r h

/-- While `decode_packet` returns 0 in the states of `I`, the `do ... while`
loop of `main` has not ended after any number of iterations. -/
theorem DemuxingDecoding.packet_loop_goes_on (L : Lib σ φ) (k : Config) (fuel : Nat)
    (I : State σ φ → Prop)
    (hI : ∀ st, I st → 0 < st.pkt.size ∧
      (decode_packet L k fuel 0 st).1 = some 0 ∧
      (decode_packet L k fuel 0 st).2.pkt = st.pkt ∧
      I { (decode_packet L k fuel 0 st).2 with
            pkt := { (decode_packet L k fuel 0 st).2.pkt with
                       data := (decode_packet L k fuel 0 st).2.pkt.data.map (fun p => p.add 0),
                       size := (decode_packet L k fuel 0 st).2.pkt.size } }) :
    ∀ (n : Nat) (st : State σ φ), I st → (packet_loop L k fuel n st).1 = none := by
  intro n
  induction n with
  | zero => intro _ _; rfl
  | succ n ih =>
    intro st h
    obtain ⟨hz, hd, hp, hn⟩ := hI st h
    rw [packet_loop_repeats L k fuel n st hd (by rw [hp]; exact hz)]
    exact ih _ hn

end PacketLoopLemmas

theorem toyBusy_step (st : DemuxingDecoding.State Toy (List (Int × List Byte)))
    (h : toyBusy st) :
    0 < st.pkt.size ∧
    (DemuxingDecoding.decode_packet toyLib toyConfig 3 0 st).1 = some 0 ∧
    (DemuxingDecoding.decode_packet toyLib toyConfig 3 0 st).2.pkt = st.pkt ∧
    toyBusy { (DemuxingDecoding.decode_packet toyLib toyConfig 3 0 st).2 with
      pkt := { (DemuxingDecoding.decode_packet toyLib toyConfig 3 0 st).2.pkt with
        data := (DemuxingDecoding.decode_packet toyLib toyConfig 3 0 st).2.pkt.data.map
          (fun p => p.add 0),
        size := (DemuxingDecoding.decode_packet toyLib toyConfig 3 0 st).2.pkt.size } } := by
  obtain ⟨fmt, ⟨ready, held, flushed, buffering, send_ret⟩, a, ⟨data, size, stream_index, pts⟩,
    d, vc, ac, vf, af, calls⟩ := st
  obtain ⟨h1, h2, h3, h4, h5, h6⟩ := h
  dsimp only at h1 h2 h3 h4 h5 h6
  subst h1 h2 h3 h4 h5 h6
  have hrun : DemuxingDecoding.decode_packet toyLib toyConfig 3 0
      { fmt_ctx := fmt,
        video_dec_ctx := { ready := [], held := held, flushed := false, buffering := true,
                           send_ret := 0 },
        audio_dec_ctx := a,
        pkt := { data := data, size := 1, stream_index := 0, pts := pts },
        video_dst_data := d, video_frame_count := vc, audio_frame_count := ac,
        video_dst_file := vf, audio_dst_file := af, calls := calls } =
      (some 0,
       { fmt_ctx := fmt,
         video_dec_ctx :=
           { ready := [], held := (held ++ [AVPacket.payload ⟨data, 1, 0, pts⟩]),
             flushed := false, buffering := true, send_ret := 0 },
         audio_dec_ctx := a,
         pkt := { data := data, size := 1, stream_index := 0, pts := pts },
         video_dst_data := d, video_frame_count := vc, audio_frame_count := ac,
         video_dst_file := vf, audio_dst_file := af,
         calls := calls ++ [DemuxingDecoding.DCall.send_video 1 0] ++
           [DemuxingDecoding.DCall.receive_video (-11)] }) := by
    simp [DemuxingDecoding.decode_packet, DemuxingDecoding.video_loop, toyLib, toyDecoder,
      Toy.send, Toy.receive, toyConfig, linux]
  rw [hrun]
  exact ⟨show (0 : Int) < 1 by decide, rfl, rfl, rfl, rfl, rfl, rfl, rfl, rfl⟩

/-- C26: for a packet of positive size of the video or the audio stream, the
`do ... while` loop of `main` around `decode_packet(0)` returns only with a
negative value, that is, after an error: `decode_packet` returns 0 when the
decoder has accepted the packet and reported `AVERROR(EAGAIN)` or
`AVERROR_EOF`, the packet keeps its size, and the loop goes round again.  With
the example decoder, which accepts every submission and reports
`AVERROR(EAGAIN)` (after no frame), the loop on a video packet of size 1 has
not ended after `n` iterations, for every `n`. -/
theorem C26_packet_loop_does_not_end :
    (∀ {σ φ : Type} (L : DemuxingDecoding.Lib σ φ) (k : DemuxingDecoding.Config) (fuel n : Nat)
        (st : DemuxingDecoding.State σ φ),
      (st.pkt.stream_index = k.video_stream_idx ∨ st.pkt.stream_index = k.audio_stream_idx) →
      0 < st.pkt.size →
      ∀ r, (DemuxingDecoding.packet_loop L k fuel n st).1 = some r → r < 0) ∧
    (∀ n : Nat,
      (DemuxingDecoding.packet_loop toyLib toyConfig 3 n
        { toyState (toy0 true) (toy0 true) [] 0 with pkt := toyPacket [7] }).1 = none) ∧
    (DemuxingDecoding.packet_loop toyLib toyConfig 3 3
        { toyState (toy0 true) (toy0 true) [] 0 with pkt := toyPacket [7] }).2.calls =
      [DemuxingDecoding.DCall.send_video 1 0, DemuxingDecoding.DCall.receive_video (-11),
       DemuxingDecoding.DCall.send_video 1 0, DemuxingDecoding.DCall.receive_video (-11),
       DemuxingDecoding.DCall.send_video 1 0, DemuxingDecoding.DCall.receive_video (-11)] := by
  refine ⟨fun L k fuel n st hs hz r h =>
      DemuxingDecoding.packet_loop_leaves_by_error L k fuel n st hs hz r h,
    fun n => DemuxingDecoding.packet_loop_goes_on toyLib toyConfig 3 toyBusy toyBusy_step n _
      ⟨rfl, rfl, rfl, rfl, rfl, rfl⟩,
    by decide⟩

/-- C26, evaluated with a decoder that has room for one packet: the second
submission of the same packet is refused with `AVERROR(EAGAIN)`, and this
error, -11, is what ends the loop. -/
theorem C26_packet_loop_does_not_end_witness :
    (DemuxingDecoding.packet_loop toyOnceLib toyConfig 3 3
        { toyState (toy0 true) (toy0 true) [] 0 with pkt := toyPacket [7] }).1 = some (-11) ∧
    (-11 : Int) < 0 := by
  have h : (DemuxingDecoding.packet_loop toyOnceLib toyConfig 3 3
      { toyState (toy0 true) (toy0 true) [] 0 with pkt := toyPacket [7] }).1 = some (-11) := by
    decide
  exact ⟨h, C26_packet_loop_does_not_end.1 toyOnceLib toyConfig 3 3
    { toyState (toy0 true) (toy0 true) [] 0 with pkt := toyPacket [7] }
    (Or.inl rfl) (by decide) (-11) h⟩

/-- C27: on an empty input file the first read of `main` of decode_audio.c
delivers nothing, the feeding loop is not entered, so `decoded_frame` is not
allocated, and `main` goes on to the flush call of `decode` with
`decoded_frame` still null: the state after `main` has `decoded_frame` null
and its world is that of the call of `decode` on the flush packet.  Inside the
feeding loop the frame is allocated before the parser call, so there every
call of `decode` has a frame.  Evaluated on the empty file with the example
decoder: `decode` submits the flush packet and calls
`avcodec_receive_frame`, with `decoded_frame` null. -/
theorem C27_flush_call_gets_null_frame :
    (∀ {σ : Type} (L : DecodeAudio.Lib σ) (fuel : Nat) (st : DecodeAudio.State σ),
      st.infile.rest = [] → st.decoded_frame = false → 0 < fuel →
      (DecodeAudio.main L fuel st).2.decoded_frame = false ∧
      (DecodeAudio.main L fuel st).2.w =
        (DecodeAudio.decode L fuel st.w { st.pkt with data := none, size := 0 }).2) ∧
    (∀ {σ : Type} (L : DecodeAudio.Lib σ) (st : DecodeAudio.State σ),
      (DecodeAudio.parsed L st).decoded_frame = true) ∧
    (DecodeAudio.main toyAudioLib 3 (toyAudioState (toy0 true) [] [])).1 = Outcome.finished ∧
    (DecodeAudio.main toyAudioLib 3 (toyAudioState (toy0 true) [] [])).2.decoded_frame = false ∧
    (DecodeAudio.main toyAudioLib 3 (toyAudioState (toy0 true) [] [])).2.w.calls =
      [Call.send 0, Call.receive (-541478725) (toyFrame [])] := by
  refine ⟨?_, fun L st => rfl, by decide, by decide, rfl⟩
  intro σ L fuel st hr hd hf
  obtain ⟨n, rfl⟩ : ∃ n, fuel = n + 1 := ⟨fuel - 1, by omega⟩
  have hz : (DecodeAudio.first_read st).data_size = 0 := by
    show (fread st.infile DecodeAudio.AUDIO_INBUF_SIZE).1.length = 0
    simp [fread, hr]
  have hloop : DecodeAudio.feed_loop L (n + 1) (n + 1) (DecodeAudio.first_read st) =
      (Outcome.finished, DecodeAudio.first_read st) := by
    rw [DecodeAudio.feed_loop, if_neg (by omega)]
  unfold DecodeAudio.main
  rw [hloop]
  dsimp only
  have hw : (DecodeAudio.first_read st).w = st.w := rfl
  have hp : (DecodeAudio.first_read st).pkt = st.pkt := rfl
  have hfr : (DecodeAudio.first_read st).decoded_frame = false := hd
  rw [hw, hp]
  rcases hdec : DecodeAudio.decode L (n + 1) st.w { st.pkt with data := none, size := 0 }
    with ⟨_ | r, w1⟩
  · exact ⟨hfr, rfl⟩
  · exact ⟨hfr, rfl⟩

/-- C27, evaluated on the empty file with the example decoder. -/
theorem C27_flush_call_gets_null_frame_witness :
    (DecodeAudio.main toyAudioLib 3 (toyAudioState (toy0 true) [] [])).2.decoded_frame = false ∧
    (DecodeAudio.main toyAudioLib 3 (toyAudioState (toy0 true) [] [])).2.w =
      (DecodeAudio.decode toyAudioLib 3 (toyAudioState (toy0 true) [] []).w
        { (toyAudioState (toy0 true) [] []).pkt with data := none, size := 0 }).2 :=
  C27_flush_call_gets_null_frame.1 toyAudioLib 3 (toyAudioState (toy0 true) [] [])
    rfl rfl (by decide)

/-- C24: `check_sample_fmt` returns 1 exactly when the sample format occurs in
the list before the terminator `AV_SAMPLE_FMT_NONE`, and 0 otherwise; in
particular it returns 0 for `AV_SAMPLE_FMT_NONE` itself. -/
theorem C24_check_sample_fmt_is_membership (fmts : List Int) (f : Int) :
    (EncodeAudio.check_sample_fmt fmts f = 1 ↔
      f ∈ fmts.takeWhile (fun p => decide (p ≠ EncodeAudio.AV_SAMPLE_FMT_NONE))) ∧
    (EncodeAudio.check_sample_fmt fmts f = 1 ∨ EncodeAudio.check_sample_fmt fmts f = 0) ∧
    EncodeAudio.check_sample_fmt fmts EncodeAudio.AV_SAMPLE_FMT_NONE = 0 := by
  refine ⟨?_, ?_, ?_⟩
  · induction fmts with
    | nil => simp [EncodeAudio.check_sample_fmt]
    | cons p ps ih =>
      unfold EncodeAudio.check_sample_fmt
      rw [List.takeWhile_cons]
      by_cases hn : p = EncodeAudio.AV_SAMPLE_FMT_NONE
      · have hd : ¬ decide (p ≠ EncodeAudio.AV_SAMPLE_FMT_NONE) = true := by simp [hn]
        rw [if_pos hn, if_neg hd]
        simp
      · have hd : decide (p ≠ EncodeAudio.AV_SAMPLE_FMT_NONE) = true := by simp [hn]
        rw [if_neg hn, if_pos hd]
        by_cases hf : p = f
        · rw [if_pos hf, hf]
          simp
        · rw [if_neg hf, ih]
          have hf' : ¬ f = p := fun h => hf h.symm
          simp [hf']
  · induction fmts with
    | nil => right; rfl
    | cons p ps ih =>
      unfold EncodeAudio.check_sample_fmt
      split_ifs
      · right; rfl
      · left; rfl
      · exact ih
  · induction fmts with
    | nil => rfl
    | cons p ps ih =>
      unfold EncodeAudio.check_sample_fmt
      split_ifs
      · rfl
      · exact ih

section ReadPacketLemmas

theorem to_int_of_range (x : Int) (h0 : -(2 ^ 31) ≤ x) (h1 : x < 2 ^ 31) : to_int x = x := by
  unfold to_int
  omega

/-- A call of `read_packet` with a positive `buf_size` while bytes are left. -/
theorem AvioReading.read_packet_some (c : ErrCodes) (bd : AvioReading.buffer_data) (buf : Ptr)
    (buf_size : Int) (h0 : 0 < buf_size) (h1 : buf_size < 2 ^ 31) (h2 : bd.size < 2 ^ 64)
    (h3 : 0 < bd.size) :
    AvioReading.read_packet c bd buf buf_size =
      (((min buf_size.toNat bd.size : Nat) : Int),
       { ptr := bd.ptr.add (min buf_size.toNat bd.size),
         size := bd.size - min buf_size.toNat bd.size },
       store buf 0 (bytesAt bd.ptr (min buf_size.toNat bd.size))) := by
  have hs : to_size_t buf_size = buf_size.toNat := to_size_t_of_nonneg _ (le_of_lt h0) (by omega)
  have hm : (if bd.size < to_size_t buf_size then (bd.size : Int)
      else (to_size_t buf_size : Int)) = ((min buf_size.toNat bd.size : Nat) : Int) := by
    rw [hs]
    split_ifs with h
    · rw [Nat.min_eq_right (le_of_lt h)]
    · rw [Nat.min_eq_left (not_lt.mp h)]
  have hlt : ((min buf_size.toNat bd.size : Nat) : Int) < 2 ^ 31 := by omega
  have hi : to_int ((min buf_size.toNat bd.size : Nat) : Int) =
      ((min buf_size.toNat bd.size : Nat) : Int) := to_int_of_range _ (by omega) hlt
  have hne : ((min buf_size.toNat bd.size : Nat) : Int) ≠ 0 := by omega
  have hn : to_size_t ((min buf_size.toNat bd.size : Nat) : Int) = min buf_size.toNat bd.size :=
    to_size_t_of_nat _ (by omega)
  have hsub : to_size_t ((bd.size : Int) - ((min buf_size.toNat bd.size : Nat) : Int)) =
      bd.size - min buf_size.toNat bd.size := by
    have : (bd.size : Int) - ((min buf_size.toNat bd.size : Nat) : Int) =
        ((bd.size - min buf_size.toNat bd.size : Nat) : Int) := by omega
    rw [this]
    exact to_size_t_of_nat _ (by omega)
  unfold AvioReading.read_packet
  simp only [hm, hi, if_neg hne, hn, hsub]

/-- A call of `read_packet` with a positive `buf_size` when no byte is left. -/
theorem AvioReading.read_packet_none (c : ErrCodes) (bd : AvioReading.buffer_data) (buf : Ptr)
    (buf_size : Int) (h0 : 0 < buf_size) (h1 : buf_size < 2 ^ 31) (h3 : bd.size = 0) :
    AvioReading.read_packet c bd buf buf_size = (c.EOF, bd, buf) := by
  have hs : to_size_t buf_size = buf_size.toNat := to_size_t_of_nonneg _ (le_of_lt h0) (by omega)
  unfold AvioReading.read_packet
  have hm : (if bd.size < to_size_t buf_size then (bd.size : Int)
      else (to_size_t buf_size : Int)) = 0 := by
    rw [hs, if_pos (by omega), h3]; rfl
  simp only [hm]
  rfl

theorem AvioReading.copied_some (c : ErrCodes) (hc : c.EOF < 0) (bd : AvioReading.buffer_data)
    (buf : Ptr) (buf_size : Int) (h0 : 0 < buf_size) (h1 : buf_size < 2 ^ 31)
    (h2 : bd.size < 2 ^ 64) (h3 : 0 < bd.size) :
    AvioReading.copied c (AvioReading.read_packet c bd buf buf_size) =
      (bytesAt bd.ptr bd.size).take (min buf_size.toNat bd.size) := by
  rw [AvioReading.read_packet_some c bd buf buf_size h0 h1 h2 h3]
  unfold AvioReading.copied
  have hne : ((min buf_size.toNat bd.size : Nat) : Int) ≠ c.EOF := by omega
  simp only [if_neg hne, Int.toNat_natCast]
  have h := bytesAt_store buf 0 (bytesAt bd.ptr (min buf_size.toNat bd.size))
  rw [bytesAt_length] at h
  have h0' : (store buf 0 (bytesAt bd.ptr (min buf_size.toNat bd.size))).add 0 =
      store buf 0 (bytesAt bd.ptr (min buf_size.toNat bd.size)) := by
    funext i; simp [Ptr.add]
  rw [h0'] at h
  rw [h]
  have hsplit := bytesAt_split bd.ptr bd.size (min buf_size.toNat bd.size) (Nat.min_le_right _ _)
  have hlen : ((bytesAt bd.ptr bd.size).take (min buf_size.toNat bd.size)).length =
      min buf_size.toNat bd.size := by
    rw [List.length_take, bytesAt_length]; omega
  have h1' : bytesAt bd.ptr bd.size =
      bytesAt bd.ptr (min buf_size.toNat bd.size) ++
        bytesAt (bd.ptr.add (min buf_size.toNat bd.size)) (bd.size - min buf_size.toNat bd.size) := by
    rw [← bytesAt_add]; congr 1; omega
  rw [h1']
  exact (List.take_left' (bytesAt_length _ _)).symm

/-- The round trip of successive calls of `read_packet`: the bytes copied, in
order, followed by the bytes still in the buffer, are the bytes that were in
the buffer. -/
theorem AvioReading.read_sequence_round_trip (c : ErrCodes) (hc : c.EOF < 0) :
    ∀ (calls : List (Ptr × Int)) (bd : AvioReading.buffer_data),
      (∀ x ∈ calls, 0 < x.2 ∧ x.2 < 2 ^ 31) → bd.size < 2 ^ 64 →
      (AvioReading.read_sequence c bd calls).1.flatten ++
          bytesAt (AvioReading.read_sequence c bd calls).2.ptr
            (AvioReading.read_sequence c bd calls).2.size = bytesAt bd.ptr bd.size ∧
      (AvioReading.read_sequence c bd calls).2.size +
          (AvioReading.read_sequence c bd calls).1.flatten.length = bd.size := by
  intro calls
  induction calls with
  | nil => intro bd _ _; simp [AvioReading.read_sequence]
  | cons x xs ih =>
    intro bd hx hsz
    obtain ⟨hx0, hx1⟩ := hx x (List.mem_cons_self _ _)
    have hxs : ∀ y ∈ xs, 0 < y.2 ∧ y.2 < 2 ^ 31 := fun y hy => hx y (List.mem_cons_of_mem _ hy)
    unfold AvioReading.read_sequence
    dsimp only
    by_cases h3 : 0 < bd.size
    · rw [AvioReading.copied_some c hc bd x.1 x.2 hx0 hx1 hsz h3,
        AvioReading.read_packet_some c bd x.1 x.2 hx0 hx1 hsz h3]
      dsimp only
      obtain ⟨ih1, ih2⟩ := ih
        { ptr := bd.ptr.add (min x.2.toNat bd.size), size := bd.size - min x.2.toNat bd.size }
        hxs (by show bd.size - _ < _; omega)
      dsimp only at ih1 ih2
      refine ⟨?_, ?_⟩
      · rw [List.flatten_cons, List.append_assoc, ih1,
          bytesAt_drop _ _ _ (Nat.min_le_right _ _), List.take_append_drop]
      · rw [List.flatten_cons, List.length_append, List.length_take, bytesAt_length]
        omega
    · have hz : bd.size = 0 := by omega
      rw [AvioReading.read_packet_none c bd x.1 x.2 hx0 hx1 hz]
      dsimp only
      obtain ⟨ih1, ih2⟩ := ih bd hxs hsz
      refine ⟨?_, ?_⟩
      · rw [List.flatten_cons, List.append_assoc, ih1]
        simp [AvioReading.copied]
      · rw [List.flatten_cons, List.length_append]
        simp only [AvioReading.copied, if_true, List.length_nil]
        omega

end ReadPacketLemmas

/-- C21: `read_packet` of avio_reading.c, called with a positive `buf_size`
(an `int`) on a buffer with `bd->size` bytes left (a `size_t`).  While bytes
are left, the call returns `min(buf_size, bd->size)`, copies that many bytes,
the first of those left, to `buf`, advances `bd->ptr` by that number and
lowers `bd->size` by it.  When no byte is left it returns `AVERROR_EOF` and
leaves `bd` and `buf` as they were; and it returns `AVERROR_EOF` (a negative
value) only then.  For every sequence of such calls, the bytes copied by the
successive calls, in order, followed by the bytes still left, are the bytes of
the buffer at the start, and `bd->size` is the size at the start less the
number of bytes copied. -/
theorem C21_read_packet_round_trip (c : ErrCodes) (hc : c.EOF < 0) :
    (∀ (bd : AvioReading.buffer_data) (buf : Ptr) (buf_size : Int),
      0 < buf_size → buf_size < 2 ^ 31 → bd.size < 2 ^ 64 →
      (0 < bd.size →
        AvioReading.read_packet c bd buf buf_size =
          (((min buf_size.toNat bd.size : Nat) : Int),
           { ptr := bd.ptr.add (min buf_size.toNat bd.size),
             size := bd.size - min buf_size.toNat bd.size },
           store buf 0 (bytesAt bd.ptr (min buf_size.toNat bd.size))) ∧
        AvioReading.copied c (AvioReading.read_packet c bd buf buf_size) =
          (bytesAt bd.ptr bd.size).take (min buf_size.toNat bd.size)) ∧
      (bd.size = 0 → AvioReading.read_packet c bd buf buf_size = (c.EOF, bd, buf)) ∧
      ((AvioReading.read_packet c bd buf buf_size).1 = c.EOF ↔ bd.size = 0)) ∧
    (∀ (calls : List (Ptr × Int)) (bd : AvioReading.buffer_data),
      (∀ x ∈ calls, 0 < x.2 ∧ x.2 < 2 ^ 31) → bd.size < 2 ^ 64 →
      (AvioReading.read_sequence c bd calls).1.flatten ++
          bytesAt (AvioReading.read_sequence c bd calls).2.ptr
            (AvioReading.read_sequence c bd calls).2.size = bytesAt bd.ptr bd.size ∧
      (AvioReading.read_sequence c bd calls).2.size +
          (AvioReading.read_sequence c bd calls).1.flatten.length = bd.size) := by
  refine ⟨fun bd buf buf_size h0 h1 h2 => ⟨fun h3 => ?_, fun h3 => ?_, ?_⟩,
    fun calls bd hx hsz => AvioReading.read_sequence_round_trip c hc calls bd hx hsz⟩
  · exact ⟨AvioReading.read_packet_some c bd buf buf_size h0 h1 h2 h3,
      AvioReading.copied_some c hc bd buf buf_size h0 h1 h2 h3⟩
  · exact AvioReading.read_packet_none c bd buf buf_size h0 h1 h3
  · constructor
    · intro he
      by_contra hne
      have h3 : 0 < bd.size := Nat.pos_of_ne_zero hne
      rw [AvioReading.read_packet_some c bd buf buf_size h0 h1 h2 h3] at he
      dsimp only at he
      omega
    · intro h3
      rw [AvioReading.read_packet_none c bd buf buf_size h0 h1 h3]

/-- C21, evaluated on a buffer with the bytes `1, 2, 3, 4, 5` and four calls
with `buf_size` 2: the calls copy `[1, 2]`, `[3, 4]`, `[5]` and nothing (the
last one returns `AVERROR_EOF`), and no byte is left. -/
theorem C21_read_packet_round_trip_witness :
    (AvioReading.read_packet linux { ptr := mem [1, 2, 3, 4, 5], size := 5 } (mem []) 2).1 = 2 ∧
    (AvioReading.read_packet linux { ptr := mem [1, 2, 3, 4, 5], size := 0 } (mem []) 2).1 =
      -541478725 ∧
    (AvioReading.read_sequence linux { ptr := mem [1, 2, 3, 4, 5], size := 5 }
      [(mem [], 2), (mem [], 2), (mem [], 2), (mem [], 2)]).1 = [[1, 2], [3, 4], [5], []] ∧
    (AvioReading.read_sequence linux { ptr := mem [1, 2, 3, 4, 5], size := 5 }
      [(mem [], 2), (mem [], 2), (mem [], 2), (mem [], 2)]).1.flatten ++
      bytesAt (AvioReading.read_sequence linux { ptr := mem [1, 2, 3, 4, 5], size := 5 }
        [(mem [], 2), (mem [], 2), (mem [], 2), (mem [], 2)]).2.ptr
        (AvioReading.read_sequence linux { ptr := mem [1, 2, 3, 4, 5], size := 5 }
        [(mem [], 2), (mem [], 2), (mem [], 2), (mem [], 2)]).2.size = [1, 2, 3, 4, 5] := by
  have a := congrArg Prod.fst (((C21_read_packet_round_trip linux (by decide)).1
    { ptr := mem [1, 2, 3, 4, 5], size := 5 } (mem []) 2 (by decide) (by decide) (by decide)).1
      (by decide)).1
  have b := congrArg Prod.fst (((C21_read_packet_round_trip linux (by decide)).1
    { ptr := mem [1, 2, 3, 4, 5], size := 0 } (mem []) 2 (by decide) (by decide)
      (by decide)).2.1 rfl)
  have d := ((C21_read_packet_round_trip linux (by decide)).2
    [(mem [], 2), (mem [], 2), (mem [], 2), (mem [], 2)]
    { ptr := mem [1, 2, 3, 4, 5], size := 5 } (by decide) (by decide)).1
  exact ⟨a.trans (by decide), b.trans (by decide), by decide, d.trans (by decide)⟩

section SampleRateLemmas

theorem EncodeAudio.entries_cons_zero (ps : List Int) : EncodeAudio.entries (0 :: ps) = [] := by
  simp [EncodeAudio.entries]

theorem EncodeAudio.entries_cons (p : Int) (ps : List Int) (h : p ≠ 0) :
    EncodeAudio.entries (p :: ps) = p :: EncodeAudio.entries ps := by
  simp [EncodeAudio.entries, List.takeWhile_cons, h]

theorem EncodeAudio.distance_int (x : Int) (h0 : 0 ≤ x) (h1 : x < 2 ^ 31) :
    (to_int (44100 - x)).natAbs = EncodeAudio.distance x := by
  rw [to_int_of_range _ (by omega) (by omega)]
  rfl

/-- The loop of `select_sample_rate` from a non-zero `best_samplerate`: either
it keeps that value, which is then at least as close to 44100 as every entry,
or it returns an entry that is closer than that value, closer than every entry
before it and at least as close as every entry after it. -/
theorem EncodeAudio.select_sample_rate_loop_spec :
    ∀ (p : List Int) (best : Int),
      (∀ x ∈ EncodeAudio.entries p, 0 < x ∧ x < 2 ^ 31) → 0 < best → best < 2 ^ 31 →
      (EncodeAudio.select_sample_rate_loop p best = best ∧
        ∀ q ∈ EncodeAudio.entries p, EncodeAudio.distance best ≤ EncodeAudio.distance q) ∨
      (∃ pre post, EncodeAudio.entries p =
          pre ++ EncodeAudio.select_sample_rate_loop p best :: post ∧
        EncodeAudio.distance (EncodeAudio.select_sample_rate_loop p best) <
          EncodeAudio.distance best ∧
        (∀ q ∈ pre, EncodeAudio.distance (EncodeAudio.select_sample_rate_loop p best) <
          EncodeAudio.distance q) ∧
        (∀ q ∈ post, EncodeAudio.distance (EncodeAudio.select_sample_rate_loop p best) ≤
          EncodeAudio.distance q)) := by
  intro p
  induction p with
  | nil => intro best _ _ _; left; exact ⟨rfl, by simp [EncodeAudio.entries]⟩
  | cons x xs ih =>
    intro best hx hb0 hb1
    unfold EncodeAudio.select_sample_rate_loop
    by_cases hz : x = 0
    · rw [if_pos hz, hz, EncodeAudio.entries_cons_zero]
      left; exact ⟨rfl, by simp⟩
    · rw [if_neg hz, EncodeAudio.entries_cons x xs hz]
      rw [EncodeAudio.entries_cons x xs hz] at hx
      obtain ⟨hx0, hx1⟩ := hx x (List.mem_cons_self _ _)
      have hxs : ∀ y ∈ EncodeAudio.entries xs, 0 < y ∧ y < 2 ^ 31 :=
        fun y hy => hx y (List.mem_cons_of_mem _ hy)
      rw [EncodeAudio.distance_int x (le_of_lt hx0) hx1,
        EncodeAudio.distance_int best (le_of_lt hb0) hb1]
      by_cases hcl : best = 0 ∨ EncodeAudio.distance x < EncodeAudio.distance best
      · rw [if_pos hcl]
        have hlt : EncodeAudio.distance x < EncodeAudio.distance best := by
          rcases hcl with h | h
          · omega
          · exact h
        rcases ih x hxs hx0 hx1 with ⟨he, hmin⟩ | ⟨pre, post, he, h1, h2, h3⟩
        · right
          refine ⟨[], EncodeAudio.entries xs, by rw [he]; rfl, by rw [he]; exact hlt,
            by simp, by rw [he]; exact hmin⟩
        · right
          refine ⟨x :: pre, post, by rw [he]; rfl, lt_trans h1 hlt, ?_, h3⟩
          intro q hq
          rcases List.mem_cons.mp hq with rfl | hq
          · exact h1
          · exact h2 q hq
      · rw [if_neg hcl]
        have hge : EncodeAudio.distance best ≤ EncodeAudio.distance x := by
          by_contra h
          exact hcl (Or.inr (by omega))
        rcases ih best hxs hb0 hb1 with ⟨he, hmin⟩ | ⟨pre, post, he, h1, h2, h3⟩
        · left
          refine ⟨he, ?_⟩
          intro q hq
          rcases List.mem_cons.mp hq with rfl | hq
          · exact hge
          · exact hmin q hq
        · right
          refine ⟨x :: pre, post, by rw [he]; rfl, h1, ?_, h3⟩
          intro q hq
          rcases List.mem_cons.mp hq with rfl | hq
          · exact lt_of_lt_of_le h1 hge
          · exact h2 q hq

end SampleRateLemmas

/-- What `select_sample_rate` computes: for every non-empty zero-terminated
list of supported sample rates (positive `int` values) it returns the first
entry of the list whose distance to 44100 is minimal: the result occurs in the
list, it is closer to 44100 than every entry before it, and at least as close
as every entry after it.  Without a list the result is 44100. -/
theorem EncodeAudio.select_sample_rate_closest (p : List Int)
    (hne : EncodeAudio.entries p ≠ [])
    (hx : ∀ x ∈ EncodeAudio.entries p, 0 < x ∧ x < 2 ^ 31) :
    (∃ pre post,
      EncodeAudio.entries p = pre ++ EncodeAudio.select_sample_rate (some p) :: post ∧
      (∀ q ∈ pre, EncodeAudio.distance (EncodeAudio.select_sample_rate (some p)) <
        EncodeAudio.distance q) ∧
      (∀ q ∈ post, EncodeAudio.distance (EncodeAudio.select_sample_rate (some p)) ≤
        EncodeAudio.distance q)) ∧
    (∀ q ∈ EncodeAudio.entries p,
      EncodeAudio.distance (EncodeAudio.select_sample_rate (some p)) ≤ EncodeAudio.distance q) ∧
    EncodeAudio.select_sample_rate none = 44100 := by
  have hmain : ∃ pre post,
      EncodeAudio.entries p = pre ++ EncodeAudio.select_sample_rate (some p) :: post ∧
      (∀ q ∈ pre, EncodeAudio.distance (EncodeAudio.select_sample_rate (some p)) <
        EncodeAudio.distance q) ∧
      (∀ q ∈ post, EncodeAudio.distance (EncodeAudio.select_sample_rate (some p)) ≤
        EncodeAudio.distance q) := by
    cases p with
    | nil => exact absurd rfl hne
    | cons x xs =>
      by_cases hz : x = 0
      · rw [hz, EncodeAudio.entries_cons_zero] at hne
        exact absurd rfl hne
      · rw [EncodeAudio.entries_cons x xs hz] at hx ⊢
        obtain ⟨hx0, hx1⟩ := hx x (List.mem_cons_self _ _)
        have hxs : ∀ y ∈ EncodeAudio.entries xs, 0 < y ∧ y < 2 ^ 31 :=
          fun y hy => hx y (List.mem_cons_of_mem _ hy)
        have hstep : EncodeAudio.select_sample_rate (some (x :: xs)) =
            EncodeAudio.select_sample_rate_loop xs x := by
          show EncodeAudio.select_sample_rate_loop (x :: xs) 0 = _
          rw [EncodeAudio.select_sample_rate_loop, if_neg hz, if_pos (Or.inl rfl)]
        rw [hstep]
        rcases EncodeAudio.select_sample_rate_loop_spec xs x hxs hx0 hx1 with
          ⟨he, hmin⟩ | ⟨pre, post, he, h1, h2, h3⟩
        · exact ⟨[], EncodeAudio.entries xs, by rw [he]; rfl, by simp, by rw [he]; exact hmin⟩
        · refine ⟨x :: pre, post, by rw [he]; rfl, ?_, h3⟩
          intro q hq
          rcases List.mem_cons.mp hq with rfl | hq
          · exact h1
          · exact h2 q hq
  refine ⟨hmain, ?_, rfl⟩
  obtain ⟨pre, post, he, h1, h2⟩ := hmain
  intro q hq
  rw [he] at hq
  rcases List.mem_append.mp hq with hq | hq
  · exact le_of_lt (h1 q hq)
  · rcases List.mem_cons.mp hq with rfl | hq
    · exact le_refl _
    · exact h2 q hq

/-- An example: among 8000, 48000, 40200 and 96000 the rates 48000 and 40200
are both 3900 away from 44100, and the first of them, 48000, is returned. -/
theorem EncodeAudio.select_sample_rate_closest_example :
    EncodeAudio.select_sample_rate (some [8000, 48000, 40200, 96000, 0]) = 48000 ∧
    (∀ q ∈ EncodeAudio.entries [8000, 48000, 40200, 96000, 0],
      EncodeAudio.distance (EncodeAudio.select_sample_rate (some [8000, 48000, 40200, 96000, 0]))
        ≤ EncodeAudio.distance q) := by
  have h := (EncodeAudio.select_sample_rate_closest [8000, 48000, 40200, 96000, 0]
    (by decide) (by decide)).2.1
  exact ⟨by decide, h⟩

/-- C22: `select_sample_rate` does not return the highest supported sample
rate.  For the supported sample rates 8000, 44100 and 96000 it returns 44100,
which is below the highest rate of the list, 96000; for the rates 44100,
48000, 32000, 22050, 24000 and 16000 it returns 44100 although 48000 is in
the list. -/
theorem C22_closest_rate_is_not_the_highest :
    EncodeAudio.select_sample_rate (some [8000, 44100, 96000, 0]) = 44100 ∧
    (96000 : Int) ∈ EncodeAudio.entries [8000, 44100, 96000, 0] ∧
    EncodeAudio.select_sample_rate (some [8000, 44100, 96000, 0]) < 96000 ∧
    EncodeAudio.select_sample_rate (some [44100, 48000, 32000, 22050, 24000, 16000, 0]) =
      44100 := by
  refine ⟨by decide, by decide, by decide, by decide⟩

/-- C23: `select_channel_layout` returns the selected `uint64_t` mask as an
`int`, so only its low 32 bits survive, sign-extended when it is stored into
`codec_ctx->channel_layout`.  For the layouts `0x3` (stereo, 2 channels) and
`0x100000007` (4 channels) the loop selects `0x100000007`, the function
returns 7, and the value stored is 7, which is not an entry of the list; for
`0x3` and `0x80000007` the function returns -2147483641 and the value stored
is `0xFFFFFFFF80000007`.  For masks below `2 ^ 31`, as in the list
`0x4, 0x3, 0x60F, 0x3F`, the value stored is the first entry with the highest
channel count, `0x60F`; without a list it is the stereo layout. -/
theorem C23_channel_layout_is_cut_to_int :
    EncodeAudio.select_channel_layout_loop toyPopcount [3, 4294967303, 0] 0 0 = 4294967303 ∧
    toyPopcount 3 = 2 ∧ toyPopcount 4294967303 = 4 ∧
    EncodeAudio.select_channel_layout toyPopcount (some [3, 4294967303, 0]) = 7 ∧
    EncodeAudio.stored_channel_layout toyPopcount (some [3, 4294967303, 0]) = 7 ∧
    EncodeAudio.stored_channel_layout toyPopcount (some [3, 4294967303, 0]) ∉
      [3, 4294967303] ∧
    EncodeAudio.select_channel_layout toyPopcount (some [3, 2147483655, 0]) = -2147483641 ∧
    EncodeAudio.stored_channel_layout toyPopcount (some [3, 2147483655, 0]) =
      18446744071562067975 ∧
    EncodeAudio.stored_channel_layout toyPopcount (some [4, 3, 1551, 63, 0]) = 1551 ∧
    (∀ nb_channels : Nat → Int,
      EncodeAudio.stored_channel_layout nb_channels none = EncodeAudio.AV_CH_LAYOUT_STEREO) := by
  refine ⟨by decide, by decide, by decide, by decide, by decide, by decide, by decide,
    by decide, by decide, fun _ => rfl⟩

section FillLemmas

theorem EncodeAudio.fill_samples_succ (v : Nat → Nat) (channels : Int) (n : Nat)
    (s : EncodeAudio.Samples) :
    EncodeAudio.fill_samples v channels ((n + 1 : Nat) : Int) s =
      (List.range' 1 (channels.toNat - 1)).foldl
        (fun (t : EncodeAudio.Samples) (k : Nat) => t.set (2 * n + k) (t.val (2 * n)))
        ((EncodeAudio.fill_samples v channels (n : Int) s).set (2 * n) (v n)) := by
  unfold EncodeAudio.fill_samples
  rw [Int.toNat_natCast, Int.toNat_natCast, List.range_succ, List.foldl_append]
  rfl

/-- The sample-fill loop for two channels: it writes the positions
`0, 1, ..., 2 * n - 1` in order, and puts `v j` at `2 * j` and `2 * j + 1`. -/
theorem EncodeAudio.fill_samples_stereo (v : Nat → Nat) (s : EncodeAudio.Samples) :
    ∀ n : Nat,
      (EncodeAudio.fill_samples v 2 (n : Int) s).written = s.written ++ List.range (2 * n) ∧
      ∀ i, (EncodeAudio.fill_samples v 2 (n : Int) s).val i =
        if i < 2 * n then v (i / 2) else s.val i := by
  intro n
  induction n with
  | zero =>
    refine ⟨by simp [EncodeAudio.fill_samples], fun i => ?_⟩
    simp [EncodeAudio.fill_samples]
  | succ n ih =>
    obtain ⟨ih1, ih2⟩ := ih
    rw [EncodeAudio.fill_samples_succ]
    have hr : List.range' 1 (Int.toNat 2 - 1) = [1] := by decide
    rw [hr]
    simp only [List.foldl_cons, List.foldl_nil, EncodeAudio.Samples.set]
    refine ⟨?_, fun i => ?_⟩
    · rw [ih1]
      have : List.range (2 * (n + 1)) = List.range (2 * n) ++ [2 * n] ++ [2 * n + 1] := by
        rw [show 2 * (n + 1) = (2 * n + 1) + 1 by omega, List.range_succ, List.range_succ]
      rw [this]
      simp [List.append_assoc]
    · simp only [if_true]
      rw [ih2]
      by_cases h1 : i = 2 * n + 1
      · rw [if_pos h1, if_pos (by omega)]
        congr 1; omega
      · rw [if_neg h1]
        by_cases h2 : i = 2 * n
        · rw [if_pos h2, if_pos (by omega)]
          congr 1; omega
        · rw [if_neg h2]
          by_cases h3 : i < 2 * n
          · rw [if_pos h3, if_pos (by omega)]
          · rw [if_neg h3, if_neg (by omega)]

end FillLemmas

/-- C25: the sample-fill loop of encode_audio.c writes `samples[2 * j]` and
`samples[2 * j + k]` for `0 < k < channels`: the stride is 2, whatever the
number of channels.  For two channels it writes the positions
`0, ..., 2 * n - 1` in order and every position `i` below `2 * n` holds
`v (i / 2)`.  For one channel and a frame of 2 samples it writes the
positions 0 and 2: position 2 is outside the buffer of `2 * 1` samples, and
position 1 keeps its old value 7.  For three channels and a frame of 2
samples it writes position 2 twice and never position 5, and position 2,
which belongs to sample 0, ends with the value of sample 1. -/
theorem C25_fill_loop_has_stride_two :
    (∀ (v : Nat → Nat) (n : Nat) (s : EncodeAudio.Samples),
      (EncodeAudio.fill_samples v 2 (n : Int) s).written = s.written ++ List.range (2 * n) ∧
      (List.range (2 * n)).map (EncodeAudio.fill_samples v 2 (n : Int) s).val =
        (List.range (2 * n)).map (fun i => v (i / 2))) ∧
    (EncodeAudio.fill_samples (fun j => 100 + j) 1 2 toySamples).written = [0, 2] ∧
    (List.range 4).map (EncodeAudio.fill_samples (fun j => 100 + j) 1 2 toySamples).val =
      [100, 7, 101, 7] ∧
    (EncodeAudio.fill_samples (fun j => 100 + j) 3 2 toySamples).written =
      [0, 1, 2, 2, 3, 4] ∧
    (List.range 6).map (EncodeAudio.fill_samples (fun j => 100 + j) 3 2 toySamples).val =
      [100, 100, 101, 101, 101, 7] := by
  refine ⟨fun v n s => ⟨(EncodeAudio.fill_samples_stereo v s n).1, ?_⟩,
    by decide, by decide, by decide, by decide⟩
  apply List.map_congr_left
  intro i hi
  rw [(EncodeAudio.fill_samples_stereo v s n).2 i, if_pos (List.mem_range.mp hi)]

end MediaDemo
